import Mathlib

/-!
# Block I/O server (system/dev/block/block/server.cpp)

A shallow embedding of the block server: the per-transaction accumulator
(`BlockTransaction::Enqueue`, `BlockTransaction::Complete`), the buffer
registry (`FindVmoIDLocked`, `AttachVmo`), the transaction table and the
dispatch loop (`BlockServer::Read`, `BlockServer::Serve`).

Effects (writes to the FIFO, submissions to the block device) are returned as
an explicit list, in program order.  Machine integers are natural numbers with
explicit reduction modulo the width of the C type.
-/

namespace Zircon

/-! ## Constants of headers outside the translated sources -/

/-- Constants that server.cpp takes from headers which are not among the
translated sources (`server.h`, `zircon/device/block.h`, `zircon/errors.h`,
`zircon/types.h`, `ddk/iotxn.h`).  They are parameters of the model;
`vmoid_max` is `fbl::numeric_limits<vmoid_t>::max()`. -/
structure Consts where
  ZX_OK : Int
  ZX_ERR_NO_RESOURCES : Int
  ZX_ERR_NO_MEMORY : Int
  ZX_ERR_INVALID_ARGS : Int
  ZX_ERR_SHOULD_WAIT : Int
  ZX_ERR_PEER_CLOSED : Int
  ZX_ERR_IO : Int
  ZX_FIFO_READABLE : Nat
  ZX_FIFO_PEER_CLOSED : Nat
  ZX_USER_SIGNAL_0 : Nat
  IOTXN_SYNC_BEFORE : Nat
  IOTXN_SYNC_AFTER : Nat
  kTxnFlagRespond : Nat
  MAX_TXN_MESSAGES : Nat
  MAX_TXN_COUNT : Nat
  VMOID_INVALID : Nat
  vmoid_max : Nat
  BLOCKIO_READ : Nat
  BLOCKIO_WRITE : Nat
  BLOCKIO_SYNC : Nat
  BLOCKIO_CLOSE_VMO : Nat
  BLOCKIO_OP_MASK : Nat
  BLOCKIO_TXN_END : Nat

/-- What the code relies on about the constants: success is the zero status
(the constructor zeroes the response with memset, and Serve tests a status for
truth), the error codes used differ from it, the respond flag is a non-zero
32-bit mask, and a transaction has at least one message slot and fewer than
2^32 of them. -/
structure Consts.WF (c : Consts) : Prop where
  ok_zero : c.ZX_OK = 0
  no_resources_ne_ok : c.ZX_ERR_NO_RESOURCES ≠ c.ZX_OK
  no_memory_ne_ok : c.ZX_ERR_NO_MEMORY ≠ c.ZX_OK
  io_ne_ok : c.ZX_ERR_IO ≠ c.ZX_OK
  invalid_args_ne_ok : c.ZX_ERR_INVALID_ARGS ≠ c.ZX_OK
  peer_closed_ne_ok : c.ZX_ERR_PEER_CLOSED ≠ c.ZX_OK
  respond_pos : c.kTxnFlagRespond ≠ 0
  respond_lt : c.kTxnFlagRespond < 2 ^ 32
  msgs_pos : 0 < c.MAX_TXN_MESSAGES
  msgs_lt : c.MAX_TXN_MESSAGES < 2 ^ 32

/-- A concrete instance of the constants, used only to evaluate the model on
examples: the status codes and signal bits of the Zircon headers, 16-bit
vmoids with `VMOID_INVALID = 0`, 16 messages per transaction, 256
transactions, and opcodes, masks and flag bits in the shape the code assumes
(distinct opcodes under `BLOCKIO_OP_MASK`, `BLOCKIO_TXN_END` outside the mask,
`IOTXN_SYNC_BEFORE` and `IOTXN_SYNC_AFTER` two distinct bits). -/
def zircon : Consts where
  ZX_OK := 0
  ZX_ERR_NO_RESOURCES := -3
  ZX_ERR_NO_MEMORY := -4
  ZX_ERR_INVALID_ARGS := -10
  ZX_ERR_SHOULD_WAIT := -22
  ZX_ERR_PEER_CLOSED := -24
  ZX_ERR_IO := -40
  ZX_FIFO_READABLE := 1
  ZX_FIFO_PEER_CLOSED := 4
  ZX_USER_SIGNAL_0 := 2 ^ 24
  IOTXN_SYNC_BEFORE := 1
  IOTXN_SYNC_AFTER := 2
  kTxnFlagRespond := 1
  MAX_TXN_MESSAGES := 16
  MAX_TXN_COUNT := 256
  VMOID_INVALID := 0
  vmoid_max := 65535
  BLOCKIO_READ := 1
  BLOCKIO_WRITE := 2
  BLOCKIO_SYNC := 3
  BLOCKIO_CLOSE_VMO := 4
  BLOCKIO_OP_MASK := 255
  BLOCKIO_TXN_END := 256

/-! ## Data model -/

/-- Wire response `block_fifo_response_t`: status, transaction id, count. -/
structure block_fifo_response_t where
  status : Int
  txnid : Nat
  count : Nat
deriving DecidableEq, Repr, Inhabited

/-- Wire request `block_fifo_request_t`. -/
structure block_fifo_request_t where
  txnid : Nat
  vmoid : Nat
  opcode : Nat
  length : Nat
  vmo_offset : Nat
  dev_offset : Nat
deriving DecidableEq, Repr

/-- A VMO as the server sees it: its handle and what `get_size` reports
(a status and, on success, the size in bytes). -/
structure zx_vmo where
  handle : Nat
  get_size_status : Int
  size : Nat
deriving DecidableEq, Repr

/-- A registered buffer: `IoBuffer(vmo, id)`. -/
structure IoBuffer where
  io_vmo : zx_vmo
  vmoid : Nat
deriving DecidableEq, Repr

/-- The address of a `block_msg_t`: the transaction object that owns the
`msgs_` array and the index in that array.  It is the cookie handed to the
block device. -/
structure MsgPtr where
  txn : Nat
  slot : Nat
deriving DecidableEq, Repr

/-- In-flight message `block_msg_t`.  `txn` and `iobuf` are the two RefPtr
members (`none` is the null pointer); `txn` refers to a transaction object of
the server. -/
structure block_msg_t where
  txn : Option Nat
  iobuf : Option IoBuffer
  flags : Nat
  opcode : Nat
  len_remaining : Nat
  vmo_offset : Nat
  dev_offset : Nat
deriving DecidableEq, Repr, Inhabited

/-- Arguments of one `block_read` / `block_write` call. -/
structure block_op where
  flags : Nat
  vmo : Option zx_vmo
  length : Nat
  vmo_offset : Nat
  dev_offset : Nat
  cookie : MsgPtr
deriving DecidableEq, Repr

/-- Observable effects, in program order: a record written to the FIFO, or a
submission to the block device. -/
inductive Effect where
  | fifo_write (r : block_fifo_response_t)
  | block_read (op : block_op)
  | block_write (op : block_op)
deriving DecidableEq, Repr

/-- The responses written to the FIFO among a list of effects. -/
def responsesOf : List Effect → List block_fifo_response_t
  | [] => []
  | Effect.fifo_write r :: es => r :: responsesOf es
  | _ :: es => responsesOf es

/-- The device submissions among a list of effects. -/
def submissionsOf : List Effect → List block_op
  | [] => []
  | Effect.fifo_write _ :: es => submissionsOf es
  | Effect.block_read op :: es => op :: submissionsOf es
  | Effect.block_write op :: es => op :: submissionsOf es

/-- Complement of a 32-bit value (`~x` stored into a `uint32_t`). -/
def not32 (x : Nat) : Nat := (2 ^ 32 - 1) - x % 2 ^ 32

/-- Source function `OutOfBandErrorRespond`: writes `{status, txnid, count = 0}`
to the FIFO. -/
def OutOfBandErrorRespond (status : Int) (txnid : Nat) : List Effect :=
  [Effect.fifo_write { status := status, txnid := txnid, count := 0 }]

/-! ## BlockTransaction -/

/-- The per-transaction accumulator `BlockTransaction` (the FIFO handle and the
device protocol are the single FIFO and device of the model). -/
structure BlockTransaction where
  max_xfer : Nat
  msgs : List block_msg_t
  response : block_fifo_response_t
  flags : Nat
  goal : Nat
deriving DecidableEq, Repr, Inhabited

/-- Constructor `BlockTransaction::BlockTransaction`: flags and goal are zero,
the response is zeroed and then given the txnid. -/
def BlockTransaction.new (c : Consts) (txnid : Nat) (max_xfer : Nat) : BlockTransaction where
  max_xfer := max_xfer
  msgs := List.replicate c.MAX_TXN_MESSAGES default
  response := { status := 0, txnid := txnid, count := 0 }
  flags := 0
  goal := 0

/-- The slot `msgs_[k]`. -/
def BlockTransaction.msg (t : BlockTransaction) (k : Nat) : block_msg_t :=
  t.msgs.getD k default

/-- Result of `Enqueue`: the returned status, `*msg_out` (the index of the
slot handed out), the transaction afterwards and the effects. -/
structure EnqueueResult where
  status : Int
  msg_out : Option Nat
  txn : BlockTransaction
  out : List Effect
deriving DecidableEq, Repr

/-- Source function `BlockTransaction::Enqueue(do_respond, msg_out)`. -/
def BlockTransaction.Enqueue (c : Consts) (t : BlockTransaction) (do_respond : Bool) :
    EnqueueResult :=
  if t.flags &&& c.kTxnFlagRespond ≠ 0 then
    { status := c.ZX_ERR_IO
      msg_out := none
      txn := t
      out := if do_respond then OutOfBandErrorRespond c.ZX_ERR_IO t.response.txnid else [] }
  else
    let do_respond := if t.goal = c.MAX_TXN_MESSAGES - 1 then true else do_respond
    let f := if t.goal = 0 then c.IOTXN_SYNC_BEFORE
             else if do_respond then c.IOTXN_SYNC_AFTER else 0
    { status := c.ZX_OK
      msg_out := some t.goal
      txn := { t with
        msgs := t.msgs.set t.goal { t.msg t.goal with flags := f }
        goal := (t.goal + 1) % 2 ^ 32
        flags := t.flags ||| (if do_respond then c.kTxnFlagRespond else 0) }
      out := [] }

/-- Result of `Complete`: the transaction afterwards and the effects. -/
structure CompleteResult where
  txn : BlockTransaction
  out : List Effect
deriving DecidableEq, Repr

/-- Source function `BlockTransaction::Complete(msg, status)`; `msg` points
into `msgs_` of this transaction. -/
def BlockTransaction.Complete (c : Consts) (t : BlockTransaction) (msg : MsgPtr)
    (status : Int) : CompleteResult :=
  let m := t.msg msg.slot
  if status = c.ZX_OK ∧ m.len_remaining ≠ 0 then
    let length := min m.len_remaining t.max_xfer
    let len_remaining := m.len_remaining - length
    let flags := m.flags &&&
      not32 (c.IOTXN_SYNC_BEFORE ||| (if len_remaining > 0 then c.IOTXN_SYNC_AFTER else 0))
    let op : block_op :=
      { flags := flags
        vmo := m.iobuf.map IoBuffer.io_vmo
        length := length
        vmo_offset := m.vmo_offset
        dev_offset := m.dev_offset
        cookie := msg }
    { txn := { t with
        msgs := t.msgs.set msg.slot
          { m with
            len_remaining := len_remaining
            vmo_offset := (m.vmo_offset + length) % 2 ^ 64
            dev_offset := (m.dev_offset + length) % 2 ^ 64 } }
      out := [if m.opcode = c.BLOCKIO_READ then Effect.block_read op else Effect.block_write op] }
  else
    let count := (t.response.count + 1) % 2 ^ 32
    let merged := if status ≠ c.ZX_OK ∧ t.response.status = c.ZX_OK then status
                  else t.response.status
    let msgs := t.msgs.set msg.slot { m with txn := none, iobuf := none }
    if t.flags &&& c.kTxnFlagRespond ≠ 0 ∧ count = t.goal then
      { txn := { t with
          msgs := msgs
          response := { status := c.ZX_OK, txnid := t.response.txnid, count := 0 }
          goal := 0
          flags := t.flags &&& not32 c.kTxnFlagRespond }
        out := [Effect.fifo_write { status := merged, txnid := t.response.txnid, count := count }] }
    else
      { txn := { t with
          msgs := msgs
          response := { status := merged, txnid := t.response.txnid, count := count } }
        out := [] }

/-! ## IoBuffer -/

/-- Source function `IoBuffer::ValidateVmoHack(length, vmo_offset)`; the sum
is a `uint64_t`. -/
def IoBuffer.ValidateVmoHack (c : Consts) (b : IoBuffer) (length vmo_offset : Nat) : Int :=
  if b.io_vmo.get_size_status ≠ c.ZX_OK then b.io_vmo.get_size_status
  else if (length + vmo_offset) % 2 ^ 64 > b.io_vmo.size then c.ZX_ERR_INVALID_ARGS
  else c.ZX_OK

/-! ## BlockServer -/

/-- The server: `info_.max_transfer_size`, the buffer registry `tree_` keyed by
vmoid, the cursor `last_id_`, the table `txns_` of references to transaction
objects, and the transaction objects themselves (`heap`; a reference is an
index into it, and an object stays there while messages may still refer to
it). -/
structure BlockServer where
  max_transfer_size : Nat
  tree : List IoBuffer
  last_id : Nat
  txns : List (Option Nat)
  heap : List BlockTransaction
deriving DecidableEq, Repr

/-- Constructor `BlockServer::BlockServer`: `last_id_(VMOID_INVALID + 1)`, an
empty registry and an empty table; `max_transfer_size` is what
`block_get_info` reports. -/
def BlockServer.new (c : Consts) (max_transfer_size : Nat) : BlockServer where
  max_transfer_size := max_transfer_size
  tree := []
  last_id := (c.VMOID_INVALID + 1) % (c.vmoid_max + 1)
  txns := List.replicate c.MAX_TXN_COUNT none
  heap := []

/-- Lookup `tree_.find(id)`. -/
def BlockServer.find (s : BlockServer) (id : Nat) : Option IoBuffer :=
  s.tree.find? (fun b => b.vmoid == id)

/-- The object behind a transaction reference. -/
def BlockServer.obj (s : BlockServer) (ref : Nat) : BlockTransaction :=
  s.heap.getD ref default

/-- One of the two loops of `FindVmoIDLocked`: `for (i = lo; i < lo + n; i++)`
returning the first `i` that is not registered. -/
def BlockServer.scan (s : BlockServer) : Nat → Nat → Option Nat
  | 0, _ => none
  | n + 1, i => if (s.find i).isSome then s.scan n (i + 1) else some i

/-- Result of `FindVmoIDLocked` and of `AttachVmo`: status, `*out`, server. -/
structure VmoIDResult where
  status : Int
  out : Option Nat
  server : BlockServer
deriving DecidableEq, Repr

/-- Source function `BlockServer::FindVmoIDLocked(out)`: scan
`[last_id_, max)`, then `[VMOID_INVALID + 1, last_id_)`. -/
def BlockServer.FindVmoIDLocked (c : Consts) (s : BlockServer) : VmoIDResult :=
  match s.scan (c.vmoid_max - s.last_id) s.last_id with
  | some i =>
    { status := c.ZX_OK, out := some i,
      server := { s with last_id := (i + 1) % (c.vmoid_max + 1) } }
  | none =>
    let first := (c.VMOID_INVALID + 1) % (c.vmoid_max + 1)
    match s.scan (s.last_id - first) first with
    | some i =>
      { status := c.ZX_OK, out := some i,
        server := { s with last_id := (i + 1) % (c.vmoid_max + 1) } }
    | none => { status := c.ZX_ERR_NO_RESOURCES, out := none, server := s }

/-- Source function `BlockServer::AttachVmo(vmo, out)`; `alloc_ok` is the
outcome of the allocation checked by `ac.check()`. -/
def BlockServer.AttachVmo (c : Consts) (s : BlockServer) (vmo : zx_vmo) (alloc_ok : Bool) :
    VmoIDResult :=
  let r := s.FindVmoIDLocked c
  if r.status ≠ c.ZX_OK then { status := r.status, out := none, server := r.server }
  else
    match r.out with
    | none => { status := r.status, out := none, server := r.server }
    | some id =>
      if !alloc_ok then { status := c.ZX_ERR_NO_MEMORY, out := none, server := r.server }
      else
        { status := c.ZX_OK, out := some id,
          server := { r.server with tree := { io_vmo := vmo, vmoid := id } :: r.server.tree } }

/-- The loop of `AllocateTxn`: the first index `i`, counted from `base`, whose
slot is null. -/
def firstNull : List (Option Nat) → Nat → Option Nat
  | [], _ => none
  | none :: _, base => some base
  | some _ :: rest, base => firstNull rest (base + 1)

/-- Result of `AllocateTxn`: status, `*out`, server. -/
structure TxnIDResult where
  status : Int
  out : Option Nat
  server : BlockServer
deriving DecidableEq, Repr

/-- Source function `BlockServer::AllocateTxn(out)`; `alloc_ok` is the outcome
of the allocation checked by `ac.check()`. -/
def BlockServer.AllocateTxn (c : Consts) (s : BlockServer) (alloc_ok : Bool) : TxnIDResult :=
  match firstNull s.txns 0 with
  | none => { status := c.ZX_ERR_NO_RESOURCES, out := none, server := s }
  | some i =>
    if !alloc_ok then { status := c.ZX_ERR_NO_MEMORY, out := none, server := s }
    else
      { status := c.ZX_OK, out := some i,
        server := { s with
          txns := s.txns.set i (some s.heap.length)
          heap := s.heap ++ [BlockTransaction.new c i s.max_transfer_size] } }

/-- Source function `BlockServer::FreeTxn(txnid)`. -/
def BlockServer.FreeTxn (s : BlockServer) (txnid : Nat) : BlockServer :=
  if txnid ≥ s.txns.length then s else { s with txns := s.txns.set txnid none }

/-- Source function `blockserver_fifo_complete(cookie, status)`: calls
`Complete` on the transaction `msg->txn`.  Every message handed to the device
has `msg->txn` set to the transaction owning the slot; for any other cookie
(the debug assertions of the callback fail) nothing is done. -/
def BlockServer.blockserver_fifo_complete (c : Consts) (s : BlockServer) (cookie : MsgPtr)
    (status : Int) : BlockServer × List Effect :=
  if ((s.obj cookie.txn).msg cookie.slot).txn = some cookie.txn then
    let r := (s.obj cookie.txn).Complete c cookie status
    ({ s with heap := s.heap.set cookie.txn r.txn }, r.out)
  else (s, [])

/-- The `BLOCKIO_READ` / `BLOCKIO_WRITE` case of the switch in
`BlockServer::Serve`, after a successful `Enqueue` has handed out slot `k` of
the transaction object `ref` (whose state after `Enqueue` is `t`): the message
takes its references, the range is validated, and the message is either
completed at once with the error or submitted, its first chunk cut to
`max_transfer_size`. -/
def BlockServer.ServeMessage (c : Consts) (s : BlockServer) (r : block_fifo_request_t)
    (iobuf : IoBuffer) (ref : Nat) (t : BlockTransaction) (k : Nat) :
    BlockServer × List Effect :=
  let msg : MsgPtr := { txn := ref, slot := k }
  let m := { t.msg k with txn := some ref, iobuf := some iobuf }
  let status := iobuf.ValidateVmoHack c r.length r.vmo_offset
  if status ≠ c.ZX_OK then
    BlockServer.blockserver_fifo_complete c
      { s with heap := s.heap.set ref { t with msgs := t.msgs.set k m } } msg status
  else
    let opcode := r.opcode &&& c.BLOCKIO_OP_MASK
    let max_xfer := s.max_transfer_size
    let split : Bool := max_xfer ≠ 0 ∧ max_xfer < r.length
    let m1 :=
      if split then
        { m with
          len_remaining := (r.length % 2 ^ 32 + 2 ^ 32 - max_xfer % 2 ^ 32) % 2 ^ 32
          vmo_offset := (r.vmo_offset + max_xfer) % 2 ^ 64
          dev_offset := (r.dev_offset + max_xfer) % 2 ^ 64
          opcode := opcode }
      else { m with len_remaining := 0, opcode := opcode }
    let op : block_op :=
      { flags := if split then m.flags ||| not32 c.IOTXN_SYNC_AFTER else m.flags
        vmo := some iobuf.io_vmo
        length := if split then max_xfer else r.length
        vmo_offset := r.vmo_offset
        dev_offset := r.dev_offset
        cookie := msg }
    ({ s with heap := s.heap.set ref { t with msgs := t.msgs.set k m1 } },
     [if opcode = c.BLOCKIO_READ then Effect.block_read op else Effect.block_write op])

/-- The `BLOCKIO_READ` / `BLOCKIO_WRITE` case of the switch in
`BlockServer::Serve` for a request whose buffer `iobuf` and transaction
object `ref` were found: the length check, `Enqueue`, and the handling of the
message handed out. -/
def BlockServer.ServeReadWrite (c : Consts) (s : BlockServer) (r : block_fifo_request_t)
    (iobuf : IoBuffer) (ref : Nat) : BlockServer × List Effect :=
  let wants_reply : Bool := r.opcode &&& c.BLOCKIO_TXN_END ≠ 0
  if r.length > 2 ^ 32 - 1 then
    (s, if wants_reply then OutOfBandErrorRespond c.ZX_ERR_INVALID_ARGS r.txnid else [])
  else
    let e := (s.obj ref).Enqueue c wants_reply
    if e.status ≠ c.ZX_OK then ({ s with heap := s.heap.set ref e.txn }, e.out)
    else
      match e.msg_out with
      | none => ({ s with heap := s.heap.set ref e.txn }, e.out)
      | some k =>
        let done := s.ServeMessage c r iobuf ref e.txn k
        (done.1, e.out ++ done.2)

/-- The body of the `for` loop of `BlockServer::Serve`: the handling of one
request of a batch. -/
def BlockServer.ServeRequest (c : Consts) (s : BlockServer) (r : block_fifo_request_t) :
    BlockServer × List Effect :=
  let wants_reply : Bool := r.opcode &&& c.BLOCKIO_TXN_END ≠ 0
  match s.find r.vmoid with
  | none => (s, if wants_reply then OutOfBandErrorRespond c.ZX_ERR_IO r.txnid else [])
  | some iobuf =>
    match (if r.txnid ≥ c.MAX_TXN_COUNT then none else s.txns.getD r.txnid none) with
    | none => (s, if wants_reply then OutOfBandErrorRespond c.ZX_ERR_IO r.txnid else [])
    | some ref =>
      let opcode := r.opcode &&& c.BLOCKIO_OP_MASK
      if opcode = c.BLOCKIO_READ ∨ opcode = c.BLOCKIO_WRITE then s.ServeReadWrite c r iobuf ref
      else if opcode = c.BLOCKIO_SYNC then (s, [])
      else if opcode = c.BLOCKIO_CLOSE_VMO then
        ({ s with tree := s.tree.eraseP (fun b => b.vmoid == r.vmoid) },
         if wants_reply then OutOfBandErrorRespond c.ZX_OK r.txnid else [])
      else (s, [])

/-- The `for` loop of `BlockServer::Serve` over the requests of one batch. -/
def BlockServer.ServeBatch (c : Consts) : BlockServer → List block_fifo_request_t →
    BlockServer × List Effect
  | s, [] => (s, [])
  | s, r :: rest =>
    let a := s.ServeRequest c r
    let b := BlockServer.ServeBatch c a.1 rest
    (b.1, a.2 ++ b.2)

/-- What the FIFO answers to one round of the loop of `BlockServer::Read`: the
status of `fifo_.read` with the batch read on success, and, for the case that
the read reports "should wait", the status of `wait_one` and the signals it
observed. -/
structure FifoRound where
  read_status : Int
  requests : List block_fifo_request_t
  wait_status : Int
  observed : Nat
deriving DecidableEq, Repr

/-- The signal `kSignalFifoTerminate = ZX_USER_SIGNAL_0`. -/
def kSignalFifoTerminate (c : Consts) : Nat := c.ZX_USER_SIGNAL_0

/-- Source function `BlockServer::Read(requests, count)` against the answers
of the FIFO: returns the status, the batch and the answers not yet used;
`none` when the answers end while the loop is still waiting. -/
def BlockServer.Read (c : Consts) :
    List FifoRound → Option (Int × List block_fifo_request_t × List FifoRound)
  | [] => none
  | a :: rest =>
    if a.read_status = c.ZX_ERR_SHOULD_WAIT then
      if a.wait_status ≠ c.ZX_OK then some (a.wait_status, [], rest)
      else if a.observed &&& c.ZX_FIFO_PEER_CLOSED ≠ 0 ∨
          a.observed &&& kSignalFifoTerminate c ≠ 0 then
        some (c.ZX_ERR_PEER_CLOSED, [], rest)
      else BlockServer.Read c rest
    else some (a.read_status, a.requests, rest)

/-- The `while (true)` loop of `BlockServer::Serve`, at most `fuel` rounds.
The line `status = Read(requests, &count) != ZX_OK` stores the value of the
comparison (1 or 0) in `status`, and a non-zero `status` is returned. -/
def BlockServer.ServeLoop (c : Consts) :
    Nat → BlockServer → List FifoRound → List Effect →
    Option (Int × BlockServer × List Effect)
  | 0, _, _, _ => none
  | fuel + 1, s, env, out =>
    match BlockServer.Read c env with
    | none => none
    | some (read_status, requests, env1) =>
      let status : Int := if read_status ≠ c.ZX_OK then 1 else 0
      if status ≠ 0 then some (status, s, out)
      else
        let b := s.ServeBatch c requests
        BlockServer.ServeLoop c fuel b.1 env1 (out ++ b.2)

/-- Source function `BlockServer::Serve()` against the answers of the FIFO:
the returned status, the server and the effects; `none` when the answers end
while the server is still waiting in `Read`.  Each round uses at least one
answer, so one more round than there are answers is enough. -/
def BlockServer.Serve (c : Consts) (s : BlockServer) (env : List FifoRound) :
    Option (Int × BlockServer × List Effect) :=
  BlockServer.ServeLoop c (env.length + 1) s env []

/-- The answer of an empty FIFO on which `ShutDown` has set the termination
signal: the read reports "should wait" and the wait observes the signal. -/
def shutDownRound (c : Consts) : FifoRound where
  read_status := c.ZX_ERR_SHOULD_WAIT
  requests := []
  wait_status := c.ZX_OK
  observed := kSignalFifoTerminate c

/-! ## Runs of the server and of a transaction -/

/-- An operation applied to the server: one of its C entry points, the handling
of one request by the dispatch loop, or a completion callback of the device. -/
inductive ServerOp where
  | AttachVmo (vmo : zx_vmo) (alloc_ok : Bool)
  | AllocateTxn (alloc_ok : Bool)
  | FreeTxn (txnid : Nat)
  | Request (r : block_fifo_request_t)
  | Complete (cookie : MsgPtr) (status : Int)
deriving DecidableEq, Repr

/-- The server after one operation. -/
def BlockServer.step (c : Consts) (s : BlockServer) : ServerOp → BlockServer
  | ServerOp.AttachVmo vmo alloc_ok => (s.AttachVmo c vmo alloc_ok).server
  | ServerOp.AllocateTxn alloc_ok => (s.AllocateTxn c alloc_ok).server
  | ServerOp.FreeTxn txnid => s.FreeTxn txnid
  | ServerOp.Request r => (s.ServeRequest c r).1
  | ServerOp.Complete cookie status => (s.blockserver_fifo_complete c cookie status).1

/-- The server after a sequence of operations. -/
def BlockServer.run (c : Consts) (s : BlockServer) (ops : List ServerOp) : BlockServer :=
  ops.foldl (BlockServer.step c) s

/-- The vmoids registered in the server. -/
def BlockServer.registered (s : BlockServer) : List Nat :=
  s.tree.map IoBuffer.vmoid

/-- The accumulator of a transaction: response (status, txnid, completed
count), goal and flags. -/
def BlockTransaction.accumulator (t : BlockTransaction) : block_fifo_response_t × Nat × Nat :=
  (t.response, t.goal, t.flags)

/-- A call of `Complete` counts the message as completed unless it re-submits
a chunk (status `ZX_OK` with `len_remaining != 0`). -/
def BlockTransaction.counting (c : Consts) (t : BlockTransaction) (msg : MsgPtr)
    (status : Int) : Bool :=
  !(decide (status = c.ZX_OK) && decide ((t.msg msg.slot).len_remaining ≠ 0))

/-- A call made on one transaction: `Enqueue`, after which the dispatch loop
fills the slot handed out with `fill` (all members but `flags`, which
`Enqueue` has set), or `Complete`. -/
inductive TxnCall where
  | Enqueue (do_respond : Bool) (fill : block_msg_t)
  | Complete (msg : MsgPtr) (status : Int)
deriving DecidableEq, Repr

/-- Bookkeeping of the message groups of a transaction, kept beside the code:
the number of messages enqueued in the open group, the slots whose message is
enqueued and not yet completed, whether a group-ending `Enqueue` was made for
the open group, and the number of group-ending `Enqueue` calls whose group has
had all its messages completed. -/
structure Groups where
  enqueued : Nat
  outstanding : List Nat
  ended : Bool
  finished : Nat
deriving DecidableEq, Repr

/-- No message enqueued yet. -/
def Groups.empty : Groups := { enqueued := 0, outstanding := [], ended := false, finished := 0 }

/-- A message was enqueued in slot `k`; `ending` tells whether the call ends
the group. -/
def Groups.enqueue (g : Groups) (k : Nat) (ending : Bool) : Groups :=
  { enqueued := g.enqueued + 1, outstanding := k :: g.outstanding,
    ended := ending, finished := g.finished }

/-- The message in slot `k` was completed; when the group has ended and no
message of it is left, the group is finished and a new one opens. -/
def Groups.complete (g : Groups) (k : Nat) : Groups :=
  if g.ended && (g.outstanding.erase k).isEmpty then
    { enqueued := 0, outstanding := [], ended := false, finished := g.finished + 1 }
  else { g with outstanding := g.outstanding.erase k }

/-- Runs a trace of calls on a transaction, with the bookkeeping beside it.
The trace is admitted (`some`) when every `Enqueue` succeeds and every
`Complete` is for a message that is enqueued and not yet completed; the result
is the transaction, the bookkeeping and the effects of the calls. -/
def runCalls (c : Consts) :
    BlockTransaction → Groups → List TxnCall →
    Option (BlockTransaction × Groups × List Effect)
  | t, g, [] => some (t, g, [])
  | t, g, TxnCall.Enqueue do_respond fill :: rest =>
    let e := t.Enqueue c do_respond
    if e.status ≠ c.ZX_OK then none
    else
      match e.msg_out with
      | none => none
      | some k =>
        let t1 := { e.txn with msgs := e.txn.msgs.set k { fill with flags := (e.txn.msg k).flags } }
        let g1 := g.enqueue k (do_respond || k + 1 == c.MAX_TXN_MESSAGES)
        match runCalls c t1 g1 rest with
        | none => none
        | some (t2, g2, out) => some (t2, g2, e.out ++ out)
  | t, g, TxnCall.Complete msg status :: rest =>
    if msg.slot ∈ g.outstanding then
      let r := t.Complete c msg status
      let g1 := if t.counting c msg status then g.complete msg.slot else g
      match runCalls c r.txn g1 rest with
      | none => none
      | some (t2, g2, out) => some (t2, g2, r.out ++ out)
    else none

/-- The device completes the chunks of a message with `ZX_OK` one after the
other: `Complete` is called again for as long as the previous call submitted
a further chunk, at most `fuel` times. -/
def BlockTransaction.completeChunks (c : Consts) :
    Nat → BlockTransaction → MsgPtr → CompleteResult
  | 0, t, _ => { txn := t, out := [] }
  | fuel + 1, t, msg =>
    let r := t.Complete c msg c.ZX_OK
    if (submissionsOf r.out).isEmpty then r
    else
      let r2 := BlockTransaction.completeChunks c fuel r.txn msg
      { txn := r2.txn, out := r.out ++ r2.out }

/-- The same at the level of the server, through the completion callback. -/
def BlockServer.completeChunks (c : Consts) :
    Nat → BlockServer → MsgPtr → BlockServer × List Effect
  | 0, s, _ => (s, [])
  | fuel + 1, s, cookie =>
    let r := s.blockserver_fifo_complete c cookie c.ZX_OK
    if (submissionsOf r.2).isEmpty then r
    else
      let r2 := BlockServer.completeChunks c fuel r.1 cookie
      (r2.1, r.2 ++ r2.2)

/-- A sequence of `Complete` calls on a transaction. -/
def BlockTransaction.completeAll (c : Consts) :
    BlockTransaction → List (MsgPtr × Int) → CompleteResult
  | t, [] => { txn := t, out := [] }
  | t, (msg, status) :: rest =>
    let r := t.Complete c msg status
    let r2 := BlockTransaction.completeAll c r.txn rest
    { txn := r2.txn, out := r.out ++ r2.out }

/-- The status of the earliest completion that is not `ZX_OK`, or `ZX_OK`. -/
def firstError (c : Consts) : List Int → Int
  | [] => c.ZX_OK
  | s :: rest => if s ≠ c.ZX_OK then s else firstError c rest

/-! ## Auxiliary definitions for the statements -/

/-- The chunk submitted by a `Complete` that re-submits. -/
def BlockTransaction.nextChunk (c : Consts) (t : BlockTransaction) (msg : MsgPtr) : block_op :=
  { flags := (t.msg msg.slot).flags &&&
      not32 (c.IOTXN_SYNC_BEFORE |||
        (if (t.msg msg.slot).len_remaining - min (t.msg msg.slot).len_remaining t.max_xfer > 0
          then c.IOTXN_SYNC_AFTER else 0))
    vmo := (t.msg msg.slot).iobuf.map IoBuffer.io_vmo
    length := min (t.msg msg.slot).len_remaining t.max_xfer
    vmo_offset := (t.msg msg.slot).vmo_offset
    dev_offset := (t.msg msg.slot).dev_offset
    cookie := msg }

/-- The status recorded by a counting `Complete`. -/
def BlockTransaction.merged (c : Consts) (t : BlockTransaction) (status : Int) : Int :=
  if status ≠ c.ZX_OK ∧ t.response.status = c.ZX_OK then status else t.response.status

/-- The transaction with the message at `msg` not split: `len_remaining` is 0,
as the dispatch loop stores it for a request that needs no chunking. -/
def BlockTransaction.unsplit (t : BlockTransaction) (msg : MsgPtr) : BlockTransaction :=
  { t with msgs := t.msgs.set msg.slot { t.msg msg.slot with len_remaining := 0 } }

/-- Length, buffer offset and device offset of a submission. -/
def block_op.extent (op : block_op) : Nat × Nat × Nat :=
  (op.length, op.vmo_offset, op.dev_offset)

/-- The chunks of a transfer of `L` bytes at buffer offset `vo` and device
offset `dv` on a device with maximum transfer size `M`: `ceil(L / M)` chunks,
the `k`-th of length `min(M, L - k * M)` at offsets `vo + k * M`, `dv + k * M`. -/
def chunkExtents (M L vo dv : Nat) : List (Nat × Nat × Nat) :=
  (List.range ((L + M - 1) / M)).map (fun k => (min M (L - k * M), vo + k * M, dv + k * M))

/-- Every call of a sequence of `Complete` calls counts. -/
def BlockTransaction.allCounting (c : Consts) : BlockTransaction → List (MsgPtr × Int) → Bool
  | _, [] => true
  | t, (msg, status) :: rest =>
    t.counting c msg status &&
      BlockTransaction.allCounting c (t.Complete c msg status).txn rest

/-- Applies a sequence of calls to a transaction, whatever their outcome. -/
def applyCalls (c : Consts) : BlockTransaction → List TxnCall → BlockTransaction
  | t, [] => t
  | t, TxnCall.Enqueue do_respond fill :: rest =>
    let e := t.Enqueue c do_respond
    match e.msg_out with
    | none => applyCalls c e.txn rest
    | some k =>
      applyCalls c
        { e.txn with msgs := e.txn.msgs.set k { fill with flags := (e.txn.msg k).flags } } rest
  | t, TxnCall.Complete msg status :: rest => applyCalls c (t.Complete c msg status).txn rest

/-- What every sequence of calls keeps true of a transaction allocated with
`txnid`: the response carries that txnid and only the respond bit is ever set
in the flags. -/
def BlockTransaction.Plain (c : Consts) (txnid : Nat) (t : BlockTransaction) : Prop :=
  t.response.txnid = txnid ∧ (t.flags = 0 ∨ t.flags = c.kTxnFlagRespond)

/-- The relation kept between a transaction allocated with `txnid` and the
bookkeeping of its groups along an admitted trace. -/
structure Tracks (c : Consts) (txnid : Nat) (t : BlockTransaction) (g : Groups) : Prop where
  txnid_eq : t.response.txnid = txnid
  goal_eq : t.goal = g.enqueued
  count_eq : t.response.count + g.outstanding.length = t.goal
  flag_iff : t.flags &&& c.kTxnFlagRespond ≠ 0 ↔ g.ended = true
  ended_out : g.ended = true → g.outstanding ≠ []
  goal_le : t.goal ≤ c.MAX_TXN_MESSAGES
  open_lt : g.ended = false → t.goal < c.MAX_TXN_MESSAGES

/-! ## Concrete scenarios -/

/-- A transaction of the concrete constants with max transfer size 1000 on
which one message was enqueued as the end of its group and filled by the
dispatch loop with 1500 bytes still to send. -/
def splitTxn : BlockTransaction :=
  applyCalls zircon (BlockTransaction.new zircon 5 1000)
    [TxnCall.Enqueue true
      { txn := some 0, iobuf := none, flags := 0, opcode := 1, len_remaining := 1500,
        vmo_offset := 1000, dev_offset := 1000 }]

/-- The server of the scenario: a fresh server with no transfer limit, one
attached buffer of 4096 bytes and one allocated transaction. -/
def scenarioServer : BlockServer :=
  (((BlockServer.new zircon 0).AttachVmo zircon
      { handle := 1, get_size_status := 0, size := 4096 } true).server.AllocateTxn
    zircon true).server

/-- The request of the scenario: a write of 4096 bytes at offset 0, marked
group-end-with-reply, on vmoid 1 and txnid 0. -/
def scenarioWrite : block_fifo_request_t where
  txnid := 0
  vmoid := 1
  opcode := zircon.BLOCKIO_WRITE ||| zircon.BLOCKIO_TXN_END
  length := 4096
  vmo_offset := 0
  dev_offset := 0

/-- What every operation keeps true of the buffer registry: the registered
vmoids are pairwise different, and the cursor `last_id_` is at most
`max(vmoid_t)` and, when `VMOID_INVALID` is below that maximum, above
`VMOID_INVALID`. -/
structure RegistrySound (c : Consts) (s : BlockServer) : Prop where
  nodup : s.registered.Nodup
  last_le : s.last_id ≤ c.vmoid_max
  invalid_lt : c.VMOID_INVALID < c.vmoid_max → c.VMOID_INVALID < s.last_id

/-- What every call keeps true of a transaction object of a server whose
maximum transfer size is `M`: it was built with that size, it has
`MAX_TXN_MESSAGES` message slots, and while no reply is pending its goal is
below `MAX_TXN_MESSAGES`. -/
structure TxnSound (c : Consts) (M : Nat) (t : BlockTransaction) : Prop where
  max_xfer_eq : t.max_xfer = M
  msgs_length : t.msgs.length = c.MAX_TXN_MESSAGES
  open_lt : t.flags &&& c.kTxnFlagRespond = 0 → t.goal < c.MAX_TXN_MESSAGES

/-- What every operation keeps true of the transaction table: every reference
in `txns_` is to a transaction object, and every object is sound. -/
structure HeapSound (c : Consts) (s : BlockServer) : Prop where
  refs : ∀ ref, some ref ∈ s.txns → ref < s.heap.length
  objs : ∀ t ∈ s.heap, TxnSound c s.max_transfer_size t

/-- The buffer of the scenarios: a VMO of 4096 bytes. -/
def scenarioVmo : zx_vmo := { handle := 1, get_size_status := 0, size := 4096 }

/-- Operations that attach the 4096-byte buffer (vmoid 1) and allocate a
transaction (txnid 0). -/
def setupOps : List ServerOp :=
  [ServerOp.AttachVmo scenarioVmo true, ServerOp.AllocateTxn true]

/-- A server whose device has a maximum transfer size of 1000 bytes, with the
buffer attached and the transaction allocated. -/
def limitedServer : BlockServer := (BlockServer.new zircon 1000).run zircon setupOps

/-- A write of 2500 bytes at buffer offset 100 and device offset 5, marked
group-end-with-reply, on vmoid 1 and txnid 0. -/
def splitWrite : block_fifo_request_t where
  txnid := 0
  vmoid := 1
  opcode := zircon.BLOCKIO_WRITE ||| zircon.BLOCKIO_TXN_END
  length := 2500
  vmo_offset := 100
  dev_offset := 5

/-- The same server after a first group-ending write of 100 bytes was
submitted on txnid 0 and has not completed yet: a reply is pending. -/
def pendingServer : BlockServer :=
  limitedServer.step zircon
    (ServerOp.Request
      { txnid := 0, vmoid := 1, opcode := zircon.BLOCKIO_WRITE ||| zircon.BLOCKIO_TXN_END,
        length := 100, vmo_offset := 0, dev_offset := 0 })

/-- A write of 2 bytes at buffer offset 2^64 - 1, marked group-end-with-reply,
on vmoid 1 and txnid 0: the sum of offset and length wraps in a `uint64_t`. -/
def wrappingWrite : block_fifo_request_t where
  txnid := 0
  vmoid := 1
  opcode := zircon.BLOCKIO_WRITE ||| zircon.BLOCKIO_TXN_END
  length := 2
  vmo_offset := 2 ^ 64 - 1
  dev_offset := 0

/-- Operations that attach the buffer (vmoid 1), allocate a transaction and
close the buffer again with a `BLOCKIO_CLOSE_VMO` request. -/
def closeOps : List ServerOp :=
  setupOps ++
    [ServerOp.Request
      { txnid := 0, vmoid := 1, opcode := zircon.BLOCKIO_CLOSE_VMO, length := 0,
        vmo_offset := 0, dev_offset := 0 }]

/-- A trace on one transaction: a group of two messages completed out of
order, then a group of one message. -/
def twoGroups : List TxnCall :=
  [TxnCall.Enqueue false default, TxnCall.Enqueue true default,
   TxnCall.Complete { txn := 0, slot := 1 } 0, TxnCall.Complete { txn := 0, slot := 0 } 0,
   TxnCall.Enqueue true default, TxnCall.Complete { txn := 0, slot := 0 } 0]

/-- The outcome of the trace `twoGroups` on a fresh transaction. -/
def twoGroupsOutcome : BlockTransaction × Groups × List Effect :=
  match runCalls zircon (BlockTransaction.new zircon 7 0) Groups.empty twoGroups with
  | some r => r
  | none => (BlockTransaction.new zircon 7 0, Groups.empty, [])

/-- A transaction on which one message was enqueued as the end of its group. -/
def pendingTxn : BlockTransaction :=
  applyCalls zircon (BlockTransaction.new zircon 5 1000) [TxnCall.Enqueue true default]

/-- A transaction on which three messages were enqueued, none ending the
group. -/
def openTxn : BlockTransaction :=
  applyCalls zircon (BlockTransaction.new zircon 5 0)
    [TxnCall.Enqueue false default, TxnCall.Enqueue false default,
     TxnCall.Enqueue false default]

/-- Completions of the three messages of `openTxn`: success, then two
different errors. -/
def threeCompletions : List (MsgPtr × Int) :=
  [({ txn := 0, slot := 0 }, 0), ({ txn := 0, slot := 1 }, -5), ({ txn := 0, slot := 2 }, -7)]

/-! ## Further assumptions on the constants -/

/-- What the code further relies on about the constants: the two sync flags
are non-zero and share no bit, the case labels of the switch in `Serve` are
pairwise different, `VMOID_INVALID` is below `max(vmoid_t)`, and the two
errors of the allocators differ. -/
structure Consts.Shape (c : Consts) : Prop where
  sync_before_pos : c.IOTXN_SYNC_BEFORE ≠ 0
  sync_after_pos : c.IOTXN_SYNC_AFTER ≠ 0
  sync_disjoint : c.IOTXN_SYNC_BEFORE &&& c.IOTXN_SYNC_AFTER = 0
  read_ne_write : c.BLOCKIO_READ ≠ c.BLOCKIO_WRITE
  sync_ne_read : c.BLOCKIO_SYNC ≠ c.BLOCKIO_READ
  sync_ne_write : c.BLOCKIO_SYNC ≠ c.BLOCKIO_WRITE
  close_ne_read : c.BLOCKIO_CLOSE_VMO ≠ c.BLOCKIO_READ
  close_ne_write : c.BLOCKIO_CLOSE_VMO ≠ c.BLOCKIO_WRITE
  close_ne_sync : c.BLOCKIO_CLOSE_VMO ≠ c.BLOCKIO_SYNC
  invalid_lt_max : c.VMOID_INVALID < c.vmoid_max
  no_memory_ne_no_resources : c.ZX_ERR_NO_MEMORY ≠ c.ZX_ERR_NO_RESOURCES

/-- The call of `Enqueue` ends the group: `do_respond` is true, or it is
forced because the slot handed out is the last one. -/
def BlockTransaction.groupEnding (c : Consts) (t : BlockTransaction) (do_respond : Bool) :
    Bool :=
  do_respond || t.goal + 1 == c.MAX_TXN_MESSAGES

/-- A transaction on which 15 messages were enqueued, none ending the group:
its goal is `MAX_TXN_MESSAGES - 1` for the concrete constants. -/
def almostFullTxn : BlockTransaction :=
  applyCalls zircon (BlockTransaction.new zircon 5 0)
    (List.replicate 15 (TxnCall.Enqueue false default))

/-- A `BLOCKIO_SYNC` request marked group-end-with-reply on vmoid 1 and
txnid 0. -/
def syncRequest : block_fifo_request_t where
  txnid := 0
  vmoid := 1
  opcode := zircon.BLOCKIO_SYNC ||| zircon.BLOCKIO_TXN_END
  length := 0
  vmo_offset := 0
  dev_offset := 0

/-- Operations that attach 65534 buffers one after the other: on a fresh
server of the concrete constants they register every vmoid from 1 to 65534. -/
def fillOps : List ServerOp :=
  List.replicate 65534 (ServerOp.AttachVmo scenarioVmo true)

/-- The server after `fillOps`. -/
def fullServer : BlockServer := (BlockServer.new zircon 0).run zircon fillOps

/-- A request with opcode 7, which is no case label of the switch in `Serve`,
marked group-end-with-reply, on vmoid 1 and txnid 0. -/
def unknownRequest : block_fifo_request_t where
  txnid := 0
  vmoid := 1
  opcode := 7 ||| zircon.BLOCKIO_TXN_END
  length := 0
  vmo_offset := 0
  dev_offset := 0

/-- The server `limitedServer` after the dispatch loop has handled
`splitWrite`: the first chunk of 1000 bytes is with the device and 1500 bytes
remain on message slot 0 of the transaction. -/
def splitServer : BlockServer := (limitedServer.ServeRequest zircon splitWrite).1

/-- A `BLOCKIO_CLOSE_VMO` request marked group-end-with-reply on vmoid 1 and
txnid 0. -/
def closeRequest : block_fifo_request_t where
  txnid := 0
  vmoid := 1
  opcode := zircon.BLOCKIO_CLOSE_VMO ||| zircon.BLOCKIO_TXN_END
  length := 0
  vmo_offset := 0
  dev_offset := 0

/-- The vmoid an operation hands out: `*out` of a successful `AttachVmo`. -/
def ServerOp.issues (c : Consts) (s : BlockServer) : ServerOp → Option Nat
  | ServerOp.AttachVmo vmo alloc_ok => (s.AttachVmo c vmo alloc_ok).out
  | _ => none

/-- The vmoids handed out by the successful `AttachVmo` calls of a sequence of
operations applied to the server, in the order of the calls. -/
def BlockServer.issued (c : Consts) : BlockServer → List ServerOp → List Nat
  | _, [] => []
  | s, op :: rest =>
    (match op.issues c s with
      | some id => [id]
      | none => []) ++ BlockServer.issued c (s.step c op) rest

/-! ## The server lock in the dispatch loop -/

/-- An event of one iteration of the `for` loop of `BlockServer::Serve`:
`server_lock_` is acquired (the constructor of the `fbl::AutoLock` declared in
the loop body), `server_lock_` is released (its destructor, run when control
leaves the loop body), or an effect on the FIFO or the device.  Nothing the
loop body calls (`OutOfBandErrorRespond`, `Enqueue`, `ValidateVmoHack`, the
completion callback, `block_read`, `block_write`) touches `server_lock_`. -/
inductive LockEvent where
  | acquire
  | release
  | effect (e : Effect)
deriving DecidableEq, Repr

/-- The `BLOCKIO_READ` / `BLOCKIO_WRITE` case of the switch in
`BlockServer::Serve` after a successful `Enqueue` (the code embedded in
`BlockServer.ServeMessage`), with the events of each path in program order.
On a failed validation the callback `cb.complete(msg, status)` runs and the
`break` leaves the loop body, where the destructor of the `AutoLock` releases
`server_lock_`; otherwise `block_read` or `block_write` is called and the
`break` after it leaves the loop body in the same way. -/
def BlockServer.ServeMessageEvents (c : Consts) (s : BlockServer) (r : block_fifo_request_t)
    (iobuf : IoBuffer) (ref : Nat) (t : BlockTransaction) (k : Nat) :
    BlockServer × List LockEvent :=
  let msg : MsgPtr := { txn := ref, slot := k }
  let m := { t.msg k with txn := some ref, iobuf := some iobuf }
  let status := iobuf.ValidateVmoHack c r.length r.vmo_offset
  if status ≠ c.ZX_OK then
    let done := BlockServer.blockserver_fifo_complete c
      { s with heap := s.heap.set ref { t with msgs := t.msgs.set k m } } msg status
    (done.1, done.2.map LockEvent.effect ++ [LockEvent.release])
  else
    let opcode := r.opcode &&& c.BLOCKIO_OP_MASK
    let max_xfer := s.max_transfer_size
    let split : Bool := max_xfer ≠ 0 ∧ max_xfer < r.length
    let m1 :=
      if split then
        { m with
          len_remaining := (r.length % 2 ^ 32 + 2 ^ 32 - max_xfer % 2 ^ 32) % 2 ^ 32
          vmo_offset := (r.vmo_offset + max_xfer) % 2 ^ 64
          dev_offset := (r.dev_offset + max_xfer) % 2 ^ 64
          opcode := opcode }
      else { m with len_remaining := 0, opcode := opcode }
    let op : block_op :=
      { flags := if split then m.flags ||| not32 c.IOTXN_SYNC_AFTER else m.flags
        vmo := some iobuf.io_vmo
        length := if split then max_xfer else r.length
        vmo_offset := r.vmo_offset
        dev_offset := r.dev_offset
        cookie := msg }
    ({ s with heap := s.heap.set ref { t with msgs := t.msgs.set k m1 } },
     [LockEvent.effect
        (if opcode = c.BLOCKIO_READ then Effect.block_read op else Effect.block_write op),
      LockEvent.release])

/-- The `BLOCKIO_READ` / `BLOCKIO_WRITE` case of the switch in
`BlockServer::Serve` (the code embedded in `BlockServer.ServeReadWrite`), with
the events of each path in program order: the `continue` after the response to
an oversized length and the `break` after a failed `Enqueue` (which has
written its own response) both leave the loop body, where `server_lock_` is
released. -/
def BlockServer.ServeReadWriteEvents (c : Consts) (s : BlockServer) (r : block_fifo_request_t)
    (iobuf : IoBuffer) (ref : Nat) : BlockServer × List LockEvent :=
  let wants_reply : Bool := r.opcode &&& c.BLOCKIO_TXN_END ≠ 0
  if r.length > 2 ^ 32 - 1 then
    (s, (if wants_reply then OutOfBandErrorRespond c.ZX_ERR_INVALID_ARGS r.txnid
         else []).map LockEvent.effect ++ [LockEvent.release])
  else
    let e := (s.obj ref).Enqueue c wants_reply
    if e.status ≠ c.ZX_OK then
      ({ s with heap := s.heap.set ref e.txn }, e.out.map LockEvent.effect ++ [LockEvent.release])
    else
      match e.msg_out with
      | none =>
        ({ s with heap := s.heap.set ref e.txn },
         e.out.map LockEvent.effect ++ [LockEvent.release])
      | some k =>
        let done := s.ServeMessageEvents c r iobuf ref e.txn k
        (done.1, e.out.map LockEvent.effect ++ done.2)

/-- The body of the `for` loop of `BlockServer::Serve` (the code embedded in
`BlockServer.ServeRequest`), with the events of each path in program order.
The `fbl::AutoLock server_lock(&server_lock_)` is constructed before the
lookup `tree_.find(vmoid)`; it is a local of the loop body, so its destructor
releases the lock where a path leaves the body: at each `continue` (unknown
buffer, unknown transaction), at each `break` out of the switch (sync,
close-buffer after its response) and after the default case. -/
def BlockServer.ServeRequestEvents (c : Consts) (s : BlockServer) (r : block_fifo_request_t) :
    BlockServer × List LockEvent :=
  let wants_reply : Bool := r.opcode &&& c.BLOCKIO_TXN_END ≠ 0
  match s.find r.vmoid with
  | none =>
    (s, LockEvent.acquire ::
      ((if wants_reply then OutOfBandErrorRespond c.ZX_ERR_IO r.txnid
        else []).map LockEvent.effect ++ [LockEvent.release]))
  | some iobuf =>
    match (if r.txnid ≥ c.MAX_TXN_COUNT then none else s.txns.getD r.txnid none) with
    | none =>
      (s, LockEvent.acquire ::
        ((if wants_reply then OutOfBandErrorRespond c.ZX_ERR_IO r.txnid
          else []).map LockEvent.effect ++ [LockEvent.release]))
    | some ref =>
      let opcode := r.opcode &&& c.BLOCKIO_OP_MASK
      if opcode = c.BLOCKIO_READ ∨ opcode = c.BLOCKIO_WRITE then
        let done := s.ServeReadWriteEvents c r iobuf ref
        (done.1, LockEvent.acquire :: done.2)
      else if opcode = c.BLOCKIO_SYNC then (s, [LockEvent.acquire, LockEvent.release])
      else if opcode = c.BLOCKIO_CLOSE_VMO then
        ({ s with tree := s.tree.eraseP (fun b => b.vmoid == r.vmoid) },
         LockEvent.acquire ::
          ((if wants_reply then OutOfBandErrorRespond c.ZX_OK r.txnid
            else []).map LockEvent.effect ++ [LockEvent.release]))
      else (s, [LockEvent.acquire, LockEvent.release])

/-- The effects among a sequence of events, in order. -/
def effectsOf : List LockEvent → List Effect
  | [] => []
  | LockEvent.effect e :: es => e :: effectsOf es
  | _ :: es => effectsOf es

/-- The effects among a sequence of events, each with whether `server_lock_`
is held at that moment; `held` tells whether it is held at the start. -/
def heldDuring : Bool → List LockEvent → List (Bool × Effect)
  | _, [] => []
  | _, LockEvent.acquire :: es => heldDuring true es
  | _, LockEvent.release :: es => heldDuring false es
  | held, LockEvent.effect e :: es => (held, e) :: heldDuring held es

/-- Whether `server_lock_` is held after a sequence of events. -/
def heldAfter : Bool → List LockEvent → Bool
  | held, [] => held
  | _, LockEvent.acquire :: es => heldAfter true es
  | _, LockEvent.release :: es => heldAfter false es
  | held, LockEvent.effect _ :: es => heldAfter held es

/-- The server `limitedServer` after a write of 100 bytes that does not end
its group was submitted on txnid 0: message slot 0 of the transaction is in
use and the group is open. -/
def openServer : BlockServer :=
  limitedServer.step zircon
    (ServerOp.Request
      { txnid := 0, vmoid := 1, opcode := zircon.BLOCKIO_WRITE, length := 100,
        vmo_offset := 0, dev_offset := 0 })

/-! ## Messages in flight -/

/-- The relation kept between a transaction and the bookkeeping of its groups
along an admitted trace, about the message slots: the array has
`MAX_TXN_MESSAGES` slots, the slots whose message is in flight are pairwise
different and below the goal, and every other slot holds no reference to a
transaction or a buffer. -/
structure InFlight (c : Consts) (t : BlockTransaction) (g : Groups) : Prop where
  slots : t.msgs.length = c.MAX_TXN_MESSAGES
  lt_goal : ∀ k ∈ g.outstanding, k < t.goal
  nodup : g.outstanding.Nodup
  released : ∀ k, k ∉ g.outstanding → (t.msg k).txn = none ∧ (t.msg k).iobuf = none

/-- A trace on one transaction: two messages are enqueued, the second ending
the group, and both complete; the next message is then enqueued in slot 0
again and is in flight. -/
def reuseCalls : List TxnCall :=
  [TxnCall.Enqueue false
     { txn := some 0, iobuf := some { io_vmo := scenarioVmo, vmoid := 1 }, flags := 0,
       opcode := 2, len_remaining := 0, vmo_offset := 0, dev_offset := 0 },
   TxnCall.Enqueue true
     { txn := some 0, iobuf := some { io_vmo := scenarioVmo, vmoid := 1 }, flags := 0,
       opcode := 2, len_remaining := 0, vmo_offset := 512, dev_offset := 512 },
   TxnCall.Complete { txn := 0, slot := 0 } 0,
   TxnCall.Complete { txn := 0, slot := 1 } 0,
   TxnCall.Enqueue false
     { txn := some 0, iobuf := some { io_vmo := scenarioVmo, vmoid := 1 }, flags := 0,
       opcode := 2, len_remaining := 0, vmo_offset := 0, dev_offset := 0 }]

/-- The outcome of the trace `reuseCalls` on a fresh transaction. -/
def reuseOutcome : BlockTransaction × Groups × List Effect :=
  match runCalls zircon (BlockTransaction.new zircon 7 0) Groups.empty reuseCalls with
  | some r => r
  | none => (BlockTransaction.new zircon 7 0, Groups.empty, [])

/-! ## The order in which vmoids are handed out -/

/-- The number of `AttachVmo` calls among a sequence of operations. -/
def attachCalls : List ServerOp → Nat
  | [] => 0
  | ServerOp.AttachVmo _ _ :: rest => attachCalls rest + 1
  | _ :: rest => attachCalls rest

/-- No `AttachVmo` call of the sequence fails on its allocation. -/
def allAllocated : List ServerOp → Bool
  | [] => true
  | ServerOp.AttachVmo _ alloc_ok :: rest => alloc_ok && allAllocated rest
  | _ :: rest => allAllocated rest

/-- Operations that attach a buffer (vmoid 1), allocate a transaction, close
the buffer with a `BLOCKIO_CLOSE_VMO` request and attach a buffer again. -/
def reattachOps : List ServerOp := closeOps ++ [ServerOp.AttachVmo scenarioVmo true]

/-- Two `AttachVmo` calls, the first of which fails on its allocation. -/
def failedAttachOps : List ServerOp :=
  [ServerOp.AttachVmo scenarioVmo false, ServerOp.AttachVmo scenarioVmo true]

/-! ## Lemmas and theorems -/

theorem zircon_WF : zircon.WF := by
  constructor <;> decide

theorem not32_and_self (x : Nat) : not32 x &&& x = 0 := by
  apply Nat.eq_of_testBit_eq
  intro i
  have hm : x % 2 ^ 32 < 2 ^ 32 := Nat.mod_lt _ (by norm_num)
  have h1 : not32 x = 2 ^ 32 - (x % 2 ^ 32 + 1) := by unfold not32; omega
  rw [Nat.testBit_and, h1, Nat.testBit_two_pow_sub_succ hm, Nat.testBit_mod_two_pow]
  by_cases hi : i < 32 <;> simp [hi]

theorem and_not32_and (f k : Nat) : (f &&& not32 k) &&& k = 0 := by
  rw [Nat.and_assoc, not32_and_self, Nat.and_zero]

theorem lor_land_self (f k : Nat) : (f ||| k) &&& k = k := by
  apply Nat.eq_of_testBit_eq
  intro i
  rw [Nat.testBit_and, Nat.testBit_or]
  cases f.testBit i <;> cases k.testBit i <;> rfl

theorem Enqueue_pending (c : Consts) (t : BlockTransaction) (d : Bool)
    (h : t.flags &&& c.kTxnFlagRespond ≠ 0) :
    t.Enqueue c d =
      { status := c.ZX_ERR_IO, msg_out := none, txn := t,
        out := if d then OutOfBandErrorRespond c.ZX_ERR_IO t.response.txnid else [] } := by
  unfold BlockTransaction.Enqueue
  rw [if_pos h]

theorem Enqueue_free (c : Consts) (t : BlockTransaction) (d : Bool)
    (h : t.flags &&& c.kTxnFlagRespond = 0) :
    t.Enqueue c d =
      { status := c.ZX_OK, msg_out := some t.goal,
        txn := { t with
          msgs := t.msgs.set t.goal
            { t.msg t.goal with
              flags := if t.goal = 0 then c.IOTXN_SYNC_BEFORE
                else if (if t.goal = c.MAX_TXN_MESSAGES - 1 then true else d) = true
                  then c.IOTXN_SYNC_AFTER else 0 }
          goal := (t.goal + 1) % 2 ^ 32
          flags := t.flags |||
            (if (if t.goal = c.MAX_TXN_MESSAGES - 1 then true else d) = true
              then c.kTxnFlagRespond else 0) },
        out := [] } := by
  unfold BlockTransaction.Enqueue
  rw [if_neg (by simpa using h)]

/-- C10: `Enqueue` returns `ZX_ERR_IO` if and only if the respond flag is
already set; in that case the transaction (goal, flags, count, status) is left
unchanged, no slot is handed out, and the out-of-band response
`{ZX_ERR_IO, txnid, 0}` is written if and only if `do_respond` is true;
otherwise `Enqueue` returns `ZX_OK`. -/
theorem Enqueue_status (c : Consts) (hc : c.WF) (t : BlockTransaction) (do_respond : Bool) :
    ((t.Enqueue c do_respond).status = c.ZX_ERR_IO ↔ t.flags &&& c.kTxnFlagRespond ≠ 0) ∧
    (t.flags &&& c.kTxnFlagRespond ≠ 0 →
      (t.Enqueue c do_respond).txn = t ∧ (t.Enqueue c do_respond).msg_out = none ∧
      (t.Enqueue c do_respond).out =
        if do_respond then
          [Effect.fifo_write { status := c.ZX_ERR_IO, txnid := t.response.txnid, count := 0 }]
        else []) ∧
    (t.flags &&& c.kTxnFlagRespond = 0 → (t.Enqueue c do_respond).status = c.ZX_OK) := by
  by_cases h : t.flags &&& c.kTxnFlagRespond = 0
  · rw [Enqueue_free c t do_respond h]
    refine ⟨?_, fun h2 => absurd h h2, fun _ => rfl⟩
    constructor
    · intro h1
      exact absurd h1.symm hc.io_ne_ok
    · intro h2
      exact absurd h h2
  · rw [Enqueue_pending c t do_respond h]
    refine ⟨⟨fun _ => h, fun _ => rfl⟩, fun _ => ⟨rfl, rfl, rfl⟩, fun h2 => absurd h2 h⟩

theorem getD_set_self {α : Type} (l : List α) (k : Nat) (a d : α) (h : k < l.length) :
    (l.set k a).getD k d = a := by
  simp [h]

theorem getD_set_ne {α : Type} (l : List α) (j k : Nat) (a d : α) (h : k ≠ j) :
    (l.set k a).getD j d = l.getD j d := by
  simp [h]

theorem slot_lt_of_remaining (t : BlockTransaction) (k : Nat)
    (h : (t.msg k).len_remaining ≠ 0) : k < t.msgs.length := by
  by_contra hk
  apply h
  unfold BlockTransaction.msg
  rw [List.getD_eq_default _ _ (Nat.le_of_not_lt hk)]
  rfl

theorem Complete_resubmit (c : Consts) (t : BlockTransaction) (msg : MsgPtr) (status : Int)
    (h : status = c.ZX_OK ∧ (t.msg msg.slot).len_remaining ≠ 0) :
    t.Complete c msg status =
      { txn := { t with
          msgs := t.msgs.set msg.slot
            { t.msg msg.slot with
              len_remaining :=
                (t.msg msg.slot).len_remaining - min (t.msg msg.slot).len_remaining t.max_xfer
              vmo_offset :=
                ((t.msg msg.slot).vmo_offset + min (t.msg msg.slot).len_remaining t.max_xfer)
                  % 2 ^ 64
              dev_offset :=
                ((t.msg msg.slot).dev_offset + min (t.msg msg.slot).len_remaining t.max_xfer)
                  % 2 ^ 64 } }
        out := [if (t.msg msg.slot).opcode = c.BLOCKIO_READ
                then Effect.block_read (t.nextChunk c msg)
                else Effect.block_write (t.nextChunk c msg)] } := by
  unfold BlockTransaction.Complete
  dsimp only
  rw [if_pos h]
  rfl

theorem Complete_respond (c : Consts) (t : BlockTransaction) (msg : MsgPtr) (status : Int)
    (h : ¬ (status = c.ZX_OK ∧ (t.msg msg.slot).len_remaining ≠ 0))
    (h2 : t.flags &&& c.kTxnFlagRespond ≠ 0 ∧ (t.response.count + 1) % 2 ^ 32 = t.goal) :
    t.Complete c msg status =
      { txn := { t with
          msgs := t.msgs.set msg.slot { t.msg msg.slot with txn := none, iobuf := none }
          response := { status := c.ZX_OK, txnid := t.response.txnid, count := 0 }
          goal := 0
          flags := t.flags &&& not32 c.kTxnFlagRespond }
        out := [Effect.fifo_write
          { status := t.merged c status, txnid := t.response.txnid,
            count := (t.response.count + 1) % 2 ^ 32 }] } := by
  unfold BlockTransaction.Complete
  dsimp only
  rw [if_neg h, if_pos h2]
  rfl

theorem Complete_quiet (c : Consts) (t : BlockTransaction) (msg : MsgPtr) (status : Int)
    (h : ¬ (status = c.ZX_OK ∧ (t.msg msg.slot).len_remaining ≠ 0))
    (h2 : ¬ (t.flags &&& c.kTxnFlagRespond ≠ 0 ∧ (t.response.count + 1) % 2 ^ 32 = t.goal)) :
    t.Complete c msg status =
      { txn := { t with
          msgs := t.msgs.set msg.slot { t.msg msg.slot with txn := none, iobuf := none }
          response := { status := t.merged c status, txnid := t.response.txnid,
                        count := (t.response.count + 1) % 2 ^ 32 } }
        out := [] } := by
  unfold BlockTransaction.Complete
  dsimp only
  rw [if_neg h, if_neg h2]
  rfl

theorem counting_iff (c : Consts) (t : BlockTransaction) (msg : MsgPtr) (status : Int) :
    t.counting c msg status = true ↔
      ¬ (status = c.ZX_OK ∧ (t.msg msg.slot).len_remaining ≠ 0) := by
  unfold BlockTransaction.counting
  simp only [Bool.not_eq_true', Bool.and_eq_false_iff, decide_eq_false_iff_not, not_and]
  tauto

theorem msg_unsplit (t : BlockTransaction) (msg : MsgPtr) :
    ((t.unsplit msg).msg msg.slot).len_remaining = 0 := by
  unfold BlockTransaction.unsplit BlockTransaction.msg
  by_cases hk : msg.slot < t.msgs.length
  · rw [getD_set_self _ _ _ _ hk]
  · rw [List.getD_eq_default _ _ (by simpa using hk)]
    rfl

/-- A counting `Complete` acts on the accumulator alone. -/
theorem Complete_counting_acc (c : Consts) (t u : BlockTransaction) (msg : MsgPtr)
    (status : Int)
    (ht : ¬ (status = c.ZX_OK ∧ (t.msg msg.slot).len_remaining ≠ 0))
    (hu : ¬ (status = c.ZX_OK ∧ (u.msg msg.slot).len_remaining ≠ 0))
    (h : t.accumulator = u.accumulator) :
    (t.Complete c msg status).txn.accumulator = (u.Complete c msg status).txn.accumulator ∧
    (t.Complete c msg status).out = (u.Complete c msg status).out := by
  unfold BlockTransaction.accumulator at h
  simp only [Prod.mk.injEq] at h
  obtain ⟨h1, h2, h3⟩ := h
  by_cases hr : t.flags &&& c.kTxnFlagRespond ≠ 0 ∧ (t.response.count + 1) % 2 ^ 32 = t.goal
  · have hr2 : u.flags &&& c.kTxnFlagRespond ≠ 0 ∧
        (u.response.count + 1) % 2 ^ 32 = u.goal := by
      rw [← h1, ← h2, ← h3]; exact hr
    rw [Complete_respond c t msg status ht hr, Complete_respond c u msg status hu hr2]
    simp [BlockTransaction.accumulator, BlockTransaction.merged, h1, h3]
  · have hr2 : ¬ (u.flags &&& c.kTxnFlagRespond ≠ 0 ∧
        (u.response.count + 1) % 2 ^ 32 = u.goal) := by
      rw [← h1, ← h2, ← h3]; exact hr
    rw [Complete_quiet c t msg status ht hr, Complete_quiet c u msg status hu hr2]
    simp [BlockTransaction.accumulator, BlockTransaction.merged, h1, h2, h3]

theorem ceil_div_step (M r : Nat) (hM : 0 < M) (hr : r ≠ 0) :
    (r + M - 1) / M = (r - min r M + M - 1) / M + 1 := by
  by_cases h : r ≤ M
  · rw [Nat.min_eq_left h]
    have h1 : (r - r + M - 1) / M = 0 := Nat.div_eq_of_lt (by omega)
    have h2 : (r + M - 1) / M = 1 := by
      apply Nat.div_eq_of_lt_le <;> omega
    rw [h1, h2]
  · have h' : M < r := Nat.lt_of_not_le h
    rw [Nat.min_eq_right (Nat.le_of_lt h')]
    have : r + M - 1 = (r - M + M - 1) + M := by omega
    rw [this, Nat.add_div_right _ hM]

theorem chunkExtents_zero (M vo dv : Nat) (hM : 0 < M) : chunkExtents M 0 vo dv = [] := by
  unfold chunkExtents
  have : (0 + M - 1) / M = 0 := Nat.div_eq_of_lt (by omega)
  rw [this]
  rfl

theorem chunkExtents_step (M r vo dv : Nat) (hM : 0 < M) (hr : r ≠ 0) :
    chunkExtents M r vo dv =
      (min r M, vo, dv) :: chunkExtents M (r - min r M) (vo + min r M) (dv + min r M) := by
  unfold chunkExtents
  rw [ceil_div_step M r hM hr, List.range_succ_eq_map, List.map_cons, List.map_map]
  congr 1
  · simp [Nat.min_comm]
  · by_cases h : r ≤ M
    · rw [Nat.min_eq_left h]
      have h1 : (r - r + M - 1) / M = 0 := Nat.div_eq_of_lt (by omega)
      rw [h1]
      rfl
    · have h' : M < r := Nat.lt_of_not_le h
      rw [Nat.min_eq_right (Nat.le_of_lt h')]
      apply List.map_congr_left
      intro k _
      simp only [Function.comp, Prod.mk.injEq]
      refine ⟨?_, ?_, ?_⟩
      · rw [Nat.succ_mul]; congr 1; omega
      · rw [Nat.succ_mul]; omega
      · rw [Nat.succ_mul]; omega

theorem responsesOf_append (a b : List Effect) :
    responsesOf (a ++ b) = responsesOf a ++ responsesOf b := by
  induction a with
  | nil => rfl
  | cons e es ih => cases e <;> simp [responsesOf, ih]

theorem submissionsOf_append (a b : List Effect) :
    submissionsOf (a ++ b) = submissionsOf a ++ submissionsOf b := by
  induction a with
  | nil => rfl
  | cons e es ih => cases e <;> simp [submissionsOf, ih]

theorem submissionsOf_chunk (c : Consts) (m : block_msg_t) (op : block_op) :
    submissionsOf [if m.opcode = c.BLOCKIO_READ then Effect.block_read op
                   else Effect.block_write op] = [op] := by
  split_ifs <;> rfl

theorem responsesOf_chunk (c : Consts) (m : block_msg_t) (op : block_op) :
    responsesOf [if m.opcode = c.BLOCKIO_READ then Effect.block_read op
                 else Effect.block_write op] = [] := by
  split_ifs <;> rfl

/-- A counting `Complete` submits nothing to the device. -/
theorem Complete_counting_submits (c : Consts) (t : BlockTransaction) (msg : MsgPtr)
    (status : Int) (h : ¬ (status = c.ZX_OK ∧ (t.msg msg.slot).len_remaining ≠ 0)) :
    submissionsOf (t.Complete c msg status).out = [] := by
  by_cases hr : t.flags &&& c.kTxnFlagRespond ≠ 0 ∧ (t.response.count + 1) % 2 ^ 32 = t.goal
  · rw [Complete_respond c t msg status h hr]; rfl
  · rw [Complete_quiet c t msg status h hr]; rfl

theorem Complete_resubmit_msg (c : Consts) (t : BlockTransaction) (msg : MsgPtr)
    (h : (t.msg msg.slot).len_remaining ≠ 0) :
    ((t.Complete c msg c.ZX_OK).txn.msg msg.slot) =
      { t.msg msg.slot with
        len_remaining :=
          (t.msg msg.slot).len_remaining - min (t.msg msg.slot).len_remaining t.max_xfer
        vmo_offset :=
          ((t.msg msg.slot).vmo_offset + min (t.msg msg.slot).len_remaining t.max_xfer) % 2 ^ 64
        dev_offset :=
          ((t.msg msg.slot).dev_offset + min (t.msg msg.slot).len_remaining t.max_xfer)
            % 2 ^ 64 } := by
  rw [Complete_resubmit c t msg c.ZX_OK ⟨rfl, h⟩]
  show List.getD (t.msgs.set msg.slot _) msg.slot default = _
  rw [getD_set_self _ _ _ _ (slot_lt_of_remaining t msg.slot h)]

theorem completeChunks_acc (c : Consts) (msg : MsgPtr) (M : Nat) (hM : 0 < M) :
    ∀ (fuel : Nat) (t : BlockTransaction), t.max_xfer = M →
      ((t.msg msg.slot).len_remaining + M - 1) / M < fuel →
      (submissionsOf (BlockTransaction.completeChunks c fuel t msg).out).length =
        ((t.msg msg.slot).len_remaining + M - 1) / M ∧
      responsesOf (BlockTransaction.completeChunks c fuel t msg).out =
        responsesOf ((t.unsplit msg).Complete c msg c.ZX_OK).out ∧
      (BlockTransaction.completeChunks c fuel t msg).txn.accumulator =
        ((t.unsplit msg).Complete c msg c.ZX_OK).txn.accumulator := by
  intro fuel
  induction fuel with
  | zero => intro t _ h; exact absurd h (Nat.not_lt_zero _)
  | succ fuel ih =>
    intro t hmx hfuel
    have hun : ¬ (c.ZX_OK = c.ZX_OK ∧ ((t.unsplit msg).msg msg.slot).len_remaining ≠ 0) := by
      rw [msg_unsplit]; simp
    by_cases hr : (t.msg msg.slot).len_remaining = 0
    · have hcnt : ¬ (c.ZX_OK = c.ZX_OK ∧ (t.msg msg.slot).len_remaining ≠ 0) := by
        rw [hr]; simp
      have hsub := Complete_counting_submits c t msg c.ZX_OK hcnt
      have hacc := Complete_counting_acc c t (t.unsplit msg) msg c.ZX_OK hcnt hun rfl
      unfold BlockTransaction.completeChunks
      simp only [hsub, List.isEmpty_nil, if_true]
      rw [hr]
      refine ⟨?_, by rw [hacc.2], hacc.1⟩
      have : (0 + M - 1) / M = 0 := Nat.div_eq_of_lt (by omega)
      rw [this]; rfl
    · have hres := Complete_resubmit c t msg c.ZX_OK ⟨rfl, hr⟩
      have hmsg := Complete_resubmit_msg c t msg hr
      have hstep := ceil_div_step M (t.msg msg.slot).len_remaining hM hr
      have hmx2 : (t.Complete c msg c.ZX_OK).txn.max_xfer = M := by rw [hres]; exact hmx
      have hrem2 : ((t.Complete c msg c.ZX_OK).txn.msg msg.slot).len_remaining =
          (t.msg msg.slot).len_remaining - min (t.msg msg.slot).len_remaining M := by
        rw [hmsg, hmx]
      have hfuel2 : (((t.Complete c msg c.ZX_OK).txn.msg msg.slot).len_remaining + M - 1) / M
          < fuel := by
        rw [hrem2]; omega
      obtain ⟨i1, i2, i3⟩ := ih (t.Complete c msg c.ZX_OK).txn hmx2 hfuel2
      have hacc2 : ((t.Complete c msg c.ZX_OK).txn.unsplit msg).accumulator =
          (t.unsplit msg).accumulator := by
        rw [hres]; rfl
      have hun2 : ¬ (c.ZX_OK = c.ZX_OK ∧
          ((((t.Complete c msg c.ZX_OK).txn).unsplit msg).msg msg.slot).len_remaining ≠ 0) := by
        rw [msg_unsplit]; simp
      have hacc := Complete_counting_acc c ((t.Complete c msg c.ZX_OK).txn.unsplit msg)
        (t.unsplit msg) msg c.ZX_OK hun2 hun hacc2
      have hout : submissionsOf (t.Complete c msg c.ZX_OK).out = [t.nextChunk c msg] := by
        rw [hres]; exact submissionsOf_chunk c _ _
      have hout2 : responsesOf (t.Complete c msg c.ZX_OK).out = [] := by
        rw [hres]; exact responsesOf_chunk c _ _
      unfold BlockTransaction.completeChunks
      simp only [hout, List.isEmpty_cons, Bool.false_eq_true, if_false]
      rw [submissionsOf_append, responsesOf_append, hout, hout2, List.nil_append, i2, i3,
        List.length_append, i1, hrem2, hstep, hacc.1, hacc.2]
      simp [Nat.add_comm]

theorem firstError_append (c : Consts) (l l2 : List Int) :
    firstError c (l ++ l2) = firstError c (firstError c l :: l2) := by
  induction l with
  | nil => simp [firstError]
  | cons s l ih =>
    by_cases hs : s = c.ZX_OK
    · simp [firstError, hs, ih]
    · simp [firstError, hs]

theorem merged_eq_firstError (c : Consts) (t : BlockTransaction) (status : Int) :
    t.merged c status = firstError c [t.response.status, status] := by
  unfold BlockTransaction.merged
  by_cases h1 : t.response.status = c.ZX_OK <;> by_cases h2 : status = c.ZX_OK <;>
    simp [firstError, h1, h2]

theorem firstError_merge (c : Consts) (a s : Int) (l : List Int) :
    firstError c (firstError c [a, s] :: l) = firstError c (a :: s :: l) := by
  by_cases h1 : a = c.ZX_OK <;> by_cases h2 : s = c.ZX_OK <;> simp [firstError, h1, h2]

/-- The responses written by a counting `Complete`. -/
theorem Complete_counting_responses (c : Consts) (t : BlockTransaction) (msg : MsgPtr)
    (status : Int) (h : ¬ (status = c.ZX_OK ∧ (t.msg msg.slot).len_remaining ≠ 0)) :
    responsesOf (t.Complete c msg status).out =
      if t.flags &&& c.kTxnFlagRespond ≠ 0 ∧ (t.response.count + 1) % 2 ^ 32 = t.goal then
        [{ status := t.merged c status, txnid := t.response.txnid,
           count := (t.response.count + 1) % 2 ^ 32 }]
      else [] := by
  by_cases hr : t.flags &&& c.kTxnFlagRespond ≠ 0 ∧ (t.response.count + 1) % 2 ^ 32 = t.goal
  · rw [Complete_respond c t msg status h hr, if_pos hr]; rfl
  · rw [Complete_quiet c t msg status h hr, if_neg hr]; rfl

theorem completeAll_status (c : Consts) (cs : List (MsgPtr × Int)) :
    ∀ t : BlockTransaction, BlockTransaction.allCounting c t cs = true →
      responsesOf (BlockTransaction.completeAll c t cs).out = [] →
      (BlockTransaction.completeAll c t cs).txn.response.status =
        firstError c (t.response.status :: cs.map Prod.snd) := by
  induction cs with
  | nil =>
    intro t _ _
    simp only [BlockTransaction.completeAll, firstError, List.map_nil]
    split_ifs with h
    · rfl
    · simp at h; exact h
  | cons p cs ih =>
    intro t hall hout
    obtain ⟨msg, status⟩ := p
    simp only [BlockTransaction.allCounting, Bool.and_eq_true] at hall
    simp only [BlockTransaction.completeAll, responsesOf_append, List.append_eq_nil] at hout
    have hcnt := (counting_iff c t msg status).1 hall.1
    have hresp := Complete_counting_responses c t msg status hcnt
    rw [hout.1] at hresp
    have hr : ¬ (t.flags &&& c.kTxnFlagRespond ≠ 0 ∧
        (t.response.count + 1) % 2 ^ 32 = t.goal) := by
      intro hr
      rw [if_pos hr] at hresp
      exact absurd hresp (by simp)
    have h1 := ih (t.Complete c msg status).txn hall.2 hout.2
    simp only [BlockTransaction.completeAll]
    rw [h1, Complete_quiet c t msg status hcnt hr]
    simp only [List.map_cons]
    rw [merged_eq_firstError, firstError_merge]

/-- C7: for a sequence of counting completions within one group (no reply is
written during the sequence), the recorded status is the status of the
earliest completion that is not `ZX_OK` (the status recorded before the
sequence counting as the earliest), or `ZX_OK` if there is none; a recorded
non-OK status is not changed by later completions; and the reply written by a
further counting completion carries the status merged in the same way. -/
theorem first_error_wins (c : Consts) (t : BlockTransaction) (cs : List (MsgPtr × Int))
    (hall : BlockTransaction.allCounting c t cs = true)
    (hgroup : responsesOf (BlockTransaction.completeAll c t cs).out = []) :
    (BlockTransaction.completeAll c t cs).txn.response.status =
        firstError c (t.response.status :: cs.map Prod.snd) ∧
    (t.response.status ≠ c.ZX_OK →
      (BlockTransaction.completeAll c t cs).txn.response.status = t.response.status) ∧
    (∀ (msg : MsgPtr) (status : Int),
      (BlockTransaction.completeAll c t cs).txn.counting c msg status = true →
      ∀ r ∈ responsesOf
          ((BlockTransaction.completeAll c t cs).txn.Complete c msg status).out,
        r.status = firstError c (t.response.status :: (cs.map Prod.snd ++ [status]))) := by
  have h1 := completeAll_status c cs t hall hgroup
  refine ⟨h1, ?_, ?_⟩
  · intro hne
    rw [h1]
    simp [firstError, hne]
  · intro msg status hcnt r hr
    rw [Complete_counting_responses c _ msg status ((counting_iff c _ msg status).1 hcnt)] at hr
    split_ifs at hr with hcond
    · simp only [List.mem_singleton] at hr
      rw [hr]
      show BlockTransaction.merged c _ status = _
      rw [merged_eq_firstError, h1]
      have := firstError_append c (t.response.status :: cs.map Prod.snd) [status]
      rw [List.cons_append] at this
      rw [this]
    · simp at hr

theorem Plain_Enqueue (c : Consts) (hc : c.WF) (x : Nat) (t : BlockTransaction) (d : Bool)
    (h : t.Plain c x) : (t.Enqueue c d).txn.Plain c x := by
  by_cases hf : t.flags &&& c.kTxnFlagRespond = 0
  · rw [Enqueue_free c t d hf]
    refine ⟨h.1, ?_⟩
    have h0 : t.flags = 0 := by
      rcases h.2 with h0 | h1
      · exact h0
      · rw [h1, Nat.and_self] at hf
        exact absurd hf hc.respond_pos
    show t.flags ||| _ = 0 ∨ t.flags ||| _ = _
    rw [h0]
    split_ifs <;> simp
  · rw [Enqueue_pending c t d hf]
    exact h

theorem Plain_Complete (c : Consts) (x : Nat) (t : BlockTransaction) (msg : MsgPtr)
    (status : Int) (h : t.Plain c x) : (t.Complete c msg status).txn.Plain c x := by
  by_cases hc1 : status = c.ZX_OK ∧ (t.msg msg.slot).len_remaining ≠ 0
  · rw [Complete_resubmit c t msg status hc1]
    exact h
  · by_cases hr : t.flags &&& c.kTxnFlagRespond ≠ 0 ∧ (t.response.count + 1) % 2 ^ 32 = t.goal
    · rw [Complete_respond c t msg status hc1 hr]
      refine ⟨h.1, Or.inl ?_⟩
      show t.flags &&& not32 c.kTxnFlagRespond = 0
      rcases h.2 with h0 | h1
      · rw [h0]; simp
      · rw [h1, Nat.and_comm]; exact not32_and_self _
    · rw [Complete_quiet c t msg status hc1 hr]
      exact h

theorem Plain_applyCalls (c : Consts) (hc : c.WF) (x : Nat) (calls : List TxnCall) :
    ∀ t : BlockTransaction, t.Plain c x → (applyCalls c t calls).Plain c x := by
  induction calls with
  | nil => intro t h; exact h
  | cons call calls ih =>
    intro t h
    cases call with
    | Enqueue d fill =>
      have h1 := Plain_Enqueue c hc x t d h
      simp only [applyCalls]
      split
      · exact ih _ h1
      · exact ih _ h1
    | Complete msg status =>
      simp only [applyCalls]
      exact ih _ (Plain_Complete c x t msg status h)

/-- C9: in every state reached from a fresh transaction by any sequence of
calls, right after a `Complete` that writes the aggregated response the
accumulator equals that of a freshly allocated transaction with the same
txnid (count 0, status `ZX_OK`, goal 0, flags 0), and the next `Enqueue`
succeeds and hands out slot 0. -/
theorem reply_resets_transaction (c : Consts) (hc : c.WF) (txnid max_xfer : Nat)
    (calls : List TxnCall) (msg : MsgPtr) (status : Int)
    (hreply : responsesOf
      ((applyCalls c (BlockTransaction.new c txnid max_xfer) calls).Complete c msg status).out
        ≠ []) :
    ((applyCalls c (BlockTransaction.new c txnid max_xfer) calls).Complete c msg
        status).txn.accumulator = (BlockTransaction.new c txnid max_xfer).accumulator ∧
    ∀ do_respond : Bool,
      (((applyCalls c (BlockTransaction.new c txnid max_xfer) calls).Complete c msg
          status).txn.Enqueue c do_respond).status = c.ZX_OK ∧
      (((applyCalls c (BlockTransaction.new c txnid max_xfer) calls).Complete c msg
          status).txn.Enqueue c do_respond).msg_out = some 0 := by
  have hp : (applyCalls c (BlockTransaction.new c txnid max_xfer) calls).Plain c txnid :=
    Plain_applyCalls c hc txnid calls _ ⟨rfl, Or.inl rfl⟩
  generalize applyCalls c (BlockTransaction.new c txnid max_xfer) calls = t at hp hreply
  have hcnt : ¬ (status = c.ZX_OK ∧ (t.msg msg.slot).len_remaining ≠ 0) := by
    intro h
    rw [Complete_resubmit c t msg status h] at hreply
    exact hreply (responsesOf_chunk c _ _)
  have hr : t.flags &&& c.kTxnFlagRespond ≠ 0 ∧ (t.response.count + 1) % 2 ^ 32 = t.goal := by
    by_contra hr
    rw [Complete_quiet c t msg status hcnt hr] at hreply
    exact hreply rfl
  have hfl : t.flags &&& not32 c.kTxnFlagRespond = 0 := by
    rcases hp.2 with h0 | h1
    · rw [h0]; simp
    · rw [h1, Nat.and_comm]; exact not32_and_self _
  rw [Complete_respond c t msg status hcnt hr]
  refine ⟨?_, ?_⟩
  · simp only [BlockTransaction.accumulator, BlockTransaction.new, hfl, hc.ok_zero, hp.1]
  · intro d
    rw [Enqueue_free c _ d
      (by show (t.flags &&& not32 c.kTxnFlagRespond) &&& _ = 0; rw [hfl]; simp)]
    exact ⟨rfl, rfl⟩

theorem Tracks_new (c : Consts) (hc : c.WF) (txnid max_xfer : Nat) :
    Tracks c txnid (BlockTransaction.new c txnid max_xfer) Groups.empty where
  txnid_eq := rfl
  goal_eq := rfl
  count_eq := rfl
  flag_iff := by simp [BlockTransaction.new, Groups.empty]
  ended_out := by simp [Groups.empty]
  goal_le := Nat.zero_le _
  open_lt := fun _ => hc.msgs_pos

theorem Enqueue_ok_free (c : Consts) (hc : c.WF) (t : BlockTransaction) (d : Bool)
    (h : (t.Enqueue c d).status = c.ZX_OK) : t.flags &&& c.kTxnFlagRespond = 0 := by
  by_contra hf
  rw [Enqueue_pending c t d hf] at h
  exact hc.io_ne_ok h

theorem Tracks_Enqueue (c : Consts) (hc : c.WF) (x : Nat) (t : BlockTransaction) (g : Groups)
    (d : Bool) (fill : block_msg_t) (h : Tracks c x t g)
    (hok : (t.Enqueue c d).status = c.ZX_OK) :
    (t.Enqueue c d).msg_out = some t.goal ∧ (t.Enqueue c d).out = [] ∧
    Tracks c x
      { (t.Enqueue c d).txn with
        msgs := (t.Enqueue c d).txn.msgs.set t.goal
          { fill with flags := ((t.Enqueue c d).txn.msg t.goal).flags } }
      (g.enqueue t.goal (d || t.goal + 1 == c.MAX_TXN_MESSAGES)) := by
  have hf := Enqueue_ok_free c hc t d hok
  have hopen : g.ended = false := by
    by_contra he
    have := h.flag_iff.2 (by simpa using he)
    exact this hf
  have hlt := h.open_lt hopen
  have h32 := hc.msgs_lt
  have hpos := hc.msgs_pos
  rw [Enqueue_free c t d hf]
  refine ⟨rfl, rfl, ?_⟩
  have hgoal : (t.goal + 1) % 2 ^ 32 = t.goal + 1 := Nat.mod_eq_of_lt (by omega)
  have hd : ((if t.goal = c.MAX_TXN_MESSAGES - 1 then true else d) = true) ↔
      ((d || t.goal + 1 == c.MAX_TXN_MESSAGES) = true) := by
    by_cases hg : t.goal = c.MAX_TXN_MESSAGES - 1
    · have : t.goal + 1 = c.MAX_TXN_MESSAGES := by omega
      rw [if_pos hg, this]
      simp
    · have : ¬ t.goal + 1 = c.MAX_TXN_MESSAGES := by omega
      simp [hg, this]
  constructor
  · exact h.txnid_eq
  · show (t.goal + 1) % 2 ^ 32 = g.enqueued + 1
    rw [hgoal, h.goal_eq]
  · show t.response.count + (t.goal :: g.outstanding).length = (t.goal + 1) % 2 ^ 32
    rw [hgoal, List.length_cons, ← h.count_eq]; omega
  · show (t.flags ||| _) &&& c.kTxnFlagRespond ≠ 0 ↔
      (d || t.goal + 1 == c.MAX_TXN_MESSAGES) = true
    rw [← hd]
    by_cases hd2 : (if t.goal = c.MAX_TXN_MESSAGES - 1 then true else d) = true
    · rw [if_pos hd2, lor_land_self]
      exact ⟨fun _ => hd2, fun _ => hc.respond_pos⟩
    · rw [if_neg hd2, Nat.or_zero]
      exact ⟨fun hne => absurd hf hne, fun h2 => absurd h2 hd2⟩
  · intro _
    show t.goal :: g.outstanding ≠ []
    simp
  · show (t.goal + 1) % 2 ^ 32 ≤ c.MAX_TXN_MESSAGES
    rw [hgoal]; omega
  · intro he
    show (t.goal + 1) % 2 ^ 32 < c.MAX_TXN_MESSAGES
    rw [hgoal]
    have he2 : (d || t.goal + 1 == c.MAX_TXN_MESSAGES) = false := he
    simp only [Bool.or_eq_false_iff, beq_eq_false_iff_ne, ne_eq] at he2
    omega

theorem Tracks_Complete (c : Consts) (hc : c.WF) (x : Nat) (t : BlockTransaction) (g : Groups)
    (msg : MsgPtr) (status : Int) (h : Tracks c x t g) (hmem : msg.slot ∈ g.outstanding) :
    Tracks c x (t.Complete c msg status).txn
      (if t.counting c msg status then g.complete msg.slot else g) ∧
    (responsesOf (t.Complete c msg status).out).length + g.finished =
      (if t.counting c msg status then g.complete msg.slot else g).finished ∧
    ∀ r ∈ responsesOf (t.Complete c msg status).out,
      r.txnid = x ∧ r.count = g.enqueued ∧ r.status = t.merged c status := by
  have h32 := hc.msgs_lt
  have hgl := h.goal_le
  have hce := h.count_eq
  have hlen : 0 < g.outstanding.length := List.length_pos_of_mem hmem
  have herase : (g.outstanding.erase msg.slot).length = g.outstanding.length - 1 :=
    List.length_erase_of_mem hmem
  by_cases hcnt : status = c.ZX_OK ∧ (t.msg msg.slot).len_remaining ≠ 0
  · have hb : t.counting c msg status = false := by
      rw [← Bool.not_eq_true, counting_iff]; exact fun hn => hn hcnt
    rw [hb, Complete_resubmit c t msg status hcnt]
    refine ⟨⟨h.txnid_eq, h.goal_eq, h.count_eq, h.flag_iff, h.ended_out, h.goal_le,
      h.open_lt⟩, ?_, ?_⟩
    · rw [responsesOf_chunk]; simp
    · rw [responsesOf_chunk]; simp
  · have hb : t.counting c msg status = true := (counting_iff c t msg status).2 hcnt
    have hcount : (t.response.count + 1) % 2 ^ 32 = t.response.count + 1 :=
      Nat.mod_eq_of_lt (by omega)
    rw [hb, Complete_counting_responses c t msg status hcnt]
    simp only [if_true]
    by_cases hr : t.flags &&& c.kTxnFlagRespond ≠ 0 ∧ (t.response.count + 1) % 2 ^ 32 = t.goal
    · have hended : g.ended = true := h.flag_iff.1 hr.1
      have hempty : (g.outstanding.erase msg.slot).isEmpty = true := by
        rw [List.isEmpty_iff_length_eq_zero, herase]
        have := hr.2
        omega
      have hg : g.complete msg.slot =
          { enqueued := 0, outstanding := [], ended := false, finished := g.finished + 1 } := by
        unfold Groups.complete
        rw [hended, hempty]
        rfl
      rw [Complete_respond c t msg status hcnt hr, if_pos hr, hg]
      refine ⟨⟨h.txnid_eq, rfl, rfl, ?_, ?_, Nat.zero_le _, fun _ => hc.msgs_pos⟩, ?_, ?_⟩
      · show (t.flags &&& not32 c.kTxnFlagRespond) &&& c.kTxnFlagRespond ≠ 0 ↔ false = true
        rw [and_not32_and]; simp
      · intro hf; exact absurd hf (by simp)
      · simp; omega
      · intro r hrm
        simp only [List.mem_singleton] at hrm
        rw [hrm]
        refine ⟨h.txnid_eq, ?_, rfl⟩
        show (t.response.count + 1) % 2 ^ 32 = g.enqueued
        rw [hr.2, h.goal_eq]
    · have hg : g.complete msg.slot = { g with outstanding := g.outstanding.erase msg.slot } := by
        unfold Groups.complete
        by_cases hended : g.ended = true
        · have hflag := h.flag_iff.2 hended
          have hne : ¬ (g.outstanding.erase msg.slot).isEmpty = true := by
            rw [List.isEmpty_iff_length_eq_zero, herase]
            intro h0
            apply hr
            refine ⟨hflag, ?_⟩
            rw [hcount]; omega
          simp [hended, hne]
        · simp [hended]
      rw [Complete_quiet c t msg status hcnt hr, if_neg hr, hg]
      refine ⟨⟨h.txnid_eq, h.goal_eq, ?_, h.flag_iff, ?_, h.goal_le, h.open_lt⟩, ?_, ?_⟩
      · show (t.response.count + 1) % 2 ^ 32 + (g.outstanding.erase msg.slot).length = t.goal
        rw [hcount, herase]; omega
      · intro hended
        show g.outstanding.erase msg.slot ≠ []
        intro h0
        apply hr
        refine ⟨h.flag_iff.2 hended, ?_⟩
        rw [hcount]
        have : (g.outstanding.erase msg.slot).length = 0 := by rw [h0]; rfl
        omega
      · simp
      · simp

theorem runCalls_Tracks (c : Consts) (hc : c.WF) (x : Nat) (calls : List TxnCall) :
    ∀ (t : BlockTransaction) (g : Groups) (r : BlockTransaction × Groups × List Effect),
      Tracks c x t g → runCalls c t g calls = some r →
      Tracks c x r.1 r.2.1 ∧ (responsesOf r.2.2).length + g.finished = r.2.1.finished ∧
      ∀ p ∈ responsesOf r.2.2, p.txnid = x := by
  induction calls with
  | nil =>
    intro t g r h hrun
    simp only [runCalls, Option.some.injEq] at hrun
    subst hrun
    exact ⟨h, by simp [responsesOf], by simp [responsesOf]⟩
  | cons call calls ih =>
    intro t g r h hrun
    cases call with
    | Enqueue d fill =>
      simp only [runCalls] at hrun
      split_ifs at hrun with hok
      have hok2 : (t.Enqueue c d).status = c.ZX_OK := by simpa using hok
      obtain ⟨hk, hout, htr⟩ := Tracks_Enqueue c hc x t g d fill h hok2
      rw [hk] at hrun
      simp only at hrun
      split at hrun
      · exact absurd hrun (by simp)
      · rename_i t2 g2 out heq
        simp only [Option.some.injEq] at hrun
        subst hrun
        obtain ⟨i1, i2, i3⟩ := ih _ _ _ htr heq
        refine ⟨i1, ?_, ?_⟩
        · simp only [hout, List.nil_append]
          exact i2
        · simp only [hout, List.nil_append]
          exact i3
    | Complete msg status =>
      simp only [runCalls] at hrun
      by_cases hmem : msg.slot ∈ g.outstanding
      · rw [if_pos hmem] at hrun
        obtain ⟨htr, hfin, hid⟩ := Tracks_Complete c hc x t g msg status h hmem
        generalize (if t.counting c msg status = true then g.complete msg.slot else g) = g1
          at hrun htr hfin
        split at hrun
        · exact absurd hrun (by simp)
        · rename_i t2 g2 out heq
          simp only [Option.some.injEq] at hrun
          subst hrun
          obtain ⟨i1, i2, i3⟩ := ih _ _ _ htr heq
          refine ⟨i1, ?_, ?_⟩
          · show (responsesOf ((t.Complete c msg status).out ++ out)).length + g.finished
              = g2.finished
            rw [responsesOf_append, List.length_append]
            have i2' : (responsesOf out).length + g1.finished = g2.finished := i2
            omega
          · intro p hp
            have hp' : p ∈ responsesOf ((t.Complete c msg status).out ++ out) := hp
            rw [responsesOf_append, List.mem_append] at hp'
            rcases hp' with hp' | hp'
            · exact (hid p hp').1
            · exact i3 p hp'
      · rw [if_neg hmem] at hrun
        exact absurd hrun (by simp)

/-- C2: along every admitted trace on a fresh transaction (every `Enqueue`
succeeds, every `Complete` is for a message enqueued and not yet completed),
the number of responses written to the FIFO equals the number of group-ending
`Enqueue` calls whose group has had all its messages completed. -/
theorem one_response_per_finished_group (c : Consts) (hc : c.WF) (txnid max_xfer : Nat)
    (calls : List TxnCall) (r : BlockTransaction × Groups × List Effect)
    (h : runCalls c (BlockTransaction.new c txnid max_xfer) Groups.empty calls = some r) :
    (responsesOf r.2.2).length = r.2.1.finished := by
  have := (runCalls_Tracks c hc txnid calls _ _ r (Tracks_new c hc txnid max_xfer) h).2.1
  simpa [Groups.empty] using this

/-- C4: a `Complete` with status `ZX_OK` on a message with `len_remaining != 0`
leaves count, status, goal and flags unchanged and writes no response; when
the device completes every chunk with `ZX_OK` (`max_xfer > 0`), exactly
`ceil(len_remaining / max_xfer)` chunks are re-submitted, and the accumulator
and the responses written are those of a single `Complete` of the same message
not split: the count is incremented once, by the completion of the final
chunk. -/
theorem chunk_completions_counted_once (c : Consts) (t : BlockTransaction) (msg : MsgPtr) :
    ((t.msg msg.slot).len_remaining ≠ 0 →
      (t.Complete c msg c.ZX_OK).txn.accumulator = t.accumulator ∧
      responsesOf (t.Complete c msg c.ZX_OK).out = []) ∧
    (0 < t.max_xfer → ∀ fuel : Nat,
      ((t.msg msg.slot).len_remaining + t.max_xfer - 1) / t.max_xfer < fuel →
      (submissionsOf (BlockTransaction.completeChunks c fuel t msg).out).length =
        ((t.msg msg.slot).len_remaining + t.max_xfer - 1) / t.max_xfer ∧
      responsesOf (BlockTransaction.completeChunks c fuel t msg).out =
        responsesOf ((t.unsplit msg).Complete c msg c.ZX_OK).out ∧
      (BlockTransaction.completeChunks c fuel t msg).txn.accumulator =
        ((t.unsplit msg).Complete c msg c.ZX_OK).txn.accumulator ∧
      ((BlockTransaction.completeChunks c fuel t msg).txn.response.count =
          (t.response.count + 1) % 2 ^ 32 ∨
        responsesOf (BlockTransaction.completeChunks c fuel t msg).out =
          [{ status := t.response.status, txnid := t.response.txnid,
             count := (t.response.count + 1) % 2 ^ 32 }])) := by
  constructor
  · intro h
    rw [Complete_resubmit c t msg c.ZX_OK ⟨rfl, h⟩]
    exact ⟨rfl, responsesOf_chunk c _ _⟩
  · intro hM fuel hfuel
    obtain ⟨h1, h2, h3⟩ := completeChunks_acc c msg t.max_xfer hM fuel t rfl hfuel
    refine ⟨h1, h2, h3, ?_⟩
    have hun : ¬ (c.ZX_OK = c.ZX_OK ∧ ((t.unsplit msg).msg msg.slot).len_remaining ≠ 0) := by
      rw [msg_unsplit]; simp
    by_cases hr : (t.unsplit msg).flags &&& c.kTxnFlagRespond ≠ 0 ∧
        ((t.unsplit msg).response.count + 1) % 2 ^ 32 = (t.unsplit msg).goal
    · right
      rw [h2, Complete_respond c _ msg c.ZX_OK hun hr]
      simp [responsesOf, BlockTransaction.merged, BlockTransaction.unsplit]
    · left
      have h4 : (BlockTransaction.completeChunks c fuel t msg).txn.accumulator.1.count =
          (((t.unsplit msg).Complete c msg c.ZX_OK).txn).accumulator.1.count := by rw [h3]
      rw [Complete_quiet c _ msg c.ZX_OK hun hr] at h4
      exact h4

theorem chunk_completions_counted_once_witness :
    ((splitTxn.msg 0).len_remaining ≠ 0 ∧ 0 < splitTxn.max_xfer ∧
      ((splitTxn.msg 0).len_remaining + splitTxn.max_xfer - 1) / splitTxn.max_xfer < 3) ∧
    (splitTxn.Complete zircon ⟨0, 0⟩ zircon.ZX_OK).txn.accumulator = splitTxn.accumulator ∧
    responsesOf (BlockTransaction.completeChunks zircon 3 splitTxn ⟨0, 0⟩).out =
      responsesOf ((splitTxn.unsplit ⟨0, 0⟩).Complete zircon ⟨0, 0⟩ zircon.ZX_OK).out :=
  ⟨⟨by decide, by decide, by decide⟩,
   ((chunk_completions_counted_once zircon splitTxn ⟨0, 0⟩).1 (by decide)).1,
   ((chunk_completions_counted_once zircon splitTxn ⟨0, 0⟩).2 (by decide) 3 (by decide)).2.1⟩

/-- C8: a counting `Complete` writes a response exactly when, after the
increment, the respond flag is set and the count equals the goal; along every
admitted trace from a fresh transaction that response carries the txnid of
the allocation, the merged status and the number of messages enqueued in the
group; and in the scenario (one 4096-byte write at offset 0 into a 4096-byte
buffer, group-end-with-reply, completed with `ZX_OK`) exactly one response
`{ZX_OK, txnid, 1}` is written. -/
theorem aggregated_response (c : Consts) (hc : c.WF) :
    (∀ (t : BlockTransaction) (msg : MsgPtr) (status : Int),
      t.counting c msg status = true →
      responsesOf (t.Complete c msg status).out =
        if t.flags &&& c.kTxnFlagRespond ≠ 0 ∧ (t.response.count + 1) % 2 ^ 32 = t.goal then
          [{ status := t.merged c status, txnid := t.response.txnid,
             count := (t.response.count + 1) % 2 ^ 32 }]
        else []) ∧
    (∀ (txnid max_xfer : Nat) (calls : List TxnCall)
      (r : BlockTransaction × Groups × List Effect),
      runCalls c (BlockTransaction.new c txnid max_xfer) Groups.empty calls = some r →
      ∀ (msg : MsgPtr) (status : Int), r.1.counting c msg status = true →
      ∀ p ∈ responsesOf (r.1.Complete c msg status).out,
        p.txnid = txnid ∧ p.status = r.1.merged c status ∧ p.count = r.2.1.enqueued) ∧
    (scenarioServer.find 1 =
        some { io_vmo := { handle := 1, get_size_status := 0, size := 4096 }, vmoid := 1 } ∧
      scenarioServer.txns.getD 0 none = some 0 ∧
      responsesOf (scenarioServer.ServeRequest zircon scenarioWrite).2 = [] ∧
      (submissionsOf (scenarioServer.ServeRequest zircon scenarioWrite).2).map
        (fun op => (op.extent, op.cookie)) = [((4096, 0, 0), { txn := 0, slot := 0 })] ∧
      ((scenarioServer.ServeRequest zircon scenarioWrite).1.blockserver_fifo_complete zircon
          { txn := 0, slot := 0 } zircon.ZX_OK).2 =
        [Effect.fifo_write { status := zircon.ZX_OK, txnid := 0, count := 1 }]) := by
  refine ⟨?_, ?_, ?_⟩
  · intro t msg status hcnt
    exact Complete_counting_responses c t msg status ((counting_iff c t msg status).1 hcnt)
  · intro txnid max_xfer calls r hrun msg status hcnt p hp
    have htr := (runCalls_Tracks c hc txnid calls _ _ r (Tracks_new c hc txnid max_xfer) hrun).1
    rw [Complete_counting_responses c r.1 msg status
      ((counting_iff c r.1 msg status).1 hcnt)] at hp
    split_ifs at hp with hcond
    · simp only [List.mem_singleton] at hp
      rw [hp]
      refine ⟨htr.txnid_eq, rfl, ?_⟩
      show (r.1.response.count + 1) % 2 ^ 32 = r.2.1.enqueued
      rw [hcond.2, htr.goal_eq]
    · simp at hp
  · decide

theorem find_eq_none_iff (s : BlockServer) (id : Nat) :
    s.find id = none ↔ id ∉ s.registered := by
  unfold BlockServer.find BlockServer.registered
  rw [List.find?_eq_none]
  simp only [List.mem_map, not_exists, not_and, beq_iff_eq]

theorem find_some_vmoid (s : BlockServer) (id : Nat) (b : IoBuffer) (h : s.find id = some b) :
    b.vmoid = id ∧ b ∈ s.tree := by
  unfold BlockServer.find at h
  have h1 := List.find?_some h
  have h2 := List.mem_of_find?_eq_some h
  exact ⟨by simpa using h1, h2⟩

theorem scan_some (s : BlockServer) (n : Nat) :
    ∀ i j : Nat, s.scan n i = some j → i ≤ j ∧ j < i + n ∧ s.find j = none := by
  induction n with
  | zero => intro i j h; simp [BlockServer.scan] at h
  | succ n ih =>
    intro i j h
    simp only [BlockServer.scan] at h
    split_ifs at h with hreg
    · obtain ⟨h1, h2, h3⟩ := ih (i + 1) j h
      exact ⟨by omega, by omega, h3⟩
    · simp only [Option.some.injEq] at h
      subst h
      refine ⟨Nat.le_refl _, by omega, ?_⟩
      simpa using hreg

theorem FindVmoIDLocked_frame (c : Consts) (s : BlockServer) :
    (s.FindVmoIDLocked c).server.tree = s.tree ∧
    (s.FindVmoIDLocked c).server.txns = s.txns ∧
    (s.FindVmoIDLocked c).server.heap = s.heap ∧
    (s.FindVmoIDLocked c).server.max_transfer_size = s.max_transfer_size := by
  unfold BlockServer.FindVmoIDLocked
  split
  · exact ⟨rfl, rfl, rfl, rfl⟩
  · dsimp only
    split <;> exact ⟨rfl, rfl, rfl, rfl⟩

theorem FindVmoIDLocked_spec (c : Consts) (hc : c.WF) (s : BlockServer)
    (h : RegistrySound c s) :
    ((s.FindVmoIDLocked c).status = c.ZX_OK ↔ (s.FindVmoIDLocked c).out ≠ none) ∧
    ∀ id, (s.FindVmoIDLocked c).out = some id →
      id ≠ c.VMOID_INVALID ∧ id ∉ s.registered ∧
      (s.FindVmoIDLocked c).server.last_id ≤ c.vmoid_max ∧
      (c.VMOID_INVALID < c.vmoid_max →
        c.VMOID_INVALID < (s.FindVmoIDLocked c).server.last_id) := by
  have hl := h.last_le
  have hi := h.invalid_lt
  unfold BlockServer.FindVmoIDLocked
  split
  · rename_i i hscan
    obtain ⟨h1, h2, h3⟩ := scan_some s _ _ _ hscan
    have hlt : i < c.vmoid_max := by omega
    have hmod : (i + 1) % (c.vmoid_max + 1) = i + 1 := Nat.mod_eq_of_lt (by omega)
    refine ⟨by simp, ?_⟩
    intro id hid
    simp only [Option.some.injEq] at hid
    subst hid
    refine ⟨?_, (find_eq_none_iff s i).1 h3, ?_, ?_⟩
    · intro heq
      have := hi (by omega)
      omega
    · show (i + 1) % (c.vmoid_max + 1) ≤ c.vmoid_max
      omega
    · intro hlt2
      show c.VMOID_INVALID < (i + 1) % (c.vmoid_max + 1)
      have := hi hlt2
      omega
  · dsimp only
    split
    · rename_i i hscan
      obtain ⟨h1, h2, h3⟩ := scan_some s _ _ _ hscan
      have hlt : i < c.vmoid_max := by omega
      have hmod : (i + 1) % (c.vmoid_max + 1) = i + 1 := Nat.mod_eq_of_lt (by omega)
      refine ⟨by simp, ?_⟩
      intro id hid
      simp only [Option.some.injEq] at hid
      subst hid
      have hfirst : c.VMOID_INVALID < c.vmoid_max →
          (c.VMOID_INVALID + 1) % (c.vmoid_max + 1) = c.VMOID_INVALID + 1 :=
        fun hlt2 => Nat.mod_eq_of_lt (by omega)
      refine ⟨?_, (find_eq_none_iff s i).1 h3, ?_, ?_⟩
      · intro heq
        by_cases hlt2 : c.VMOID_INVALID < c.vmoid_max
        · have := hfirst hlt2
          omega
        · omega
      · show (i + 1) % (c.vmoid_max + 1) ≤ c.vmoid_max
        omega
      · intro hlt2
        show c.VMOID_INVALID < (i + 1) % (c.vmoid_max + 1)
        have := hfirst hlt2
        omega
    · refine ⟨?_, by simp⟩
      simp only [ne_eq, not_true_eq_false, iff_false]
      exact hc.no_resources_ne_ok

theorem blockserver_fifo_complete_frame (c : Consts) (s : BlockServer) (cookie : MsgPtr)
    (status : Int) :
    (s.blockserver_fifo_complete c cookie status).1.tree = s.tree ∧
    (s.blockserver_fifo_complete c cookie status).1.last_id = s.last_id ∧
    (s.blockserver_fifo_complete c cookie status).1.txns = s.txns ∧
    (s.blockserver_fifo_complete c cookie status).1.max_transfer_size = s.max_transfer_size := by
  unfold BlockServer.blockserver_fifo_complete
  split_ifs <;> exact ⟨rfl, rfl, rfl, rfl⟩

theorem ServeMessage_frame (c : Consts) (s : BlockServer) (r : block_fifo_request_t)
    (iobuf : IoBuffer) (ref : Nat) (t : BlockTransaction) (k : Nat) :
    (s.ServeMessage c r iobuf ref t k).1.tree = s.tree ∧
    (s.ServeMessage c r iobuf ref t k).1.last_id = s.last_id ∧
    (s.ServeMessage c r iobuf ref t k).1.txns = s.txns ∧
    (s.ServeMessage c r iobuf ref t k).1.max_transfer_size = s.max_transfer_size := by
  unfold BlockServer.ServeMessage
  dsimp only
  split_ifs <;>
    first
    | exact blockserver_fifo_complete_frame c _ _ _
    | exact ⟨rfl, rfl, rfl, rfl⟩

theorem ServeReadWrite_frame (c : Consts) (s : BlockServer) (r : block_fifo_request_t)
    (iobuf : IoBuffer) (ref : Nat) :
    (s.ServeReadWrite c r iobuf ref).1.tree = s.tree ∧
    (s.ServeReadWrite c r iobuf ref).1.last_id = s.last_id ∧
    (s.ServeReadWrite c r iobuf ref).1.txns = s.txns ∧
    (s.ServeReadWrite c r iobuf ref).1.max_transfer_size = s.max_transfer_size := by
  unfold BlockServer.ServeReadWrite
  dsimp only
  split_ifs <;>
    first
    | exact ⟨rfl, rfl, rfl, rfl⟩
    | (split <;>
        first
        | exact ⟨rfl, rfl, rfl, rfl⟩
        | exact ServeMessage_frame c s r iobuf ref _ _)

theorem ServeRequest_frame (c : Consts) (s : BlockServer) (r : block_fifo_request_t) :
    (s.ServeRequest c r).1.last_id = s.last_id ∧
    (s.ServeRequest c r).1.txns = s.txns ∧
    (s.ServeRequest c r).1.max_transfer_size = s.max_transfer_size ∧
    ((s.ServeRequest c r).1.tree = s.tree ∨
      (r.opcode &&& c.BLOCKIO_OP_MASK = c.BLOCKIO_CLOSE_VMO ∧
        (s.ServeRequest c r).1.tree = s.tree.eraseP (fun b => b.vmoid == r.vmoid))) := by
  unfold BlockServer.ServeRequest
  dsimp only
  split
  · exact ⟨rfl, rfl, rfl, Or.inl rfl⟩
  · split
    · exact ⟨rfl, rfl, rfl, Or.inl rfl⟩
    · rename_i _ iobuf _ _ ref _
      have f := ServeReadWrite_frame c s r iobuf ref
      split_ifs <;>
        first
        | exact ⟨f.2.1, f.2.2.1, f.2.2.2, Or.inl f.1⟩
        | exact ⟨rfl, rfl, rfl, Or.inl rfl⟩
        | exact ⟨rfl, rfl, rfl, Or.inr ⟨by assumption, rfl⟩⟩

theorem AttachVmo_spec (c : Consts) (hc : c.WF) (s : BlockServer) (vmo : zx_vmo)
    (alloc_ok : Bool) (h : RegistrySound c s) :
    RegistrySound c (s.AttachVmo c vmo alloc_ok).server ∧
    (∀ id ∈ s.registered, id ∈ (s.AttachVmo c vmo alloc_ok).server.registered) ∧
    ((s.AttachVmo c vmo alloc_ok).status = c.ZX_OK →
      ∃ id, (s.AttachVmo c vmo alloc_ok).out = some id ∧ id ≠ c.VMOID_INVALID ∧
        id ∉ s.registered ∧
        (s.AttachVmo c vmo alloc_ok).server.registered = id :: s.registered) := by
  obtain ⟨hst, hout⟩ := FindVmoIDLocked_spec c hc s h
  obtain ⟨ftree, _, _, _⟩ := FindVmoIDLocked_frame c s
  have hreg : (s.FindVmoIDLocked c).server.registered = s.registered := by
    unfold BlockServer.registered; rw [ftree]
  unfold BlockServer.AttachVmo
  dsimp only
  by_cases h1 : (s.FindVmoIDLocked c).status ≠ c.ZX_OK
  · rw [if_pos h1]
    have hnone : (s.FindVmoIDLocked c).out = none := by
      by_contra hne
      exact h1 (hst.2 hne)
    refine ⟨⟨?_, ?_, ?_⟩, ?_, ?_⟩
    · show (s.FindVmoIDLocked c).server.registered.Nodup
      rw [hreg]; exact h.nodup
    · revert hnone
      unfold BlockServer.FindVmoIDLocked
      split
      · intro h2; exact absurd h2 (by simp)
      · dsimp only
        split
        · intro h2; exact absurd h2 (by simp)
        · intro _; exact h.last_le
    · revert hnone
      unfold BlockServer.FindVmoIDLocked
      split
      · intro h2; exact absurd h2 (by simp)
      · dsimp only
        split
        · intro h2; exact absurd h2 (by simp)
        · intro _; exact h.invalid_lt
    · intro id hid
      show id ∈ (s.FindVmoIDLocked c).server.registered
      rw [hreg]; exact hid
    · intro h2
      exact absurd h2 h1
  · rw [if_neg h1]
    have hok : (s.FindVmoIDLocked c).status = c.ZX_OK := by
      by_contra hne; exact h1 hne
    have hsome := hst.1 hok
    obtain ⟨id, hid⟩ := Option.ne_none_iff_exists'.1 hsome
    obtain ⟨g1, g2, g3, g4⟩ := hout id hid
    rw [hid]
    dsimp only
    by_cases ha : alloc_ok = true
    · subst ha
      simp only [Bool.not_true, Bool.false_eq_true, if_false]
      refine ⟨⟨?_, g3, g4⟩, ?_, ?_⟩
      · show (id :: (s.FindVmoIDLocked c).server.registered).Nodup
        rw [hreg]
        exact List.nodup_cons.2 ⟨g2, h.nodup⟩
      · intro j hj
        show j ∈ id :: (s.FindVmoIDLocked c).server.registered
        rw [hreg]
        exact List.mem_cons_of_mem _ hj
      · intro _
        refine ⟨id, rfl, g1, g2, ?_⟩
        show id :: (s.FindVmoIDLocked c).server.registered = id :: s.registered
        rw [hreg]
    · have ha2 : alloc_ok = false := by simpa using ha
      subst ha2
      simp only [Bool.not_false, if_true]
      refine ⟨⟨?_, g3, g4⟩, ?_, ?_⟩
      · show (s.FindVmoIDLocked c).server.registered.Nodup
        rw [hreg]; exact h.nodup
      · intro j hj
        show j ∈ (s.FindVmoIDLocked c).server.registered
        rw [hreg]; exact hj
      · intro h2
        exact absurd h2 hc.no_memory_ne_ok

theorem AllocateTxn_frame (c : Consts) (s : BlockServer) (alloc_ok : Bool) :
    (s.AllocateTxn c alloc_ok).server.tree = s.tree ∧
    (s.AllocateTxn c alloc_ok).server.last_id = s.last_id ∧
    (s.AllocateTxn c alloc_ok).server.max_transfer_size = s.max_transfer_size := by
  unfold BlockServer.AllocateTxn
  split
  · exact ⟨rfl, rfl, rfl⟩
  · split_ifs <;> exact ⟨rfl, rfl, rfl⟩

theorem FreeTxn_frame (s : BlockServer) (txnid : Nat) :
    (s.FreeTxn txnid).tree = s.tree ∧ (s.FreeTxn txnid).last_id = s.last_id ∧
    (s.FreeTxn txnid).max_transfer_size = s.max_transfer_size ∧
    (s.FreeTxn txnid).heap = s.heap := by
  unfold BlockServer.FreeTxn
  split_ifs <;> exact ⟨rfl, rfl, rfl, rfl⟩

theorem RegistrySound_of_frame (c : Consts) (s u : BlockServer) (h : RegistrySound c s)
    (htree : u.tree = s.tree) (hlast : u.last_id = s.last_id) : RegistrySound c u := by
  refine ⟨?_, ?_, ?_⟩
  · unfold BlockServer.registered; rw [htree]; exact h.nodup
  · rw [hlast]; exact h.last_le
  · rw [hlast]; exact h.invalid_lt

/-- An operation removes a vmoid from the registry only if it is a
`BLOCKIO_CLOSE_VMO` request naming that vmoid. -/
theorem step_registry (c : Consts) (hc : c.WF) (s : BlockServer) (op : ServerOp)
    (h : RegistrySound c s) :
    RegistrySound c (s.step c op) ∧
    ∀ id ∈ s.registered, id ∉ (s.step c op).registered →
      ∃ r, op = ServerOp.Request r ∧ r.vmoid = id ∧
        r.opcode &&& c.BLOCKIO_OP_MASK = c.BLOCKIO_CLOSE_VMO := by
  cases op with
  | AttachVmo vmo alloc_ok =>
    obtain ⟨h1, h2, _⟩ := AttachVmo_spec c hc s vmo alloc_ok h
    exact ⟨h1, fun id hid hnot => absurd (h2 id hid) hnot⟩
  | AllocateTxn alloc_ok =>
    obtain ⟨f1, f2, _⟩ := AllocateTxn_frame c s alloc_ok
    refine ⟨RegistrySound_of_frame c s _ h f1 f2, ?_⟩
    intro id hid hnot
    exact absurd (by show id ∈ (s.AllocateTxn c alloc_ok).server.registered
                     unfold BlockServer.registered; rw [f1]; exact hid) hnot
  | FreeTxn txnid =>
    obtain ⟨f1, f2, _⟩ := FreeTxn_frame s txnid
    refine ⟨RegistrySound_of_frame c s _ h f1 f2, ?_⟩
    intro id hid hnot
    exact absurd (by show id ∈ (s.FreeTxn txnid).registered
                     unfold BlockServer.registered; rw [f1]; exact hid) hnot
  | Complete cookie status =>
    obtain ⟨f1, f2, _⟩ := blockserver_fifo_complete_frame c s cookie status
    refine ⟨RegistrySound_of_frame c s _ h f1 f2, ?_⟩
    intro id hid hnot
    exact absurd (by show id ∈ (s.blockserver_fifo_complete c cookie status).1.registered
                     unfold BlockServer.registered; rw [f1]; exact hid) hnot
  | Request r =>
    obtain ⟨f1, _, _, f4⟩ := ServeRequest_frame c s r
    rcases f4 with f4 | ⟨hclose, f4⟩
    · refine ⟨RegistrySound_of_frame c s _ h f4 f1, ?_⟩
      intro id hid hnot
      exact absurd (by show id ∈ (s.ServeRequest c r).1.registered
                       unfold BlockServer.registered; rw [f4]; exact hid) hnot
    · have hsub : ((s.ServeRequest c r).1.registered).Sublist s.registered := by
        unfold BlockServer.registered
        rw [f4]
        exact List.Sublist.map _ (List.eraseP_sublist _)
      refine ⟨⟨List.Nodup.sublist hsub h.nodup, ?_, ?_⟩, ?_⟩
      · show (s.ServeRequest c r).1.last_id ≤ _
        rw [f1]; exact h.last_le
      · show _ → _ < (s.ServeRequest c r).1.last_id
        rw [f1]; exact h.invalid_lt
      · intro id hid hnot
        refine ⟨r, rfl, ?_, hclose⟩
        by_contra hne
        apply hnot
        show id ∈ (s.ServeRequest c r).1.registered
        unfold BlockServer.registered at hid ⊢
        rw [f4]
        obtain ⟨b, hb, hbid⟩ := List.mem_map.1 hid
        refine List.mem_map.2 ⟨b, ?_, hbid⟩
        rw [List.mem_eraseP_of_neg]
        · exact hb
        · simp only [beq_iff_eq]
          intro heq
          exact hne (by rw [← heq, hbid])

theorem RegistrySound_new (c : Consts) (max_transfer_size : Nat) :
    RegistrySound c (BlockServer.new c max_transfer_size) := by
  refine ⟨List.nodup_nil, ?_, ?_⟩
  · show (c.VMOID_INVALID + 1) % (c.vmoid_max + 1) ≤ c.vmoid_max
    have : (c.VMOID_INVALID + 1) % (c.vmoid_max + 1) < c.vmoid_max + 1 :=
      Nat.mod_lt _ (Nat.succ_pos c.vmoid_max)
    omega
  · intro hlt
    show c.VMOID_INVALID < (c.VMOID_INVALID + 1) % (c.vmoid_max + 1)
    rw [Nat.mod_eq_of_lt (by omega)]
    omega

theorem RegistrySound_run (c : Consts) (hc : c.WF) (ops : List ServerOp) :
    ∀ s : BlockServer, RegistrySound c s → RegistrySound c (s.run c ops) := by
  induction ops with
  | nil => intro s h; exact h
  | cons op ops ih =>
    intro s h
    exact ih _ (step_registry c hc s op h).1

/-- C1: in every state reached from a freshly constructed server by any
sequence of operations (among them `AttachVmo` calls and `BLOCKIO_CLOSE_VMO`
requests), the registered vmoids are pairwise different; a successful
`AttachVmo` returns an id that differs from `VMOID_INVALID` and is not
registered at that moment, and registers it; and a registered id leaves the
registry only through a `BLOCKIO_CLOSE_VMO` request naming it, so an id is
handed out again only after such a request removed its previous owner. -/
theorem vmoid_unique (c : Consts) (hc : c.WF) (max_transfer_size : Nat)
    (ops : List ServerOp) :
    ((BlockServer.new c max_transfer_size).run c ops).registered.Nodup ∧
    (∀ (vmo : zx_vmo) (alloc_ok : Bool),
      (((BlockServer.new c max_transfer_size).run c ops).AttachVmo c vmo alloc_ok).status
          = c.ZX_OK →
      ∃ id,
        (((BlockServer.new c max_transfer_size).run c ops).AttachVmo c vmo alloc_ok).out
          = some id ∧
        id ≠ c.VMOID_INVALID ∧
        id ∉ ((BlockServer.new c max_transfer_size).run c ops).registered ∧
        (((BlockServer.new c max_transfer_size).run c ops).AttachVmo c vmo
            alloc_ok).server.registered =
          id :: ((BlockServer.new c max_transfer_size).run c ops).registered) ∧
    (∀ (op : ServerOp), ∀ id ∈ ((BlockServer.new c max_transfer_size).run c ops).registered,
      id ∉ (((BlockServer.new c max_transfer_size).run c ops).step c op).registered →
      ∃ r, op = ServerOp.Request r ∧ r.vmoid = id ∧
        r.opcode &&& c.BLOCKIO_OP_MASK = c.BLOCKIO_CLOSE_VMO) := by
  have h := RegistrySound_run c hc ops _ (RegistrySound_new c max_transfer_size)
  refine ⟨h.nodup, ?_, ?_⟩
  · intro vmo alloc_ok hok
    exact (AttachVmo_spec c hc _ vmo alloc_ok h).2.2 hok
  · intro op id hid hnot
    exact (step_registry c hc _ op h).2 id hid hnot

theorem completeChunks_extents (c : Consts) (msg : MsgPtr) (M : Nat) (hM : 0 < M) :
    ∀ (fuel : Nat) (t : BlockTransaction), t.max_xfer = M →
      ((t.msg msg.slot).len_remaining + M - 1) / M < fuel →
      (t.msg msg.slot).vmo_offset + (t.msg msg.slot).len_remaining ≤ 2 ^ 64 →
      (t.msg msg.slot).dev_offset + (t.msg msg.slot).len_remaining ≤ 2 ^ 64 →
      (submissionsOf (BlockTransaction.completeChunks c fuel t msg).out).map block_op.extent =
        chunkExtents M (t.msg msg.slot).len_remaining (t.msg msg.slot).vmo_offset
          (t.msg msg.slot).dev_offset := by
  intro fuel
  induction fuel with
  | zero => intro t _ h; exact absurd h (Nat.not_lt_zero _)
  | succ fuel ih =>
    intro t hmx hfuel hvo hdv
    by_cases hr : (t.msg msg.slot).len_remaining = 0
    · have hcnt : ¬ (c.ZX_OK = c.ZX_OK ∧ (t.msg msg.slot).len_remaining ≠ 0) := by
        rw [hr]; simp
      have hsub := Complete_counting_submits c t msg c.ZX_OK hcnt
      unfold BlockTransaction.completeChunks
      simp only [hsub, List.isEmpty_nil, if_true]
      rw [hr, chunkExtents_zero M _ _ hM]
      rfl
    · have hres := Complete_resubmit c t msg c.ZX_OK ⟨rfl, hr⟩
      have hmsg := Complete_resubmit_msg c t msg hr
      have hstep := ceil_div_step M (t.msg msg.slot).len_remaining hM hr
      have hmx2 : (t.Complete c msg c.ZX_OK).txn.max_xfer = M := by rw [hres]; exact hmx
      have hrem2 : ((t.Complete c msg c.ZX_OK).txn.msg msg.slot).len_remaining =
          (t.msg msg.slot).len_remaining - min (t.msg msg.slot).len_remaining M := by
        rw [hmsg, hmx]
      have hvo2 : ((t.Complete c msg c.ZX_OK).txn.msg msg.slot).vmo_offset =
          ((t.msg msg.slot).vmo_offset + min (t.msg msg.slot).len_remaining M) % 2 ^ 64 := by
        rw [hmsg, hmx]
      have hdv2 : ((t.Complete c msg c.ZX_OK).txn.msg msg.slot).dev_offset =
          ((t.msg msg.slot).dev_offset + min (t.msg msg.slot).len_remaining M) % 2 ^ 64 := by
        rw [hmsg, hmx]
      have hfuel2 : (((t.Complete c msg c.ZX_OK).txn.msg msg.slot).len_remaining + M - 1) / M
          < fuel := by
        rw [hrem2]; omega
      have hout : submissionsOf (t.Complete c msg c.ZX_OK).out = [t.nextChunk c msg] := by
        rw [hres]; exact submissionsOf_chunk c _ _
      have hmin : min (t.msg msg.slot).len_remaining M ≤ (t.msg msg.slot).len_remaining :=
        Nat.min_le_left _ _
      have hminpos : 0 < min (t.msg msg.slot).len_remaining M := by
        rw [Nat.lt_min]; exact ⟨Nat.pos_of_ne_zero hr, hM⟩
      have key : chunkExtents M ((t.Complete c msg c.ZX_OK).txn.msg msg.slot).len_remaining
            ((t.Complete c msg c.ZX_OK).txn.msg msg.slot).vmo_offset
            ((t.Complete c msg c.ZX_OK).txn.msg msg.slot).dev_offset =
          chunkExtents M ((t.msg msg.slot).len_remaining - min (t.msg msg.slot).len_remaining M)
            ((t.msg msg.slot).vmo_offset + min (t.msg msg.slot).len_remaining M)
            ((t.msg msg.slot).dev_offset + min (t.msg msg.slot).len_remaining M) := by
        rw [hrem2, hvo2, hdv2]
        by_cases hz : (t.msg msg.slot).len_remaining - min (t.msg msg.slot).len_remaining M = 0
        · rw [hz, chunkExtents_zero M _ _ hM, chunkExtents_zero M _ _ hM]
        · rw [Nat.mod_eq_of_lt (by omega), Nat.mod_eq_of_lt (by omega)]
      have hih := ih (t.Complete c msg c.ZX_OK).txn hmx2 hfuel2
        (by rw [hrem2, hvo2]
            have : ((t.msg msg.slot).vmo_offset + min (t.msg msg.slot).len_remaining M) % 2 ^ 64
                ≤ (t.msg msg.slot).vmo_offset + min (t.msg msg.slot).len_remaining M :=
              Nat.mod_le _ _
            have h64 : ((t.msg msg.slot).vmo_offset + min (t.msg msg.slot).len_remaining M)
                % 2 ^ 64 < 2 ^ 64 := Nat.mod_lt _ (by norm_num)
            omega)
        (by rw [hrem2, hdv2]
            have : ((t.msg msg.slot).dev_offset + min (t.msg msg.slot).len_remaining M) % 2 ^ 64
                ≤ (t.msg msg.slot).dev_offset + min (t.msg msg.slot).len_remaining M :=
              Nat.mod_le _ _
            have h64 : ((t.msg msg.slot).dev_offset + min (t.msg msg.slot).len_remaining M)
                % 2 ^ 64 < 2 ^ 64 := Nat.mod_lt _ (by norm_num)
            omega)
      unfold BlockTransaction.completeChunks
      simp only [hout, List.isEmpty_cons, Bool.false_eq_true, if_false]
      rw [submissionsOf_append, hout, List.singleton_append, List.map_cons, hih, key,
        chunkExtents_step M _ _ _ hM hr]
      congr 1
      simp only [block_op.extent, BlockTransaction.nextChunk, hmx]

theorem chunkExtents_sum (M : Nat) (hM : 0 < M) :
    ∀ (n L vo dv : Nat), L ≤ n →
      ((chunkExtents M L vo dv).map (fun e => e.1)).sum = L := by
  intro n
  induction n with
  | zero =>
    intro L vo dv hL
    have : L = 0 := by omega
    rw [this, chunkExtents_zero M _ _ hM]
    rfl
  | succ n ih =>
    intro L vo dv hL
    by_cases hz : L = 0
    · rw [hz, chunkExtents_zero M _ _ hM]
      rfl
    · rw [chunkExtents_step M L vo dv hM hz, List.map_cons, List.sum_cons]
      have hminpos : 0 < min L M := by
        rw [Nat.lt_min]; exact ⟨Nat.pos_of_ne_zero hz, hM⟩
      have hmin : min L M ≤ L := Nat.min_le_left _ _
      rw [ih (L - min L M) _ _ (by omega)]
      show min L M + (L - min L M) = L
      omega

theorem server_completeChunks_out (c : Consts) (cookie : MsgPtr) :
    ∀ (fuel : Nat) (s : BlockServer), cookie.txn < s.heap.length →
      ((s.obj cookie.txn).msg cookie.slot).txn = some cookie.txn →
      (BlockServer.completeChunks c fuel s cookie).2 =
        (BlockTransaction.completeChunks c fuel (s.obj cookie.txn) cookie).out := by
  intro fuel
  induction fuel with
  | zero => intro s _ _; rfl
  | succ fuel ih =>
    intro s hlt htxn
    have hcb : s.blockserver_fifo_complete c cookie c.ZX_OK =
        ({ s with heap :=
            (s.heap.set cookie.txn ((s.obj cookie.txn).Complete c cookie c.ZX_OK).txn) },
         ((s.obj cookie.txn).Complete c cookie c.ZX_OK).out) := by
      unfold BlockServer.blockserver_fifo_complete
      rw [if_pos htxn]
    unfold BlockServer.completeChunks BlockTransaction.completeChunks
    rw [hcb]
    dsimp only
    by_cases hempty : (submissionsOf ((s.obj cookie.txn).Complete c cookie c.ZX_OK).out).isEmpty
        = true
    · rw [if_pos hempty, if_pos hempty]
    · rw [if_neg hempty, if_neg hempty]
      have hrem : ((s.obj cookie.txn).msg cookie.slot).len_remaining ≠ 0 := by
        intro h0
        apply hempty
        rw [Complete_counting_submits c _ cookie c.ZX_OK (by rw [h0]; simp)]
        rfl
      have hobj : BlockServer.obj
          { s with heap :=
              (s.heap.set cookie.txn ((s.obj cookie.txn).Complete c cookie c.ZX_OK).txn) }
          cookie.txn = ((s.obj cookie.txn).Complete c cookie c.ZX_OK).txn := by
        unfold BlockServer.obj
        exact getD_set_self _ _ _ _ hlt
      have hih := ih { s with heap :=
          (s.heap.set cookie.txn ((s.obj cookie.txn).Complete c cookie c.ZX_OK).txn) }
        (by show cookie.txn < (s.heap.set _ _).length
            rw [List.length_set]; exact hlt)
        (by rw [hobj, Complete_resubmit_msg c _ cookie hrem]; exact htxn)
      rw [hih, hobj]

theorem TxnSound_Enqueue (c : Consts) (hc : c.WF) (M : Nat) (t : BlockTransaction) (d : Bool)
    (h : TxnSound c M t) : TxnSound c M (t.Enqueue c d).txn := by
  by_cases hf : t.flags &&& c.kTxnFlagRespond = 0
  · rw [Enqueue_free c t d hf]
    have hlt := h.open_lt hf
    have h32 := hc.msgs_lt
    refine ⟨h.max_xfer_eq, ?_, ?_⟩
    · show (t.msgs.set _ _).length = _
      rw [List.length_set]; exact h.msgs_length
    · show (t.flags ||| _) &&& c.kTxnFlagRespond = 0 → (t.goal + 1) % 2 ^ 32 < _
      intro hfl
      rw [Nat.mod_eq_of_lt (by omega)]
      by_cases hd : (if t.goal = c.MAX_TXN_MESSAGES - 1 then true else d) = true
      · rw [if_pos hd, lor_land_self] at hfl
        exact absurd hfl hc.respond_pos
      · have hne : ¬ t.goal = c.MAX_TXN_MESSAGES - 1 := by
          intro heq; rw [if_pos heq] at hd; exact hd rfl
        omega
  · rw [Enqueue_pending c t d hf]
    exact h

theorem TxnSound_Complete (c : Consts) (hc : c.WF) (M : Nat) (t : BlockTransaction)
    (msg : MsgPtr) (status : Int) (h : TxnSound c M t) :
    TxnSound c M (t.Complete c msg status).txn := by
  by_cases hc1 : status = c.ZX_OK ∧ (t.msg msg.slot).len_remaining ≠ 0
  · rw [Complete_resubmit c t msg status hc1]
    refine ⟨h.max_xfer_eq, ?_, h.open_lt⟩
    show (t.msgs.set _ _).length = _
    rw [List.length_set]; exact h.msgs_length
  · by_cases hr : t.flags &&& c.kTxnFlagRespond ≠ 0 ∧ (t.response.count + 1) % 2 ^ 32 = t.goal
    · rw [Complete_respond c t msg status hc1 hr]
      refine ⟨h.max_xfer_eq, ?_, fun _ => hc.msgs_pos⟩
      show (t.msgs.set _ _).length = _
      rw [List.length_set]; exact h.msgs_length
    · rw [Complete_quiet c t msg status hc1 hr]
      refine ⟨h.max_xfer_eq, ?_, h.open_lt⟩
      show (t.msgs.set _ _).length = _
      rw [List.length_set]; exact h.msgs_length

theorem TxnSound_msgs (c : Consts) (M : Nat) (t : BlockTransaction) (k : Nat) (m : block_msg_t)
    (h : TxnSound c M t) : TxnSound c M { t with msgs := t.msgs.set k m } := by
  refine ⟨h.max_xfer_eq, ?_, h.open_lt⟩
  show (t.msgs.set _ _).length = _
  rw [List.length_set]; exact h.msgs_length

theorem TxnSound_new (c : Consts) (hc : c.WF) (txnid M : Nat) :
    TxnSound c M (BlockTransaction.new c txnid M) :=
  ⟨rfl, by simp [BlockTransaction.new], fun _ => hc.msgs_pos⟩

theorem obj_mem (s : BlockServer) (ref : Nat) (h : ref < s.heap.length) :
    s.obj ref ∈ s.heap := by
  unfold BlockServer.obj
  rw [List.getD_eq_getElem _ _ h]
  exact List.getElem_mem h

theorem obj_set (s : BlockServer) (ref : Nat) (t : BlockTransaction)
    (h : ref < s.heap.length) :
    BlockServer.obj { s with heap := (s.heap.set ref t) } ref = t := by
  unfold BlockServer.obj
  exact getD_set_self _ _ _ _ h

theorem HeapSound_set (c : Consts) (s : BlockServer) (ref : Nat) (t : BlockTransaction)
    (h : HeapSound c s)
    (ht : ref < s.heap.length → TxnSound c s.max_transfer_size t) :
    HeapSound c { s with heap := (s.heap.set ref t) } := by
  refine ⟨?_, ?_⟩
  · intro r hr
    show r < (s.heap.set ref t).length
    rw [List.length_set]
    exact h.refs r hr
  · intro u hu
    have hu2 : u ∈ s.heap.set ref t := hu
    by_cases hlt : ref < s.heap.length
    · rcases List.mem_or_eq_of_mem_set hu2 with h1 | h1
      · exact h.objs u h1
      · rw [h1]; exact ht hlt
    · rw [List.set_eq_of_length_le (Nat.le_of_not_lt hlt)] at hu2
      exact h.objs u hu2

theorem HeapSound_blockserver_fifo_complete (c : Consts) (hc : c.WF) (s : BlockServer)
    (cookie : MsgPtr) (status : Int) (h : HeapSound c s) :
    HeapSound c (s.blockserver_fifo_complete c cookie status).1 := by
  unfold BlockServer.blockserver_fifo_complete
  split_ifs
  · exact HeapSound_set c s _ _ h
      (fun hlt => TxnSound_Complete c hc _ _ _ _ (h.objs _ (obj_mem s _ hlt)))
  · exact h

theorem HeapSound_ServeMessage (c : Consts) (hc : c.WF) (s : BlockServer)
    (r : block_fifo_request_t) (iobuf : IoBuffer) (ref : Nat) (t : BlockTransaction) (k : Nat)
    (h : HeapSound c s) (ht : ref < s.heap.length → TxnSound c s.max_transfer_size t) :
    HeapSound c (s.ServeMessage c r iobuf ref t k).1 := by
  unfold BlockServer.ServeMessage
  dsimp only
  split_ifs <;>
    first
    | exact HeapSound_blockserver_fifo_complete c hc _ _ _
        (HeapSound_set c s ref _ h (fun hlt => TxnSound_msgs c _ t k _ (ht hlt)))
    | exact HeapSound_set c s ref _ h (fun hlt => TxnSound_msgs c _ t k _ (ht hlt))

theorem HeapSound_ServeReadWrite (c : Consts) (hc : c.WF) (s : BlockServer)
    (r : block_fifo_request_t) (iobuf : IoBuffer) (ref : Nat) (h : HeapSound c s) :
    HeapSound c (s.ServeReadWrite c r iobuf ref).1 := by
  have he : ∀ d, ref < s.heap.length →
      TxnSound c s.max_transfer_size ((s.obj ref).Enqueue c d).txn :=
    fun d hlt => TxnSound_Enqueue c hc _ _ d (h.objs _ (obj_mem s _ hlt))
  unfold BlockServer.ServeReadWrite
  dsimp only
  split_ifs <;>
    first
    | exact h
    | exact HeapSound_set c s ref _ h (he _)
    | (split <;>
        first
        | exact HeapSound_set c s ref _ h (he _)
        | exact HeapSound_ServeMessage c hc s r iobuf ref _ _ h (he _))

theorem HeapSound_ServeRequest (c : Consts) (hc : c.WF) (s : BlockServer)
    (r : block_fifo_request_t) (h : HeapSound c s) : HeapSound c (s.ServeRequest c r).1 := by
  unfold BlockServer.ServeRequest
  dsimp only
  split
  · exact h
  · split
    · exact h
    · rename_i _ iobuf _ _ ref _
      have f := HeapSound_ServeReadWrite c hc s r iobuf ref h
      split_ifs <;>
        first
        | exact f
        | exact h
        | exact ⟨h.refs, h.objs⟩

theorem AttachVmo_frame (c : Consts) (s : BlockServer) (vmo : zx_vmo) (alloc_ok : Bool) :
    (s.AttachVmo c vmo alloc_ok).server.txns = s.txns ∧
    (s.AttachVmo c vmo alloc_ok).server.heap = s.heap ∧
    (s.AttachVmo c vmo alloc_ok).server.max_transfer_size = s.max_transfer_size := by
  obtain ⟨_, f2, f3, f4⟩ := FindVmoIDLocked_frame c s
  unfold BlockServer.AttachVmo
  dsimp only
  split_ifs <;>
    first
    | exact ⟨f2, f3, f4⟩
    | (split <;> exact ⟨f2, f3, f4⟩)

theorem HeapSound_AllocateTxn (c : Consts) (hc : c.WF) (s : BlockServer) (alloc_ok : Bool)
    (h : HeapSound c s) : HeapSound c (s.AllocateTxn c alloc_ok).server := by
  unfold BlockServer.AllocateTxn
  split
  · exact h
  · split_ifs
    · exact h
    · rename_i i _ _
      refine ⟨?_, ?_⟩
      · intro ref href
        have href2 : some ref ∈ s.txns.set i (some s.heap.length) := href
        show ref < (s.heap ++ [_]).length
        rw [List.length_append, List.length_singleton]
        rcases List.mem_or_eq_of_mem_set href2 with h1 | h1
        · have := h.refs ref h1
          omega
        · simp only [Option.some.injEq] at h1
          omega
      · intro t ht
        have ht2 : t ∈ s.heap ++ [BlockTransaction.new c i s.max_transfer_size] := ht
        rw [List.mem_append, List.mem_singleton] at ht2
        rcases ht2 with h1 | h1
        · exact h.objs t h1
        · rw [h1]; exact TxnSound_new c hc _ _

theorem HeapSound_FreeTxn (c : Consts) (s : BlockServer) (txnid : Nat) (h : HeapSound c s) :
    HeapSound c (s.FreeTxn txnid) := by
  unfold BlockServer.FreeTxn
  split_ifs
  · exact h
  · refine ⟨?_, h.objs⟩
    intro ref href
    have href2 : some ref ∈ s.txns.set txnid none := href
    rcases List.mem_or_eq_of_mem_set href2 with h1 | h1
    · exact h.refs ref h1
    · exact absurd h1 (by simp)

theorem HeapSound_step (c : Consts) (hc : c.WF) (s : BlockServer) (op : ServerOp)
    (h : HeapSound c s) : HeapSound c (s.step c op) := by
  cases op with
  | AttachVmo vmo alloc_ok =>
    obtain ⟨f1, f2, f3⟩ := AttachVmo_frame c s vmo alloc_ok
    refine ⟨?_, ?_⟩
    · intro ref href
      show ref < (s.AttachVmo c vmo alloc_ok).server.heap.length
      rw [f2]
      exact h.refs ref (by rw [← f1]; exact href)
    · intro t ht
      show TxnSound c (s.AttachVmo c vmo alloc_ok).server.max_transfer_size t
      rw [f3]
      exact h.objs t (by rw [← f2]; exact ht)
  | AllocateTxn alloc_ok => exact HeapSound_AllocateTxn c hc s alloc_ok h
  | FreeTxn txnid => exact HeapSound_FreeTxn c s txnid h
  | Request r => exact HeapSound_ServeRequest c hc s r h
  | Complete cookie status => exact HeapSound_blockserver_fifo_complete c hc s cookie status h

theorem HeapSound_run (c : Consts) (hc : c.WF) (ops : List ServerOp) :
    ∀ s : BlockServer, HeapSound c s → HeapSound c (s.run c ops) := by
  induction ops with
  | nil => intro s h; exact h
  | cons op ops ih =>
    intro s h
    exact ih _ (HeapSound_step c hc s op h)

theorem HeapSound_new (c : Consts) (max_transfer_size : Nat) :
    HeapSound c (BlockServer.new c max_transfer_size) := by
  refine ⟨?_, ?_⟩
  · intro ref href
    have : some ref ∈ List.replicate c.MAX_TXN_COUNT (none : Option Nat) := href
    rw [List.mem_replicate] at this
    exact absurd this.2 (by simp)
  · intro t ht
    exact absurd ht (List.not_mem_nil t)

theorem ValidateVmoHack_fits (c : Consts) (b : IoBuffer) (length vmo_offset : Nat)
    (hsize : b.io_vmo.get_size_status = c.ZX_OK) (hfit : vmo_offset + length ≤ b.io_vmo.size)
    (h64 : b.io_vmo.size < 2 ^ 64) : b.ValidateVmoHack c length vmo_offset = c.ZX_OK := by
  unfold IoBuffer.ValidateVmoHack
  rw [if_neg (by simp [hsize]), if_neg]
  rw [Nat.mod_eq_of_lt (by omega)]
  omega

theorem ServeMessage_split (c : Consts) (s : BlockServer) (r : block_fifo_request_t)
    (iobuf : IoBuffer) (ref : Nat) (t : BlockTransaction) (k : Nat)
    (hval : iobuf.ValidateVmoHack c r.length r.vmo_offset = c.ZX_OK)
    (hM : s.max_transfer_size ≠ 0) (hlt : s.max_transfer_size < r.length)
    (href : ref < s.heap.length) (hk : k < t.msgs.length) :
    (submissionsOf (s.ServeMessage c r iobuf ref t k).2).map
        (fun op => (op.extent, op.cookie)) =
      [((s.max_transfer_size, r.vmo_offset, r.dev_offset), { txn := ref, slot := k })] ∧
    responsesOf (s.ServeMessage c r iobuf ref t k).2 = [] ∧
    (s.ServeMessage c r iobuf ref t k).1.heap.length = s.heap.length ∧
    ((s.ServeMessage c r iobuf ref t k).1.obj ref).max_xfer = t.max_xfer ∧
    (((s.ServeMessage c r iobuf ref t k).1.obj ref).msg k).txn = some ref ∧
    (((s.ServeMessage c r iobuf ref t k).1.obj ref).msg k).len_remaining =
      (r.length % 2 ^ 32 + 2 ^ 32 - s.max_transfer_size % 2 ^ 32) % 2 ^ 32 ∧
    (((s.ServeMessage c r iobuf ref t k).1.obj ref).msg k).vmo_offset =
      (r.vmo_offset + s.max_transfer_size) % 2 ^ 64 ∧
    (((s.ServeMessage c r iobuf ref t k).1.obj ref).msg k).dev_offset =
      (r.dev_offset + s.max_transfer_size) % 2 ^ 64 := by
  have hsplit : (decide (s.max_transfer_size ≠ 0 ∧ s.max_transfer_size < r.length)) = true := by
    simp [hM, hlt]
  unfold BlockServer.ServeMessage
  dsimp only
  rw [if_neg (by simp [hval]), if_pos hsplit, if_pos hsplit, if_pos hsplit]
  dsimp only
  rw [obj_set _ _ _ href]
  refine ⟨?_, ?_, ?_, rfl, ?_, ?_, ?_, ?_⟩
  · split_ifs <;> rfl
  · split_ifs <;> rfl
  · rw [List.length_set]
  all_goals
    unfold BlockTransaction.msg
    dsimp only
    rw [getD_set_self _ _ _ _ hk]

theorem mem_of_getD_eq_some {α : Type} (l : List (Option α)) (i : Nat) (x : α)
    (h : l.getD i none = some x) : some x ∈ l := by
  by_cases hi : i < l.length
  · rw [List.getD_eq_getElem _ _ hi] at h
    rw [← h]
    exact List.getElem_mem hi
  · rw [List.getD_eq_default _ _ (Nat.le_of_not_lt hi)] at h
    exact absurd h (by simp)

theorem ServeRequest_accept (c : Consts) (s : BlockServer) (r : block_fifo_request_t)
    (iobuf : IoBuffer) (ref : Nat)
    (hfind : s.find r.vmoid = some iobuf) (htx : r.txnid < c.MAX_TXN_COUNT)
    (hslot : s.txns.getD r.txnid none = some ref)
    (hop : r.opcode &&& c.BLOCKIO_OP_MASK = c.BLOCKIO_READ ∨
      r.opcode &&& c.BLOCKIO_OP_MASK = c.BLOCKIO_WRITE)
    (hlen : r.length ≤ 2 ^ 32 - 1)
    (hfree : (s.obj ref).flags &&& c.kTxnFlagRespond = 0) :
    s.ServeRequest c r =
      s.ServeMessage c r iobuf ref
        ((s.obj ref).Enqueue c (decide (r.opcode &&& c.BLOCKIO_TXN_END ≠ 0))).txn
        (s.obj ref).goal := by
  unfold BlockServer.ServeRequest
  dsimp only
  rw [hfind]
  dsimp only
  rw [if_neg (by omega), hslot]
  dsimp only
  rw [if_pos hop]
  unfold BlockServer.ServeReadWrite
  dsimp only
  rw [if_neg (by omega)]
  rw [Enqueue_free c _ _ hfree]
  dsimp only
  rw [if_neg (by simp)]
  rfl

/-- C3 (amended): for a read or write request with valid handles on a
transaction with no reply pending, `0 < M < L <= 2^32 - 1`, the byte range
inside the buffer and the device range below 2^64, when every chunk completes
with `ZX_OK` the device receives exactly the `ceil(L / M)` chunks of `L`: the
`k`-th of length `min(M, L - k * M)` at buffer offset `vmo_offset + k * M` and
device offset `dev_offset + k * M`; their lengths sum to `L`. -/
theorem split_request_chunks (c : Consts) (hc : c.WF) (max_transfer_size : Nat)
    (ops : List ServerOp) (s : BlockServer)
    (hreach : s = (BlockServer.new c max_transfer_size).run c ops)
    (r : block_fifo_request_t) (iobuf : IoBuffer) (ref fuel : Nat)
    (hfind : s.find r.vmoid = some iobuf) (htx : r.txnid < c.MAX_TXN_COUNT)
    (hslot : s.txns.getD r.txnid none = some ref)
    (hop : r.opcode &&& c.BLOCKIO_OP_MASK = c.BLOCKIO_READ ∨
      r.opcode &&& c.BLOCKIO_OP_MASK = c.BLOCKIO_WRITE)
    (hM : 0 < s.max_transfer_size) (hlt : s.max_transfer_size < r.length)
    (hlen : r.length ≤ 2 ^ 32 - 1)
    (hsize : iobuf.io_vmo.get_size_status = c.ZX_OK)
    (hfit : r.vmo_offset + r.length ≤ iobuf.io_vmo.size) (h64 : iobuf.io_vmo.size < 2 ^ 64)
    (hdev : r.dev_offset + r.length ≤ 2 ^ 64)
    (hfree : (s.obj ref).flags &&& c.kTxnFlagRespond = 0)
    (hfuel : r.length ≤ fuel) :
    (submissionsOf ((s.ServeRequest c r).2 ++
        (BlockServer.completeChunks c fuel (s.ServeRequest c r).1
          { txn := ref, slot := (s.obj ref).goal }).2)).map block_op.extent =
      chunkExtents s.max_transfer_size r.length r.vmo_offset r.dev_offset ∧
    (chunkExtents s.max_transfer_size r.length r.vmo_offset r.dev_offset).length =
      (r.length + s.max_transfer_size - 1) / s.max_transfer_size ∧
    ((submissionsOf ((s.ServeRequest c r).2 ++
        (BlockServer.completeChunks c fuel (s.ServeRequest c r).1
          { txn := ref, slot := (s.obj ref).goal }).2)).map (fun op => op.length)).sum =
      r.length := by
  have hsound : HeapSound c s := by
    rw [hreach]
    exact HeapSound_run c hc ops _ (HeapSound_new c max_transfer_size)
  have href : ref < s.heap.length := hsound.refs ref (mem_of_getD_eq_some _ _ _ hslot)
  have ht := hsound.objs _ (obj_mem s ref href)
  have hgoal := ht.open_lt hfree
  have hacc := ServeRequest_accept c s r iobuf ref hfind htx hslot hop hlen hfree
  have he := TxnSound_Enqueue c hc _ _ (decide (r.opcode &&& c.BLOCKIO_TXN_END ≠ 0)) ht
  have hval := ValidateVmoHack_fits c iobuf r.length r.vmo_offset hsize hfit h64
  obtain ⟨g1, _, g3, g4, g5, g6, g7, g8⟩ := ServeMessage_split c s r iobuf ref
    ((s.obj ref).Enqueue c (decide (r.opcode &&& c.BLOCKIO_TXN_END ≠ 0))).txn (s.obj ref).goal
    hval (by omega) hlt href (by rw [he.msgs_length]; exact hgoal)
  rw [← hacc] at g1 g3 g4 g5 g6 g7 g8
  have hrem : (r.length % 2 ^ 32 + 2 ^ 32 - s.max_transfer_size % 2 ^ 32) % 2 ^ 32 =
      r.length - s.max_transfer_size := by omega
  have hvo : (r.vmo_offset + s.max_transfer_size) % 2 ^ 64 =
      r.vmo_offset + s.max_transfer_size := Nat.mod_eq_of_lt (by omega)
  have hdv : (r.dev_offset + s.max_transfer_size) % 2 ^ 64 =
      r.dev_offset + s.max_transfer_size := Nat.mod_eq_of_lt (by omega)
  rw [hrem] at g6
  rw [hvo] at g7
  rw [hdv] at g8
  rw [he.max_xfer_eq] at g4
  have hfirst : (submissionsOf (s.ServeRequest c r).2).map block_op.extent =
      [(s.max_transfer_size, r.vmo_offset, r.dev_offset)] := by
    have := congrArg (List.map Prod.fst) g1
    simpa [List.map_map, Function.comp] using this
  have hceil : ((r.length - s.max_transfer_size) + s.max_transfer_size - 1) /
      s.max_transfer_size < fuel := by
    have h1 : (r.length - s.max_transfer_size + s.max_transfer_size - 1) / s.max_transfer_size
        ≤ r.length - s.max_transfer_size + s.max_transfer_size - 1 := Nat.div_le_self _ _
    omega
  have hrest := server_completeChunks_out c { txn := ref, slot := (s.obj ref).goal } fuel
    (s.ServeRequest c r).1 (by rw [g3]; exact href) g5
  have hext := completeChunks_extents c { txn := ref, slot := (s.obj ref).goal }
    s.max_transfer_size hM fuel ((s.ServeRequest c r).1.obj ref) g4
    (by rw [g6]; exact hceil) (by rw [g6, g7]; omega) (by rw [g6, g8]; omega)
  rw [g6, g7, g8] at hext
  have hall : (submissionsOf ((s.ServeRequest c r).2 ++
      (BlockServer.completeChunks c fuel (s.ServeRequest c r).1
        { txn := ref, slot := (s.obj ref).goal }).2)).map block_op.extent =
      chunkExtents s.max_transfer_size r.length r.vmo_offset r.dev_offset := by
    rw [submissionsOf_append, List.map_append, hfirst, hrest, hext,
      chunkExtents_step s.max_transfer_size r.length _ _ hM (by omega),
      Nat.min_eq_right (Nat.le_of_lt hlt)]
    rfl
  refine ⟨hall, ?_, ?_⟩
  · simp [chunkExtents]
  · have hsum := chunkExtents_sum s.max_transfer_size hM r.length r.length r.vmo_offset
      r.dev_offset (Nat.le_refl _)
    rw [← hall, List.map_map] at hsum
    exact hsum

/-- Without wrap-around of the sum, `ValidateVmoHack` succeeds exactly when
the byte range lies inside the buffer. -/
theorem ValidateVmoHack_ok_iff (c : Consts) (hc : c.WF) (b : IoBuffer) (length vmo_offset : Nat)
    (hsize : b.io_vmo.get_size_status = c.ZX_OK) (hsum : length + vmo_offset < 2 ^ 64) :
    b.ValidateVmoHack c length vmo_offset = c.ZX_OK ↔ vmo_offset + length ≤ b.io_vmo.size := by
  unfold IoBuffer.ValidateVmoHack
  rw [if_neg (by simp [hsize]), Nat.mod_eq_of_lt hsum]
  split_ifs with h
  · constructor
    · intro h2; exact absurd h2 hc.invalid_args_ne_ok
    · intro h2; omega
  · constructor
    · intro _; omega
    · intro _; rfl

/-- Whenever `Read` returns a status other than `ZX_OK`, `Serve` returns 1,
the value of the comparison. -/
theorem Serve_read_failure (c : Consts) (s : BlockServer) (env env1 : List FifoRound)
    (status : Int) (requests : List block_fifo_request_t)
    (hread : BlockServer.Read c env = some (status, requests, env1))
    (hne : status ≠ c.ZX_OK) : BlockServer.Serve c s env = some (1, s, []) := by
  unfold BlockServer.Serve BlockServer.ServeLoop
  rw [hread]
  simp [hne]

theorem vmoid_unique_witness :
    zircon.WF ∧
    (((BlockServer.new zircon 1000).run zircon closeOps).AttachVmo zircon scenarioVmo
        true).status = zircon.ZX_OK ∧
    ((BlockServer.new zircon 1000).run zircon closeOps).registered.Nodup ∧
    (((BlockServer.new zircon 1000).run zircon closeOps).AttachVmo zircon scenarioVmo true).out
      ≠ some zircon.VMOID_INVALID := by
  refine ⟨zircon_WF, by decide, (vmoid_unique zircon zircon_WF 1000 closeOps).1, ?_⟩
  obtain ⟨id, h1, h2, _⟩ :=
    (vmoid_unique zircon zircon_WF 1000 closeOps).2.1 scenarioVmo true (by decide)
  rw [h1]
  intro h
  exact h2 (Option.some.inj h)

theorem one_response_per_finished_group_witness :
    zircon.WF ∧
    runCalls zircon (BlockTransaction.new zircon 7 0) Groups.empty twoGroups
      = some twoGroupsOutcome ∧
    (responsesOf twoGroupsOutcome.2.2).length = twoGroupsOutcome.2.1.finished ∧
    twoGroupsOutcome.2.1.finished = 2 :=
  ⟨zircon_WF, by decide,
   one_response_per_finished_group zircon zircon_WF 7 0 twoGroups twoGroupsOutcome (by decide),
   by decide⟩

/-- C3 as stated fails: on a server with maximum transfer size 1000, a write
of 2500 bytes with valid handles whose range fits the 4096-byte buffer is not
submitted at all when its transaction has a reply pending, while
`ceil(2500 / 1000) = 3`. -/
theorem split_request_dropped_when_reply_pending :
    pendingServer.find splitWrite.vmoid = some { io_vmo := scenarioVmo, vmoid := 1 } ∧
    splitWrite.txnid < zircon.MAX_TXN_COUNT ∧
    pendingServer.txns.getD splitWrite.txnid none = some 0 ∧
    splitWrite.opcode &&& zircon.BLOCKIO_OP_MASK = zircon.BLOCKIO_WRITE ∧
    0 < pendingServer.max_transfer_size ∧
    pendingServer.max_transfer_size < splitWrite.length ∧
    splitWrite.length ≤ 2 ^ 32 - 1 ∧
    splitWrite.vmo_offset + splitWrite.length ≤ scenarioVmo.size ∧
    submissionsOf (pendingServer.ServeRequest zircon splitWrite).2 = [] ∧
    responsesOf (pendingServer.ServeRequest zircon splitWrite).2 =
      [{ status := zircon.ZX_ERR_IO, txnid := 0, count := 0 }] ∧
    (submissionsOf (pendingServer.ServeRequest zircon splitWrite).2).length ≠
      (splitWrite.length + pendingServer.max_transfer_size - 1)
        / pendingServer.max_transfer_size := by
  decide

theorem split_request_chunks_witness :
    (limitedServer.find splitWrite.vmoid = some { io_vmo := scenarioVmo, vmoid := 1 } ∧
      limitedServer.txns.getD splitWrite.txnid none = some 0 ∧
      (limitedServer.obj 0).flags &&& zircon.kTxnFlagRespond = 0) ∧
    (submissionsOf ((limitedServer.ServeRequest zircon splitWrite).2 ++
        (BlockServer.completeChunks zircon 2500 (limitedServer.ServeRequest zircon splitWrite).1
          { txn := 0, slot := (limitedServer.obj 0).goal }).2)).map block_op.extent =
      chunkExtents 1000 2500 100 5 ∧
    chunkExtents 1000 2500 100 5 = [(1000, 100, 5), (1000, 1100, 1005), (500, 2100, 2005)] :=
  ⟨⟨by decide, by decide, by decide⟩,
   (split_request_chunks zircon zircon_WF 1000 setupOps limitedServer rfl splitWrite
      { io_vmo := scenarioVmo, vmoid := 1 } 0 2500 (by decide) (by decide) (by decide)
      (by decide) (by decide) (by decide) (by decide) (by decide) (by decide) (by decide)
      (by decide) (by decide) (by decide)).1,
   by decide⟩

/-- C5 fails on the code: for a 4096-byte buffer, offset 2^64 - 1 and length 2
the unbounded sum exceeds the buffer size, yet the 64-bit sum wraps to 1,
`ValidateVmoHack` returns `ZX_OK`, and the dispatch loop submits the write to
the device instead of completing the message with an error. -/
theorem ValidateVmoHack_wraps :
    scenarioVmo.size < wrappingWrite.vmo_offset + wrappingWrite.length ∧
    wrappingWrite.length ≤ 2 ^ 32 - 1 ∧
    scenarioServer.find wrappingWrite.vmoid = some { io_vmo := scenarioVmo, vmoid := 1 } ∧
    scenarioServer.txns.getD wrappingWrite.txnid none = some 0 ∧
    IoBuffer.ValidateVmoHack zircon { io_vmo := scenarioVmo, vmoid := 1 }
      wrappingWrite.length wrappingWrite.vmo_offset = zircon.ZX_OK ∧
    (submissionsOf (scenarioServer.ServeRequest zircon wrappingWrite).2).map block_op.extent =
      [(2, 2 ^ 64 - 1, 0)] ∧
    responsesOf (scenarioServer.ServeRequest zircon wrappingWrite).2 = [] := by
  decide

/-- C6 fails on the code: with the termination signal set on an empty FIFO,
`Read` returns `ZX_ERR_PEER_CLOSED`, but `Serve` returns 1, the value of the
comparison `Read(...) != ZX_OK` that the assignment stores in `status`. -/
theorem Serve_returns_comparison_value :
    (BlockServer.Read zircon [shutDownRound zircon]).map (fun x => x.1) =
      some zircon.ZX_ERR_PEER_CLOSED ∧
    (BlockServer.Serve zircon (BlockServer.new zircon 0) [shutDownRound zircon]).map
      (fun x => x.1) = some 1 ∧
    zircon.ZX_ERR_PEER_CLOSED ≠ 1 := by
  decide

theorem first_error_wins_witness :
    (BlockTransaction.allCounting zircon openTxn threeCompletions = true ∧
      responsesOf (BlockTransaction.completeAll zircon openTxn threeCompletions).out = []) ∧
    (BlockTransaction.completeAll zircon openTxn threeCompletions).txn.response.status = -5 :=
  ⟨⟨by decide, by decide⟩,
   ((first_error_wins zircon openTxn threeCompletions (by decide) (by decide)).1).trans
     (by decide)⟩

theorem aggregated_response_witness :
    zircon.WF ∧ pendingTxn.counting zircon { txn := 0, slot := 0 } 0 = true ∧
    responsesOf (pendingTxn.Complete zircon { txn := 0, slot := 0 } 0).out =
      [{ status := 0, txnid := 5, count := 1 }] :=
  ⟨zircon_WF, by decide,
   ((aggregated_response zircon zircon_WF).1 pendingTxn { txn := 0, slot := 0 } 0
      (by decide)).trans (by decide)⟩

theorem reply_resets_transaction_witness :
    zircon.WF ∧
    responsesOf
      ((applyCalls zircon (BlockTransaction.new zircon 5 1000)
        [TxnCall.Enqueue true default]).Complete zircon { txn := 0, slot := 0 } 0).out ≠ [] ∧
    ((applyCalls zircon (BlockTransaction.new zircon 5 1000)
        [TxnCall.Enqueue true default]).Complete zircon { txn := 0, slot := 0 }
          0).txn.accumulator = (BlockTransaction.new zircon 5 1000).accumulator :=
  ⟨zircon_WF, by decide,
   (reply_resets_transaction zircon zircon_WF 5 1000 [TxnCall.Enqueue true default]
      { txn := 0, slot := 0 } 0 (by decide)).1⟩

theorem Enqueue_status_witness :
    zircon.WF ∧ pendingTxn.flags &&& zircon.kTxnFlagRespond ≠ 0 ∧
    (pendingTxn.Enqueue zircon true).status = zircon.ZX_ERR_IO ∧
    (pendingTxn.Enqueue zircon true).out =
      [Effect.fifo_write { status := zircon.ZX_ERR_IO, txnid := 5, count := 0 }] :=
  ⟨zircon_WF, by decide,
   (Enqueue_status zircon zircon_WF pendingTxn true).1.2 (by decide),
   ((Enqueue_status zircon zircon_WF pendingTxn true).2.1 (by decide)).2.2⟩

theorem zircon_Shape : zircon.Shape := by
  constructor <;> decide

theorem TxnSound_applyCalls (c : Consts) (hc : c.WF) (M : Nat) (calls : List TxnCall) :
    ∀ t : BlockTransaction, TxnSound c M t → TxnSound c M (applyCalls c t calls) := by
  induction calls with
  | nil => intro t h; exact h
  | cons call calls ih =>
    intro t h
    cases call with
    | Enqueue d fill =>
      have h1 := TxnSound_Enqueue c hc M t d h
      simp only [applyCalls]
      split
      · exact ih _ h1
      · exact ih _ (TxnSound_msgs c M _ _ _ h1)
    | Complete msg status =>
      simp only [applyCalls]
      exact ih _ (TxnSound_Complete c hc M t msg status h)

theorem groupEnding_iff (c : Consts) (hc : c.WF) (t : BlockTransaction) (d : Bool) :
    (if t.goal = c.MAX_TXN_MESSAGES - 1 then true else d) = t.groupEnding c d := by
  have hpos := hc.msgs_pos
  unfold BlockTransaction.groupEnding
  by_cases hg : t.goal = c.MAX_TXN_MESSAGES - 1
  · have : t.goal + 1 = c.MAX_TXN_MESSAGES := by omega
    rw [if_pos hg, this]
    simp
  · have : ¬ t.goal + 1 = c.MAX_TXN_MESSAGES := by omega
    rw [if_neg hg]
    simp [this]

/-- The respond flag after a successful `Enqueue` is set exactly when the call
ends the group. -/
theorem Enqueue_free_flag (c : Consts) (hc : c.WF) (t : BlockTransaction) (d : Bool)
    (hf : t.flags &&& c.kTxnFlagRespond = 0) :
    ((t.Enqueue c d).txn.flags &&& c.kTxnFlagRespond ≠ 0 ↔ t.groupEnding c d = true) ∧
    (t.Enqueue c d).txn.goal = (t.goal + 1) % 2 ^ 32 := by
  rw [Enqueue_free c t d hf]
  refine ⟨?_, rfl⟩
  show (t.flags ||| _) &&& c.kTxnFlagRespond ≠ 0 ↔ _
  rw [groupEnding_iff c hc t d]
  by_cases hd : t.groupEnding c d = true
  · rw [if_pos hd, lor_land_self]
    exact ⟨fun _ => hd, fun _ => hc.respond_pos⟩
  · rw [if_neg hd, Nat.or_zero]
    exact ⟨fun hne => absurd hf hne, fun h2 => absurd h2 hd⟩

/-- C11 (amended): an `Enqueue` made when no reply is pending and the goal is
`MAX_TXN_MESSAGES - 1` sets the respond flag whatever `do_respond` is; the
goal becomes `MAX_TXN_MESSAGES`, no further message can be enqueued, and from
then on a counting `Complete` writes the aggregated reply exactly when the
count reaches `MAX_TXN_MESSAGES`.  With the goal below `MAX_TXN_MESSAGES - 1`
and no reply pending, the respond flag is set after the call exactly when
`do_respond` was true; in general, with the goal below `MAX_TXN_MESSAGES - 1`,
it is set after the call exactly when `do_respond` was true or a reply was
pending before the call (such a call fails and leaves the flag set). -/
theorem last_slot_forces_group_end (c : Consts) (hc : c.WF) (t : BlockTransaction)
    (do_respond : Bool) :
    (t.flags &&& c.kTxnFlagRespond = 0 → t.goal = c.MAX_TXN_MESSAGES - 1 →
      (t.Enqueue c do_respond).status = c.ZX_OK ∧
      (t.Enqueue c do_respond).txn.flags &&& c.kTxnFlagRespond ≠ 0 ∧
      (t.Enqueue c do_respond).txn.goal = c.MAX_TXN_MESSAGES ∧
      (∀ d2 : Bool, ((t.Enqueue c do_respond).txn.Enqueue c d2).status = c.ZX_ERR_IO) ∧
      (∀ (u : BlockTransaction) (msg : MsgPtr) (status : Int),
        u.flags = (t.Enqueue c do_respond).txn.flags →
        u.goal = (t.Enqueue c do_respond).txn.goal →
        u.counting c msg status = true →
        (responsesOf (u.Complete c msg status).out ≠ [] ↔
          (u.response.count + 1) % 2 ^ 32 = c.MAX_TXN_MESSAGES))) ∧
    (t.flags &&& c.kTxnFlagRespond = 0 → t.goal < c.MAX_TXN_MESSAGES - 1 →
      ((t.Enqueue c do_respond).txn.flags &&& c.kTxnFlagRespond ≠ 0 ↔ do_respond = true)) ∧
    (t.goal < c.MAX_TXN_MESSAGES - 1 →
      ((t.Enqueue c do_respond).txn.flags &&& c.kTxnFlagRespond ≠ 0 ↔
        (do_respond = true ∨ t.flags &&& c.kTxnFlagRespond ≠ 0))) := by
  have hpos := hc.msgs_pos
  have h32 := hc.msgs_lt
  have hlow : t.flags &&& c.kTxnFlagRespond = 0 → t.goal < c.MAX_TXN_MESSAGES - 1 →
      ((t.Enqueue c do_respond).txn.flags &&& c.kTxnFlagRespond ≠ 0 ↔ do_respond = true) := by
    intro hf hg
    rw [(Enqueue_free_flag c hc t do_respond hf).1]
    unfold BlockTransaction.groupEnding
    have : ¬ t.goal + 1 = c.MAX_TXN_MESSAGES := by omega
    simp [this]
  refine ⟨?_, hlow, ?_⟩
  · intro hf hg
    obtain ⟨h1, h2⟩ := Enqueue_free_flag c hc t do_respond hf
    have hend : t.groupEnding c do_respond = true := by
      unfold BlockTransaction.groupEnding
      have : t.goal + 1 = c.MAX_TXN_MESSAGES := by omega
      simp [this]
    have hflag := h1.2 hend
    have hgoal : (t.Enqueue c do_respond).txn.goal = c.MAX_TXN_MESSAGES := by
      rw [h2, Nat.mod_eq_of_lt (by omega)]; omega
    refine ⟨?_, hflag, hgoal, ?_, ?_⟩
    · rw [Enqueue_free c t do_respond hf]
    · intro d2
      rw [Enqueue_pending c _ d2 hflag]
    · intro u msg status hfl hgl hcnt
      rw [Complete_counting_responses c u msg status ((counting_iff c u msg status).1 hcnt),
        hfl, hgl, hgoal]
      constructor
      · intro hne
        by_contra hcond
        rw [if_neg (fun h => hcond h.2)] at hne
        exact hne rfl
      · intro hcond
        rw [if_pos ⟨hflag, hcond⟩]
        simp
  · intro hg
    by_cases hf : t.flags &&& c.kTxnFlagRespond = 0
    · rw [hlow hf hg]
      constructor
      · intro h; exact Or.inl h
      · intro h
        rcases h with h | h
        · exact h
        · exact absurd hf h
    · rw [Enqueue_pending c t do_respond hf]
      exact ⟨fun _ => Or.inr hf, fun _ => hf⟩

theorem last_slot_forces_group_end_witness :
    zircon.WF ∧
    (almostFullTxn.flags &&& zircon.kTxnFlagRespond = 0 ∧
      almostFullTxn.goal = zircon.MAX_TXN_MESSAGES - 1) ∧
    (almostFullTxn.Enqueue zircon false).txn.flags &&& zircon.kTxnFlagRespond ≠ 0 ∧
    (almostFullTxn.Enqueue zircon false).txn.goal = zircon.MAX_TXN_MESSAGES :=
  ⟨zircon_WF, ⟨by decide, by decide⟩,
   ((last_slot_forces_group_end zircon zircon_WF almostFullTxn false).1 (by decide)
      (by decide)).2.1,
   ((last_slot_forces_group_end zircon zircon_WF almostFullTxn false).1 (by decide)
      (by decide)).2.2.1⟩

/-- C11 as stated fails in its second part: on a transaction with one message
enqueued as the end of its group, so that a reply is pending, the goal is 1,
below `MAX_TXN_MESSAGES - 1`; an `Enqueue` with `do_respond` false fails with
`ZX_ERR_IO` and the respond flag is set after the call although `do_respond`
was false. -/
theorem respond_flag_stays_set_while_reply_pending :
    pendingTxn.goal = 1 ∧ pendingTxn.goal < zircon.MAX_TXN_MESSAGES - 1 ∧
    pendingTxn.flags &&& zircon.kTxnFlagRespond ≠ 0 ∧
    (pendingTxn.Enqueue zircon false).status = zircon.ZX_ERR_IO ∧
    (pendingTxn.Enqueue zircon false).txn.flags &&& zircon.kTxnFlagRespond ≠ 0 ∧
    ¬ ((pendingTxn.Enqueue zircon false).txn.flags &&& zircon.kTxnFlagRespond ≠ 0 ↔
        false = true) := by
  decide

theorem land_self_ne_zero (x : Nat) (h : x ≠ 0) : x &&& x ≠ 0 := by
  rw [Nat.and_self]; exact h

/-- The flags `Enqueue` stores on the message it hands out. -/
theorem Enqueue_free_msg_flags (c : Consts) (hc : c.WF) (t : BlockTransaction) (d : Bool)
    (hf : t.flags &&& c.kTxnFlagRespond = 0) (hk : t.goal < t.msgs.length) :
    ((t.Enqueue c d).txn.msg t.goal).flags =
      if t.goal = 0 then c.IOTXN_SYNC_BEFORE
      else if t.groupEnding c d = true then c.IOTXN_SYNC_AFTER else 0 := by
  rw [Enqueue_free c t d hf, groupEnding_iff c hc t d]
  show (List.getD (t.msgs.set t.goal _) t.goal default).flags = _
  rw [getD_set_self _ _ _ _ hk]

/-- C12 (amended): for every successful `Enqueue` on a transaction reached from
a fresh one, the flags stored on the handed-out message are `IOTXN_SYNC_BEFORE`
for the first message of a group, `IOTXN_SYNC_AFTER` for a later message when
the call ends the group, and 0 otherwise: they contain `IOTXN_SYNC_BEFORE` if
and only if the message is the first of its group, and `IOTXN_SYNC_AFTER` if
and only if the call ends the group and the message is not the first. -/
theorem sync_flags_of_enqueued_message (c : Consts) (hc : c.WF) (hs : c.Shape)
    (txnid max_xfer : Nat) (calls : List TxnCall) (t : BlockTransaction)
    (ht : t = applyCalls c (BlockTransaction.new c txnid max_xfer) calls)
    (do_respond : Bool) (hok : (t.Enqueue c do_respond).status = c.ZX_OK) :
    (t.Enqueue c do_respond).msg_out = some t.goal ∧
    ((t.Enqueue c do_respond).txn.msg t.goal).flags =
      (if t.goal = 0 then c.IOTXN_SYNC_BEFORE
       else if t.groupEnding c do_respond = true then c.IOTXN_SYNC_AFTER else 0) ∧
    (((t.Enqueue c do_respond).txn.msg t.goal).flags &&& c.IOTXN_SYNC_BEFORE ≠ 0 ↔
      t.goal = 0) ∧
    (((t.Enqueue c do_respond).txn.msg t.goal).flags &&& c.IOTXN_SYNC_AFTER ≠ 0 ↔
      (t.groupEnding c do_respond = true ∧ t.goal ≠ 0)) := by
  have hf := Enqueue_ok_free c hc t do_respond hok
  have hsound : TxnSound c max_xfer t := by
    rw [ht]
    exact TxnSound_applyCalls c hc max_xfer calls _ (TxnSound_new c hc txnid max_xfer)
  have hk : t.goal < t.msgs.length := by
    rw [hsound.msgs_length]; exact hsound.open_lt hf
  have hflags := Enqueue_free_msg_flags c hc t do_respond hf hk
  refine ⟨by rw [Enqueue_free c t do_respond hf], hflags, ?_, ?_⟩
  · rw [hflags]
    by_cases hg : t.goal = 0
    · rw [if_pos hg]
      exact ⟨fun _ => hg, fun _ => land_self_ne_zero _ hs.sync_before_pos⟩
    · rw [if_neg hg]
      by_cases he : t.groupEnding c do_respond = true
      · rw [if_pos he, Nat.and_comm, hs.sync_disjoint]
        exact ⟨fun h => absurd rfl h, fun h => absurd h hg⟩
      · rw [if_neg he, Nat.zero_and]
        exact ⟨fun h => absurd rfl h, fun h => absurd h hg⟩
  · rw [hflags]
    by_cases hg : t.goal = 0
    · rw [if_pos hg, hs.sync_disjoint]
      exact ⟨fun h => absurd rfl h, fun h => absurd hg h.2⟩
    · rw [if_neg hg]
      by_cases he : t.groupEnding c do_respond = true
      · rw [if_pos he]
        exact ⟨fun _ => ⟨he, hg⟩, fun _ => land_self_ne_zero _ hs.sync_after_pos⟩
      · rw [if_neg he, Nat.zero_and]
        exact ⟨fun h => absurd rfl h, fun h => absurd h.1 he⟩

theorem sync_flags_of_enqueued_message_witness :
    (zircon.WF ∧ zircon.Shape ∧ (almostFullTxn.Enqueue zircon false).status = zircon.ZX_OK) ∧
    ((almostFullTxn.Enqueue zircon false).txn.msg almostFullTxn.goal).flags =
      zircon.IOTXN_SYNC_AFTER :=
  ⟨⟨zircon_WF, zircon_Shape, by decide⟩,
   ((sync_flags_of_enqueued_message zircon zircon_WF zircon_Shape 5 0
      (List.replicate 15 (TxnCall.Enqueue false default)) almostFullTxn rfl false
      (by decide)).2.1).trans (by decide)⟩

/-- C12 as stated fails: the only message of a single-message group (first
`Enqueue` on a fresh transaction, with `do_respond` true) is the last of its
group, but the flags stored on it are `IOTXN_SYNC_BEFORE` alone and do not
contain `IOTXN_SYNC_AFTER`. -/
theorem single_message_group_lacks_sync_after :
    ((BlockTransaction.new zircon 5 0).Enqueue zircon true).status = zircon.ZX_OK ∧
    ((BlockTransaction.new zircon 5 0).Enqueue zircon true).msg_out = some 0 ∧
    (BlockTransaction.new zircon 5 0).groupEnding zircon true = true ∧
    (((BlockTransaction.new zircon 5 0).Enqueue zircon true).txn.msg 0).flags =
      zircon.IOTXN_SYNC_BEFORE ∧
    (((BlockTransaction.new zircon 5 0).Enqueue zircon true).txn.msg 0).flags
      &&& zircon.IOTXN_SYNC_AFTER = 0 := by
  decide

theorem ServeRequest_no_buffer (c : Consts) (s : BlockServer) (r : block_fifo_request_t)
    (h : s.find r.vmoid = none) :
    s.ServeRequest c r =
      (s, if r.opcode &&& c.BLOCKIO_TXN_END ≠ 0
          then OutOfBandErrorRespond c.ZX_ERR_IO r.txnid else []) := by
  unfold BlockServer.ServeRequest
  dsimp only
  rw [h]
  simp

theorem ServeRequest_no_txn (c : Consts) (s : BlockServer) (r : block_fifo_request_t)
    (iobuf : IoBuffer) (hfind : s.find r.vmoid = some iobuf)
    (h : r.txnid ≥ c.MAX_TXN_COUNT ∨ s.txns.getD r.txnid none = none) :
    s.ServeRequest c r =
      (s, if r.opcode &&& c.BLOCKIO_TXN_END ≠ 0
          then OutOfBandErrorRespond c.ZX_ERR_IO r.txnid else []) := by
  have hnone : (if r.txnid ≥ c.MAX_TXN_COUNT then none else s.txns.getD r.txnid none) = none := by
    rcases h with h | h
    · rw [if_pos h]
    · rw [h]; simp
  unfold BlockServer.ServeRequest
  dsimp only
  rw [hfind]
  dsimp only
  rw [hnone]
  simp

theorem FreeTxn_slot (s : BlockServer) (txnid : Nat) :
    (s.FreeTxn txnid).txns.getD txnid none = none := by
  unfold BlockServer.FreeTxn
  split_ifs with h
  · exact List.getD_eq_default _ _ h
  · exact getD_set_self _ _ _ _ (Nat.lt_of_not_le h)

/-- C13: a request, whatever its opcode, whose vmoid is not registered, or
whose txnid is `>= MAX_TXN_COUNT` or names an empty slot (such as one released
by `FreeTxn`), leaves the whole server state unchanged, submits nothing to the
device, and writes exactly the one response `{ZX_ERR_IO, txnid of the request,
0}` if `BLOCKIO_TXN_END` is set and no response otherwise. -/
theorem invalid_handles_rejected (c : Consts) (s : BlockServer) (r : block_fifo_request_t) :
    ((s.find r.vmoid = none ∨ r.txnid ≥ c.MAX_TXN_COUNT ∨ s.txns.getD r.txnid none = none) →
      (s.ServeRequest c r).1 = s ∧
      submissionsOf (s.ServeRequest c r).2 = [] ∧
      (s.ServeRequest c r).2 =
        if r.opcode &&& c.BLOCKIO_TXN_END ≠ 0 then
          [Effect.fifo_write { status := c.ZX_ERR_IO, txnid := r.txnid, count := 0 }]
        else []) ∧
    (∀ freed : Nat, (s.FreeTxn freed).txns.getD freed none = none ∧
      (s.FreeTxn freed).tree = s.tree) := by
  refine ⟨?_, fun freed => ⟨FreeTxn_slot s freed, (FreeTxn_frame s freed).1⟩⟩
  intro h
  have key : s.ServeRequest c r =
      (s, if r.opcode &&& c.BLOCKIO_TXN_END ≠ 0
          then OutOfBandErrorRespond c.ZX_ERR_IO r.txnid else []) := by
    cases hfind : s.find r.vmoid with
    | none => exact ServeRequest_no_buffer c s r hfind
    | some iobuf =>
      rcases h with h | h
      · rw [hfind] at h; exact absurd h (by simp)
      · exact ServeRequest_no_txn c s r iobuf hfind h
  rw [key]
  refine ⟨rfl, ?_, rfl⟩
  show submissionsOf (if _ then _ else _) = []
  split_ifs <;> rfl

theorem invalid_handles_rejected_witness :
    (scenarioServer.FreeTxn 0).txns.getD scenarioWrite.txnid none = none ∧
    ((scenarioServer.FreeTxn 0).ServeRequest zircon scenarioWrite).2 =
      [Effect.fifo_write { status := zircon.ZX_ERR_IO, txnid := 0, count := 0 }] :=
  ⟨FreeTxn_slot scenarioServer 0,
   (((invalid_handles_rejected zircon (scenarioServer.FreeTxn 0) scenarioWrite).1
      (Or.inr (Or.inr (FreeTxn_slot scenarioServer 0)))).2.2).trans (by decide)⟩

/-- C19: a read or write request with valid handles whose length exceeds
`2^32 - 1` leaves the whole server state unchanged (`Enqueue` is not called),
submits nothing to the device, and writes the out-of-band response
`{ZX_ERR_INVALID_ARGS, txnid of the request, 0}` if and only if
`BLOCKIO_TXN_END` is set. -/
theorem oversized_length_rejected (c : Consts) (s : BlockServer) (r : block_fifo_request_t)
    (iobuf : IoBuffer) (ref : Nat)
    (hfind : s.find r.vmoid = some iobuf) (htx : r.txnid < c.MAX_TXN_COUNT)
    (hslot : s.txns.getD r.txnid none = some ref)
    (hop : r.opcode &&& c.BLOCKIO_OP_MASK = c.BLOCKIO_READ ∨
      r.opcode &&& c.BLOCKIO_OP_MASK = c.BLOCKIO_WRITE)
    (hlen : r.length > 2 ^ 32 - 1) :
    (s.ServeRequest c r).1 = s ∧
    submissionsOf (s.ServeRequest c r).2 = [] ∧
    (s.ServeRequest c r).2 =
      if r.opcode &&& c.BLOCKIO_TXN_END ≠ 0 then
        [Effect.fifo_write { status := c.ZX_ERR_INVALID_ARGS, txnid := r.txnid, count := 0 }]
      else [] := by
  have key : s.ServeRequest c r =
      (s, if r.opcode &&& c.BLOCKIO_TXN_END ≠ 0
          then OutOfBandErrorRespond c.ZX_ERR_INVALID_ARGS r.txnid else []) := by
    unfold BlockServer.ServeRequest
    dsimp only
    rw [hfind]
    dsimp only
    rw [if_neg (by omega), hslot]
    dsimp only
    rw [if_pos hop]
    unfold BlockServer.ServeReadWrite
    dsimp only
    rw [if_pos hlen]
    simp
  rw [key]
  refine ⟨rfl, ?_, rfl⟩
  show submissionsOf (if _ then _ else _) = []
  split_ifs <;> rfl

theorem oversized_length_rejected_witness :
    (scenarioServer.find 1 = some { io_vmo := scenarioVmo, vmoid := 1 } ∧
      scenarioServer.txns.getD 0 none = some 0) ∧
    (scenarioServer.ServeRequest zircon { scenarioWrite with length := 2 ^ 32 }).2 =
      [Effect.fifo_write { status := zircon.ZX_ERR_INVALID_ARGS, txnid := 0, count := 0 }] :=
  ⟨⟨by decide, by decide⟩,
   ((oversized_length_rejected zircon scenarioServer { scenarioWrite with length := 2 ^ 32 }
      { io_vmo := scenarioVmo, vmoid := 1 } 0 (by decide) (by decide) (by decide)
      (by decide) (by decide)).2.2).trans (by decide)⟩

/-- C20 (amended): a `BLOCKIO_SYNC` request with a registered vmoid and an
allocated txnid, marked group-end-with-reply or not, writes no response at
all, changes no server state and submits nothing to the device; in particular
no success response is written for it. -/
theorem sync_request_ignored (c : Consts) (hs : c.Shape) (s : BlockServer)
    (r : block_fifo_request_t) (iobuf : IoBuffer) (ref : Nat)
    (hfind : s.find r.vmoid = some iobuf) (htx : r.txnid < c.MAX_TXN_COUNT)
    (hslot : s.txns.getD r.txnid none = some ref)
    (hop : r.opcode &&& c.BLOCKIO_OP_MASK = c.BLOCKIO_SYNC) :
    s.ServeRequest c r = (s, []) := by
  unfold BlockServer.ServeRequest
  dsimp only
  rw [hfind]
  dsimp only
  rw [if_neg (by omega), hslot]
  dsimp only
  rw [hop, if_neg (by
    intro h
    rcases h with h | h
    · exact hs.sync_ne_read h
    · exact hs.sync_ne_write h), if_pos rfl]

theorem sync_request_ignored_witness :
    (zircon.Shape ∧ scenarioServer.find syncRequest.vmoid
        = some { io_vmo := scenarioVmo, vmoid := 1 } ∧
      scenarioServer.txns.getD syncRequest.txnid none = some 0) ∧
    (scenarioServer.ServeRequest zircon syncRequest).2 = [] :=
  ⟨⟨zircon_Shape, by decide, by decide⟩,
   congrArg Prod.snd (sync_request_ignored zircon zircon_Shape scenarioServer syncRequest
      { io_vmo := scenarioVmo, vmoid := 1 } 0 (by decide) (by decide) (by decide)
      (by decide))⟩

/-- C20 as stated fails: a `BLOCKIO_SYNC` request with a registered vmoid and
an allocated txnid, marked group-end-with-reply, gets no response at all, so
no response with a non-success status is written for its txnid. -/
theorem sync_request_gets_no_response :
    scenarioServer.find syncRequest.vmoid = some { io_vmo := scenarioVmo, vmoid := 1 } ∧
    syncRequest.txnid < zircon.MAX_TXN_COUNT ∧
    scenarioServer.txns.getD syncRequest.txnid none = some 0 ∧
    syncRequest.opcode &&& zircon.BLOCKIO_OP_MASK = zircon.BLOCKIO_SYNC ∧
    syncRequest.opcode &&& zircon.BLOCKIO_TXN_END ≠ 0 ∧
    responsesOf (scenarioServer.ServeRequest zircon syncRequest).2 = [] := by
  decide

theorem firstNull_none_iff (l : List (Option Nat)) :
    ∀ b : Nat, firstNull l b = none ↔ ∀ x ∈ l, x ≠ none := by
  induction l with
  | nil => intro b; simp [firstNull]
  | cons x l ih =>
    intro b
    cases x with
    | none => simp [firstNull]
    | some v => simp [firstNull, ih]

theorem firstNull_some (l : List (Option Nat)) :
    ∀ b j : Nat, firstNull l b = some j →
      b ≤ j ∧ j - b < l.length ∧ l.getD (j - b) none = none ∧
      ∀ i, i < j - b → l.getD i none ≠ none := by
  induction l with
  | nil => intro b j h; simp [firstNull] at h
  | cons x l ih =>
    intro b j h
    cases x with
    | none =>
      simp only [firstNull, Option.some.injEq] at h
      subst h
      refine ⟨Nat.le_refl _, by simp, by simp, ?_⟩
      intro i hi
      omega
    | some v =>
      simp only [firstNull] at h
      obtain ⟨h1, h2, h3, h4⟩ := ih (b + 1) j h
      have hj : j - b = (j - (b + 1)) + 1 := by omega
      refine ⟨by omega, ?_, ?_, ?_⟩
      · rw [hj, List.length_cons]; omega
      · rw [hj]
        simpa using h3
      · intro i hi
        cases i with
        | zero => simp
        | succ i =>
          have := h4 i (by omega)
          simpa using this

theorem step_txns_length (c : Consts) (s : BlockServer) (op : ServerOp) :
    (s.step c op).txns.length = s.txns.length := by
  cases op with
  | AttachVmo vmo alloc_ok =>
    show (s.AttachVmo c vmo alloc_ok).server.txns.length = _
    rw [(AttachVmo_frame c s vmo alloc_ok).1]
  | AllocateTxn alloc_ok =>
    show (s.AllocateTxn c alloc_ok).server.txns.length = _
    unfold BlockServer.AllocateTxn
    split
    · rfl
    · split_ifs
      · rfl
      · exact List.length_set _ _ _
  | FreeTxn txnid =>
    show (s.FreeTxn txnid).txns.length = _
    unfold BlockServer.FreeTxn
    split_ifs
    · rfl
    · exact List.length_set _ _ _
  | Request r =>
    show (s.ServeRequest c r).1.txns.length = _
    rw [(ServeRequest_frame c s r).2.1]
  | Complete cookie status =>
    show (s.blockserver_fifo_complete c cookie status).1.txns.length = _
    rw [(blockserver_fifo_complete_frame c s cookie status).2.2.1]

theorem run_txns_length (c : Consts) (max_transfer_size : Nat) (ops : List ServerOp) :
    ((BlockServer.new c max_transfer_size).run c ops).txns.length = c.MAX_TXN_COUNT := by
  have key : ∀ (ops : List ServerOp) (s : BlockServer),
      (s.run c ops).txns.length = s.txns.length := by
    intro ops
    induction ops with
    | nil => intro s; rfl
    | cons op ops ih =>
      intro s
      show ((s.step c op).run c ops).txns.length = _
      rw [ih, step_txns_length]
  rw [key]
  simp [BlockServer.new]

theorem AllocateTxn_ok (c : Consts) (s : BlockServer) (i : Nat)
    (h : firstNull s.txns 0 = some i) :
    s.AllocateTxn c true =
      { status := c.ZX_OK, out := some i,
        server := { s with
          txns := s.txns.set i (some s.heap.length)
          heap := s.heap ++ [BlockTransaction.new c i s.max_transfer_size] } } := by
  unfold BlockServer.AllocateTxn
  rw [h]
  rfl

theorem run_append (c : Consts) (s : BlockServer) (ops : List ServerOp) (op : ServerOp) :
    s.run c (ops ++ [op]) = (s.run c ops).step c op := by
  unfold BlockServer.run
  rw [List.foldl_append]
  rfl

theorem all_occupied_iff (l : List (Option Nat)) :
    (∀ x ∈ l, x ≠ none) ↔ ∀ j, j < l.length → l.getD j none ≠ none := by
  constructor
  · intro h j hj
    rw [List.getD_eq_getElem _ _ hj]
    exact h _ (List.getElem_mem hj)
  · intro h x hx
    obtain ⟨j, hj, hjx⟩ := List.getElem_of_mem hx
    have := h j hj
    rw [List.getD_eq_getElem _ _ hj, hjx] at this
    exact this

theorem find_isSome_iff (s : BlockServer) (id : Nat) :
    (s.find id).isSome = true ↔ id ∈ s.registered := by
  have h := find_eq_none_iff s id
  cases hf : s.find id with
  | none =>
    rw [hf] at h
    simp only [Option.isSome_none, Bool.false_eq_true, false_iff]
    exact h.1 rfl
  | some b =>
    rw [hf] at h
    simp only [Option.isSome_some, true_iff]
    by_contra hn
    exact absurd (h.2 hn) (by simp)

theorem scan_least (s : BlockServer) (n : Nat) :
    ∀ i j : Nat, s.scan n i = some j → ∀ k, i ≤ k → k < j → k ∈ s.registered := by
  induction n with
  | zero => intro i j h; simp [BlockServer.scan] at h
  | succ n ih =>
    intro i j h k hik hkj
    simp only [BlockServer.scan] at h
    split_ifs at h with hreg
    · by_cases hki : k = i
      · rw [hki]; exact (find_isSome_iff s i).1 hreg
      · exact ih (i + 1) j h k (by omega) hkj
    · simp only [Option.some.injEq] at h
      omega

theorem scan_none (s : BlockServer) (n : Nat) :
    ∀ i : Nat, s.scan n i = none → ∀ k, i ≤ k → k < i + n → k ∈ s.registered := by
  induction n with
  | zero => intro i _ k h1 h2; omega
  | succ n ih =>
    intro i h k hik hkn
    simp only [BlockServer.scan] at h
    split_ifs at h with hreg
    by_cases hki : k = i
    · rw [hki]; exact (find_isSome_iff s i).1 hreg
    · exact ih (i + 1) h k (by omega) (by omega)

theorem scan_all_registered (s : BlockServer) (n : Nat) :
    ∀ i : Nat, (∀ k, i ≤ k → k < i + n → k ∈ s.registered) → s.scan n i = none := by
  induction n with
  | zero => intro i _; rfl
  | succ n ih =>
    intro i h
    simp only [BlockServer.scan]
    rw [if_pos ((find_isSome_iff s i).2 (h i (Nat.le_refl _) (by omega)))]
    exact ih (i + 1) (fun k h1 h2 => h k (by omega) (by omega))

theorem FindVmoIDLocked_first (c : Consts) (s : BlockServer) (i : Nat)
    (h : s.scan (c.vmoid_max - s.last_id) s.last_id = some i) :
    s.FindVmoIDLocked c =
      { status := c.ZX_OK, out := some i,
        server := { s with last_id := (i + 1) % (c.vmoid_max + 1) } } := by
  unfold BlockServer.FindVmoIDLocked
  rw [h]

theorem FindVmoIDLocked_second (c : Consts) (s : BlockServer) (i : Nat)
    (h1 : s.scan (c.vmoid_max - s.last_id) s.last_id = none)
    (h2 : s.scan (s.last_id - (c.VMOID_INVALID + 1) % (c.vmoid_max + 1))
      ((c.VMOID_INVALID + 1) % (c.vmoid_max + 1)) = some i) :
    s.FindVmoIDLocked c =
      { status := c.ZX_OK, out := some i,
        server := { s with last_id := (i + 1) % (c.vmoid_max + 1) } } := by
  unfold BlockServer.FindVmoIDLocked
  rw [h1]
  dsimp only
  rw [h2]

theorem FindVmoIDLocked_exhausted (c : Consts) (s : BlockServer)
    (h1 : s.scan (c.vmoid_max - s.last_id) s.last_id = none)
    (h2 : s.scan (s.last_id - (c.VMOID_INVALID + 1) % (c.vmoid_max + 1))
      ((c.VMOID_INVALID + 1) % (c.vmoid_max + 1)) = none) :
    s.FindVmoIDLocked c = { status := c.ZX_ERR_NO_RESOURCES, out := none, server := s } := by
  unfold BlockServer.FindVmoIDLocked
  rw [h1]
  dsimp only
  rw [h2]

/-- The exact result of `FindVmoIDLocked` on a sound registry, with
`VMOID_INVALID` below `max(vmoid_t)`. -/
theorem FindVmoIDLocked_exact (c : Consts) (hs : c.Shape) (s : BlockServer)
    (h : RegistrySound c s) :
    (∀ id, (s.FindVmoIDLocked c).out = some id →
      (s.FindVmoIDLocked c).status = c.ZX_OK ∧
      (s.FindVmoIDLocked c).server.last_id = id + 1 ∧
      id ∉ s.registered ∧
      ((∃ k, s.last_id ≤ k ∧ k < c.vmoid_max ∧ k ∉ s.registered) →
        s.last_id ≤ id ∧ id < c.vmoid_max ∧
        ∀ k, s.last_id ≤ k → k < id → k ∈ s.registered) ∧
      ((¬ ∃ k, s.last_id ≤ k ∧ k < c.vmoid_max ∧ k ∉ s.registered) →
        c.VMOID_INVALID < id ∧ id < s.last_id ∧
        ∀ k, c.VMOID_INVALID < k → k < id → k ∈ s.registered)) ∧
    ((s.FindVmoIDLocked c).out = none →
      s.FindVmoIDLocked c = { status := c.ZX_ERR_NO_RESOURCES, out := none, server := s } ∧
      ∀ k, c.VMOID_INVALID < k → k < c.vmoid_max → k ∈ s.registered) ∧
    ((∃ k, c.VMOID_INVALID < k ∧ k < c.vmoid_max ∧ k ∉ s.registered) →
      (s.FindVmoIDLocked c).out ≠ none) := by
  have hl := h.last_le
  have hi := h.invalid_lt hs.invalid_lt_max
  have hlt := hs.invalid_lt_max
  have hfirst : (c.VMOID_INVALID + 1) % (c.vmoid_max + 1) = c.VMOID_INVALID + 1 :=
    Nat.mod_eq_of_lt (by omega)
  have hmod : ∀ i, i < c.vmoid_max → (i + 1) % (c.vmoid_max + 1) = i + 1 :=
    fun i hi2 => Nat.mod_eq_of_lt (by omega)
  cases h1 : s.scan (c.vmoid_max - s.last_id) s.last_id with
  | some i =>
    obtain ⟨a1, a2, a3⟩ := scan_some s _ _ _ h1
    have a4 := scan_least s _ _ _ h1
    have hnot := (find_eq_none_iff s i).1 a3
    rw [FindVmoIDLocked_first c s i h1]
    refine ⟨?_, fun hn => absurd hn (by simp), fun _ => by simp⟩
    intro id hid
    simp only [Option.some.injEq] at hid
    subst hid
    refine ⟨rfl, hmod i (by omega), hnot, fun _ => ⟨a1, by omega, a4⟩, ?_⟩
    intro hne
    exact absurd ⟨i, a1, by omega, hnot⟩ hne
  | none =>
    have b1 := scan_none s _ _ h1
    have hall : ∀ k, s.last_id ≤ k → k < c.vmoid_max → k ∈ s.registered :=
      fun k hk1 hk2 => b1 k hk1 (by omega)
    cases h2 : s.scan (s.last_id - (c.VMOID_INVALID + 1) % (c.vmoid_max + 1))
        ((c.VMOID_INVALID + 1) % (c.vmoid_max + 1)) with
    | some i =>
      obtain ⟨a1, a2, a3⟩ := scan_some s _ _ _ h2
      have a4 := scan_least s _ _ _ h2
      rw [hfirst] at a1 a2 a4
      have hnot := (find_eq_none_iff s i).1 a3
      rw [FindVmoIDLocked_second c s i h1 h2]
      refine ⟨?_, fun hn => absurd hn (by simp), fun _ => by simp⟩
      intro id hid
      simp only [Option.some.injEq] at hid
      subst hid
      refine ⟨rfl, hmod i (by omega), hnot, ?_, fun _ => ⟨by omega, by omega, ?_⟩⟩
      · intro hex
        obtain ⟨k, k1, k2, k3⟩ := hex
        exact absurd (hall k k1 k2) k3
      · intro k k1 k2
        exact a4 k (by omega) k2
    | none =>
      have b2 := scan_none s _ _ h2
      rw [hfirst] at b2
      have hall2 : ∀ k, c.VMOID_INVALID < k → k < c.vmoid_max → k ∈ s.registered := by
        intro k k1 k2
        by_cases hk : s.last_id ≤ k
        · exact hall k hk k2
        · exact b2 k (by omega) (by omega)
      rw [FindVmoIDLocked_exhausted c s h1 h2]
      refine ⟨fun id hid => absurd hid (by simp), fun _ => ⟨rfl, hall2⟩, ?_⟩
      intro hex
      obtain ⟨k, k1, k2, k3⟩ := hex
      exact absurd (hall2 k k1 k2) k3

/-- C16: on a server reached from a fresh one (whose cursor starts at
`VMOID_INVALID + 1`), a successful `FindVmoIDLocked` returns the smallest
unregistered id `i` with `last_id_ <= i < max(vmoid_t)` if there is one, and
otherwise the smallest unregistered id `i` with `VMOID_INVALID < i < last_id_`;
in both cases it sets `last_id_` to `i + 1` and changes nothing else. -/
theorem FindVmoIDLocked_smallest_from_cursor (c : Consts) (hc : c.WF) (hs : c.Shape)
    (max_transfer_size : Nat) (ops : List ServerOp) (s : BlockServer)
    (hreach : s = (BlockServer.new c max_transfer_size).run c ops) (id : Nat)
    (hout : (s.FindVmoIDLocked c).out = some id) :
    (s.FindVmoIDLocked c).status = c.ZX_OK ∧
    (s.FindVmoIDLocked c).server = { s with last_id := id + 1 } ∧
    id ∉ s.registered ∧
    ((∃ k, s.last_id ≤ k ∧ k < c.vmoid_max ∧ k ∉ s.registered) →
      s.last_id ≤ id ∧ id < c.vmoid_max ∧
      ∀ k, s.last_id ≤ k → k < id → k ∈ s.registered) ∧
    ((¬ ∃ k, s.last_id ≤ k ∧ k < c.vmoid_max ∧ k ∉ s.registered) →
      c.VMOID_INVALID < id ∧ id < s.last_id ∧
      ∀ k, c.VMOID_INVALID < k → k < id → k ∈ s.registered) ∧
    (BlockServer.new c max_transfer_size).last_id = c.VMOID_INVALID + 1 := by
  have hsound : RegistrySound c s := by
    rw [hreach]
    exact RegistrySound_run c hc ops _ (RegistrySound_new c max_transfer_size)
  obtain ⟨g1, g2, g3, g4, g5⟩ := (FindVmoIDLocked_exact c hs s hsound).1 id hout
  obtain ⟨f1, f2, f3, f4⟩ := FindVmoIDLocked_frame c s
  refine ⟨g1, ?_, g3, g4, g5, ?_⟩
  · generalize s.FindVmoIDLocked c = r at g2 f1 f2 f3 f4
    obtain ⟨st, out, srv⟩ := r
    obtain ⟨m, tr, li, tx, hp⟩ := srv
    simp only at g2 f1 f2 f3 f4
    subst g2 f1 f2 f3 f4
    rfl
  · show (c.VMOID_INVALID + 1) % (c.vmoid_max + 1) = _
    exact Nat.mod_eq_of_lt (by have := hs.invalid_lt_max; omega)

theorem FindVmoIDLocked_smallest_from_cursor_witness :
    (zircon.WF ∧ zircon.Shape ∧ (scenarioServer.FindVmoIDLocked zircon).out = some 2) ∧
    (scenarioServer.FindVmoIDLocked zircon).status = zircon.ZX_OK ∧
    2 ∉ scenarioServer.registered :=
  ⟨⟨zircon_WF, zircon_Shape, by decide⟩,
   (FindVmoIDLocked_smallest_from_cursor zircon zircon_WF zircon_Shape 0
      [ServerOp.AttachVmo { handle := 1, get_size_status := 0, size := 4096 } true,
       ServerOp.AllocateTxn true] scenarioServer rfl 2 (by decide)).1,
   (FindVmoIDLocked_smallest_from_cursor zircon zircon_WF zircon_Shape 0
      [ServerOp.AttachVmo { handle := 1, get_size_status := 0, size := 4096 } true,
       ServerOp.AllocateTxn true] scenarioServer rfl 2 (by decide)).2.2.1⟩

theorem AttachVmo_of_found (c : Consts) (s : BlockServer) (vmo : zx_vmo) (alloc_ok : Bool)
    (id : Nat) (hst : (s.FindVmoIDLocked c).status = c.ZX_OK)
    (hout : (s.FindVmoIDLocked c).out = some id) :
    s.AttachVmo c vmo alloc_ok =
      if alloc_ok = true then
        { status := c.ZX_OK, out := some id,
          server := { (s.FindVmoIDLocked c).server with
            tree := { io_vmo := vmo, vmoid := id } :: (s.FindVmoIDLocked c).server.tree } }
      else
        { status := c.ZX_ERR_NO_MEMORY, out := none, server := (s.FindVmoIDLocked c).server } := by
  unfold BlockServer.AttachVmo
  dsimp only
  rw [if_neg (by simp [hst]), hout]
  cases alloc_ok <;> simp

theorem AttachVmo_of_exhausted (c : Consts) (hc : c.WF) (s : BlockServer) (vmo : zx_vmo)
    (alloc_ok : Bool)
    (h : s.FindVmoIDLocked c = { status := c.ZX_ERR_NO_RESOURCES, out := none, server := s }) :
    s.AttachVmo c vmo alloc_ok =
      { status := c.ZX_ERR_NO_RESOURCES, out := none, server := s } := by
  unfold BlockServer.AttachVmo
  dsimp only
  rw [h]
  dsimp only
  rw [if_pos hc.no_resources_ne_ok]

/-- The exhaustion condition of `AttachVmo` on a sound registry. -/
theorem AttachVmo_status (c : Consts) (hc : c.WF) (hs : c.Shape) (s : BlockServer)
    (vmo : zx_vmo) (h : RegistrySound c s) :
    (∀ alloc_ok : Bool,
      (s.AttachVmo c vmo alloc_ok).status = c.ZX_ERR_NO_RESOURCES ↔
        ∀ k, c.VMOID_INVALID < k → k < c.vmoid_max → k ∈ s.registered) ∧
    ((∃ k, c.VMOID_INVALID < k ∧ k < c.vmoid_max ∧ k ∉ s.registered) →
      (s.AttachVmo c vmo true).status = c.ZX_OK ∧ (s.AttachVmo c vmo true).out ≠ none) := by
  obtain ⟨e1, e2, e3⟩ := FindVmoIDLocked_exact c hs s h
  have hsome : ∀ id, (s.FindVmoIDLocked c).out = some id →
      c.VMOID_INVALID < id ∧ id < c.vmoid_max ∧ id ∉ s.registered := by
    intro id hid
    obtain ⟨_, _, g3, g4, g5⟩ := e1 id hid
    have hl := h.last_le
    have hi := h.invalid_lt hs.invalid_lt_max
    by_cases hex : ∃ k, s.last_id ≤ k ∧ k < c.vmoid_max ∧ k ∉ s.registered
    · obtain ⟨a, b, _⟩ := g4 hex
      exact ⟨by omega, b, g3⟩
    · obtain ⟨a, b, _⟩ := g5 hex
      exact ⟨a, by omega, g3⟩
  refine ⟨?_, ?_⟩
  · intro alloc_ok
    cases hf : (s.FindVmoIDLocked c).out with
    | none =>
      obtain ⟨f1, f2⟩ := e2 hf
      rw [AttachVmo_of_exhausted c hc s vmo alloc_ok f1]
      exact ⟨fun _ => f2, fun _ => rfl⟩
    | some id =>
      obtain ⟨g1, _⟩ := e1 id hf
      obtain ⟨k1, k2, k3⟩ := hsome id hf
      rw [AttachVmo_of_found c s vmo alloc_ok id g1 hf]
      constructor
      · intro hst
        cases alloc_ok with
        | true => exact absurd hst.symm hc.no_resources_ne_ok
        | false => exact absurd hst hs.no_memory_ne_no_resources
      · intro hall
        exact absurd (hall id k1 k2) k3
  · intro hex
    cases hf : (s.FindVmoIDLocked c).out with
    | none => exact absurd hf (e3 hex)
    | some id =>
      obtain ⟨g1, _⟩ := e1 id hf
      rw [AttachVmo_of_found c s vmo true id g1 hf]
      exact ⟨rfl, by simp⟩

/-- C15 (amended): on a server reached from a fresh one, `AttachVmo` returns
`ZX_ERR_NO_RESOURCES` if and only if every vmoid value strictly between
`VMOID_INVALID` and `max(vmoid_t)` is registered (the value `max(vmoid_t)`
itself is never issued); whenever at least one value in that range is
unregistered, `AttachVmo` without allocation failure succeeds. -/
theorem AttachVmo_fails_only_when_range_used (c : Consts) (hc : c.WF) (hs : c.Shape)
    (max_transfer_size : Nat) (ops : List ServerOp) (s : BlockServer)
    (hreach : s = (BlockServer.new c max_transfer_size).run c ops) (vmo : zx_vmo) :
    (∀ alloc_ok : Bool,
      (s.AttachVmo c vmo alloc_ok).status = c.ZX_ERR_NO_RESOURCES ↔
        ∀ k, c.VMOID_INVALID < k → k < c.vmoid_max → k ∈ s.registered) ∧
    ((∃ k, c.VMOID_INVALID < k ∧ k < c.vmoid_max ∧ k ∉ s.registered) →
      (s.AttachVmo c vmo true).status = c.ZX_OK ∧ (s.AttachVmo c vmo true).out ≠ none) ∧
    c.vmoid_max ∉ s.registered := by
  have hsound : RegistrySound c s := by
    rw [hreach]
    exact RegistrySound_run c hc ops _ (RegistrySound_new c max_transfer_size)
  obtain ⟨h1, h2⟩ := AttachVmo_status c hc hs s vmo hsound
  refine ⟨h1, h2, ?_⟩
  rw [hreach]
  have key : ∀ (ops : List ServerOp) (u : BlockServer), RegistrySound c u →
      c.vmoid_max ∉ u.registered → c.vmoid_max ∉ (u.run c ops).registered := by
    intro ops
    induction ops with
    | nil => intro u _ hu; exact hu
    | cons op ops ih =>
      intro u hu hnot
      refine ih (u.step c op) (step_registry c hc u op hu).1 ?_
      cases op with
      | AttachVmo vmo2 alloc_ok =>
        show c.vmoid_max ∉ (u.AttachVmo c vmo2 alloc_ok).server.registered
        obtain ⟨e1, e2, _⟩ := FindVmoIDLocked_exact c hs u hu
        obtain ⟨ftree, _, _, _⟩ := FindVmoIDLocked_frame c u
        have hreg : (u.FindVmoIDLocked c).server.registered = u.registered := by
          unfold BlockServer.registered; rw [ftree]
        cases hf : (u.FindVmoIDLocked c).out with
        | none =>
          rw [AttachVmo_of_exhausted c hc u vmo2 alloc_ok (e2 hf).1]
          exact hnot
        | some id =>
          obtain ⟨g1, _, _, g4, g5⟩ := e1 id hf
          have hidlt : id < c.vmoid_max := by
            have hl := hu.last_le
            by_cases hex : ∃ k, u.last_id ≤ k ∧ k < c.vmoid_max ∧ k ∉ u.registered
            · exact (g4 hex).2.1
            · have := (g5 hex).2.1
              omega
          rw [AttachVmo_of_found c u vmo2 alloc_ok id g1 hf]
          cases alloc_ok with
          | true =>
            show c.vmoid_max ∉ id :: (u.FindVmoIDLocked c).server.registered
            rw [hreg, List.mem_cons]
            intro hmem
            rcases hmem with hmem | hmem
            · omega
            · exact hnot hmem
          | false =>
            show c.vmoid_max ∉ (u.FindVmoIDLocked c).server.registered
            rw [hreg]; exact hnot
      | AllocateTxn alloc_ok =>
        show c.vmoid_max ∉ (u.AllocateTxn c alloc_ok).server.registered
        unfold BlockServer.registered
        rw [(AllocateTxn_frame c u alloc_ok).1]
        exact hnot
      | FreeTxn txnid =>
        show c.vmoid_max ∉ (u.FreeTxn txnid).registered
        unfold BlockServer.registered
        rw [(FreeTxn_frame u txnid).1]
        exact hnot
      | Complete cookie status =>
        show c.vmoid_max ∉ (u.blockserver_fifo_complete c cookie status).1.registered
        unfold BlockServer.registered
        rw [(blockserver_fifo_complete_frame c u cookie status).1]
        exact hnot
      | Request r =>
        intro hmem
        have hsub : ((u.ServeRequest c r).1.registered).Sublist u.registered := by
          rcases (ServeRequest_frame c u r).2.2.2 with f4 | ⟨_, f4⟩
          · unfold BlockServer.registered; rw [f4]
          · unfold BlockServer.registered
            rw [f4]
            exact List.Sublist.map _ (List.eraseP_sublist _)
        exact hnot (hsub.subset hmem)
  exact key ops _ (RegistrySound_new c max_transfer_size) (by simp [BlockServer.new, BlockServer.registered])

theorem AttachVmo_fails_only_when_range_used_witness :
    (zircon.WF ∧ zircon.Shape) ∧
    (zircon.VMOID_INVALID < 2 ∧ 2 < zircon.vmoid_max ∧ 2 ∉ scenarioServer.registered) ∧
    (scenarioServer.AttachVmo zircon scenarioVmo true).status = zircon.ZX_OK :=
  ⟨⟨zircon_WF, zircon_Shape⟩, ⟨by decide, by decide, by decide⟩,
   ((AttachVmo_fails_only_when_range_used zircon zircon_WF zircon_Shape 0
      [ServerOp.AttachVmo { handle := 1, get_size_status := 0, size := 4096 } true,
       ServerOp.AllocateTxn true] scenarioServer rfl scenarioVmo).2.1
      ⟨2, by decide, by decide, by decide⟩).1⟩

/-- While the cursor is below `max(vmoid_t)` and not registered, `AttachVmo`
issues the cursor itself and advances it by one. -/
theorem AttachVmo_at_cursor (c : Consts) (s : BlockServer) (vmo : zx_vmo)
    (hlt : s.last_id < c.vmoid_max) (hfree : s.last_id ∉ s.registered) :
    s.AttachVmo c vmo true =
      { status := c.ZX_OK, out := some s.last_id,
        server := { s with
          last_id := s.last_id + 1
          tree := { io_vmo := vmo, vmoid := s.last_id } :: s.tree } } := by
  have hscan : s.scan (c.vmoid_max - s.last_id) s.last_id = some s.last_id := by
    have hn : c.vmoid_max - s.last_id = (c.vmoid_max - s.last_id - 1) + 1 := by omega
    rw [hn]
    simp only [BlockServer.scan]
    rw [if_neg]
    intro h
    exact hfree ((find_isSome_iff s s.last_id).1 h)
  have hfind := FindVmoIDLocked_first c s s.last_id hscan
  rw [AttachVmo_of_found c s vmo true s.last_id (by rw [hfind]) (by rw [hfind]), hfind]
  simp only [if_true]
  rw [Nat.mod_eq_of_lt (by omega)]

/-- The registry after `k` attachments on a fresh server, as long as the
cursor has not reached `max(vmoid_t)`: the cursor is `VMOID_INVALID + 1 + k`
and exactly the ids between `VMOID_INVALID` and the cursor are registered. -/
theorem attachments_registry (c : Consts) (hs : c.Shape) (max_transfer_size : Nat)
    (vmo : zx_vmo) :
    ∀ k : Nat, c.VMOID_INVALID + 1 + k ≤ c.vmoid_max →
      ((BlockServer.new c max_transfer_size).run c
          (List.replicate k (ServerOp.AttachVmo vmo true))).last_id
        = c.VMOID_INVALID + 1 + k ∧
      ∀ j, j ∈ ((BlockServer.new c max_transfer_size).run c
          (List.replicate k (ServerOp.AttachVmo vmo true))).registered ↔
        (c.VMOID_INVALID < j ∧ j < c.VMOID_INVALID + 1 + k) := by
  intro k
  induction k with
  | zero =>
    intro _
    refine ⟨?_, ?_⟩
    · show (c.VMOID_INVALID + 1) % (c.vmoid_max + 1) = _
      exact Nat.mod_eq_of_lt (by have := hs.invalid_lt_max; omega)
    · intro j
      show j ∈ ([] : List Nat) ↔ _
      simp only [List.not_mem_nil, false_iff]
      omega
  | succ k ih =>
    intro hk
    obtain ⟨h1, h2⟩ := ih (by omega)
    rw [List.replicate_succ', run_append]
    show ((BlockServer.AttachVmo c _ vmo true).server).last_id = _ ∧
      ∀ j, j ∈ ((BlockServer.AttachVmo c _ vmo true).server).registered ↔ _
    have hfree : ((BlockServer.new c max_transfer_size).run c
        (List.replicate k (ServerOp.AttachVmo vmo true))).last_id ∉
        ((BlockServer.new c max_transfer_size).run c
          (List.replicate k (ServerOp.AttachVmo vmo true))).registered := by
      rw [h2, h1]
      omega
    rw [AttachVmo_at_cursor c _ vmo (by rw [h1]; omega) hfree]
    dsimp only
    refine ⟨by rw [h1]; omega, ?_⟩
    intro j
    show j ∈ _ :: BlockServer.registered _ ↔ _
    rw [List.mem_cons, h2]
    dsimp only
    rw [h1]
    omega

/-- C15 as stated fails: after 65534 attachments on a fresh server every vmoid
from 1 to 65534 is registered and `AttachVmo` returns `ZX_ERR_NO_RESOURCES`,
although the value 65535, which differs from `VMOID_INVALID`, is not
registered. -/
theorem AttachVmo_fails_with_max_vmoid_free :
    (fullServer.AttachVmo zircon scenarioVmo true).status = zircon.ZX_ERR_NO_RESOURCES ∧
    (65535 : Nat) ≠ zircon.VMOID_INVALID ∧
    (65535 : Nat) ∉ fullServer.registered := by
  have hI : zircon.VMOID_INVALID = 0 := rfl
  have hM : zircon.vmoid_max = 65535 := rfl
  obtain ⟨_, h2⟩ := attachments_registry zircon zircon_Shape 0 scenarioVmo 65534
    (by rw [hI, hM])
  have hsound : RegistrySound zircon fullServer :=
    RegistrySound_run zircon zircon_WF fillOps _ (RegistrySound_new zircon 0)
  have hmem : ∀ j, j ∈ fullServer.registered ↔
      (zircon.VMOID_INVALID < j ∧ j < zircon.VMOID_INVALID + 1 + 65534) := h2
  refine ⟨?_, by rw [hI]; omega, ?_⟩
  · rw [(AttachVmo_status zircon zircon_WF zircon_Shape fullServer scenarioVmo hsound).1 true]
    intro k k1 k2
    rw [hmem]
    rw [hM] at k2
    rw [hI] at k1 ⊢
    omega
  · rw [hmem, hI]
    omega

/-- C23: a request with a registered vmoid and an allocated txnid whose opcode,
masked with `BLOCKIO_OP_MASK`, is none of read, write, sync and close-buffer
takes the default case of the switch: the server is unchanged (registry, table
and every transaction) and no effect is produced, so no response is written,
whether or not `BLOCKIO_TXN_END` is set, and nothing is submitted. -/
theorem unknown_opcode_ignored (c : Consts) (s : BlockServer) (r : block_fifo_request_t)
    (iobuf : IoBuffer) (ref : Nat)
    (hfind : s.find r.vmoid = some iobuf) (htx : r.txnid < c.MAX_TXN_COUNT)
    (hslot : s.txns.getD r.txnid none = some ref)
    (hread : r.opcode &&& c.BLOCKIO_OP_MASK ≠ c.BLOCKIO_READ)
    (hwrite : r.opcode &&& c.BLOCKIO_OP_MASK ≠ c.BLOCKIO_WRITE)
    (hsync : r.opcode &&& c.BLOCKIO_OP_MASK ≠ c.BLOCKIO_SYNC)
    (hclose : r.opcode &&& c.BLOCKIO_OP_MASK ≠ c.BLOCKIO_CLOSE_VMO) :
    (s.ServeRequest c r).1 = s ∧ (s.ServeRequest c r).2 = [] ∧
    responsesOf (s.ServeRequest c r).2 = [] ∧ submissionsOf (s.ServeRequest c r).2 = [] := by
  have h : s.ServeRequest c r = (s, []) := by
    unfold BlockServer.ServeRequest
    dsimp only
    rw [hfind]
    dsimp only
    rw [if_neg (by omega), hslot]
    dsimp only
    rw [if_neg (by
      intro h
      rcases h with h | h
      · exact hread h
      · exact hwrite h), if_neg hsync, if_neg hclose]
  rw [h]
  exact ⟨rfl, rfl, rfl, rfl⟩

theorem unknown_opcode_ignored_witness :
    (scenarioServer.find unknownRequest.vmoid = some { io_vmo := scenarioVmo, vmoid := 1 } ∧
      scenarioServer.txns.getD unknownRequest.txnid none = some 0 ∧
      unknownRequest.opcode &&& zircon.BLOCKIO_OP_MASK = 7 ∧
      unknownRequest.opcode &&& zircon.BLOCKIO_TXN_END ≠ 0) ∧
    (scenarioServer.ServeRequest zircon unknownRequest).2 = [] :=
  ⟨⟨by decide, by decide, by decide, by decide⟩,
   (unknown_opcode_ignored zircon scenarioServer unknownRequest
      { io_vmo := scenarioVmo, vmoid := 1 } 0 (by decide) (by decide) (by decide)
      (by decide) (by decide) (by decide) (by decide)).2.1⟩

theorem Complete_counting_refs (c : Consts) (t : BlockTransaction) (msg : MsgPtr) (status : Int)
    (hk : msg.slot < t.msgs.length)
    (h : ¬ (status = c.ZX_OK ∧ (t.msg msg.slot).len_remaining ≠ 0)) :
    ((t.Complete c msg status).txn.msg msg.slot).txn = none ∧
    ((t.Complete c msg status).txn.msg msg.slot).iobuf = none := by
  by_cases hr : t.flags &&& c.kTxnFlagRespond ≠ 0 ∧ (t.response.count + 1) % 2 ^ 32 = t.goal
  · rw [Complete_respond c t msg status h hr]
    unfold BlockTransaction.msg
    dsimp only
    rw [getD_set_self _ _ _ _ hk]
    exact ⟨rfl, rfl⟩
  · rw [Complete_quiet c t msg status h hr]
    unfold BlockTransaction.msg
    dsimp only
    rw [getD_set_self _ _ _ _ hk]
    exact ⟨rfl, rfl⟩

theorem Complete_resubmit_refs (c : Consts) (t : BlockTransaction) (msg : MsgPtr) (status : Int)
    (h : status = c.ZX_OK ∧ (t.msg msg.slot).len_remaining ≠ 0) :
    (submissionsOf (t.Complete c msg status).out).length = 1 ∧
    responsesOf (t.Complete c msg status).out = [] ∧
    ((t.Complete c msg status).txn.msg msg.slot).txn = (t.msg msg.slot).txn ∧
    ((t.Complete c msg status).txn.msg msg.slot).iobuf = (t.msg msg.slot).iobuf := by
  have hk := slot_lt_of_remaining t msg.slot h.2
  rw [Complete_resubmit c t msg status h]
  refine ⟨?_, ?_, ?_, ?_⟩
  · dsimp only
    rw [submissionsOf_chunk]
    rfl
  · dsimp only
    rw [responsesOf_chunk]
  · unfold BlockTransaction.msg
    dsimp only
    rw [getD_set_self _ _ _ _ hk]
  · unfold BlockTransaction.msg
    dsimp only
    rw [getD_set_self _ _ _ _ hk]

theorem blockserver_fifo_complete_obj (c : Consts) (s : BlockServer) (cookie : MsgPtr)
    (status : Int) (href : cookie.txn < s.heap.length)
    (hset : ((s.obj cookie.txn).msg cookie.slot).txn = some cookie.txn) :
    (s.blockserver_fifo_complete c cookie status).1.obj cookie.txn =
      ((s.obj cookie.txn).Complete c cookie status).txn ∧
    (s.blockserver_fifo_complete c cookie status).2 =
      ((s.obj cookie.txn).Complete c cookie status).out := by
  unfold BlockServer.blockserver_fifo_complete
  rw [if_pos hset]
  dsimp only
  rw [obj_set _ _ _ href]
  exact ⟨rfl, rfl⟩

/-- C24: a counting `Complete` (any call with a status other than `ZX_OK`, or
with `len_remaining == 0`) leaves the transaction reference and the buffer
reference of the message null, whatever the status and whether or not a
response is written; a `Complete` that re-submits a chunk submits exactly one
chunk, writes no response and leaves both references as they were, so both
stay set.  The same holds of the message after the completion callback
`blockserver_fifo_complete`, which runs `Complete` on the transaction the
message refers to. -/
theorem Complete_releases_references (c : Consts) (t : BlockTransaction) (msg : MsgPtr)
    (status : Int) (hk : msg.slot < t.msgs.length) :
    (status ≠ c.ZX_OK ∨ (t.msg msg.slot).len_remaining = 0 ↔ t.counting c msg status = true) ∧
    (t.counting c msg status = true →
      ((t.Complete c msg status).txn.msg msg.slot).txn = none ∧
      ((t.Complete c msg status).txn.msg msg.slot).iobuf = none) ∧
    (t.counting c msg status = false →
      (submissionsOf (t.Complete c msg status).out).length = 1 ∧
      responsesOf (t.Complete c msg status).out = [] ∧
      ((t.Complete c msg status).txn.msg msg.slot).txn = (t.msg msg.slot).txn ∧
      ((t.Complete c msg status).txn.msg msg.slot).iobuf = (t.msg msg.slot).iobuf) ∧
    (∀ s : BlockServer, msg.txn < s.heap.length → s.obj msg.txn = t →
      (t.msg msg.slot).txn = some msg.txn →
      (t.counting c msg status = true →
        (((s.blockserver_fifo_complete c msg status).1.obj msg.txn).msg msg.slot).txn = none ∧
        (((s.blockserver_fifo_complete c msg status).1.obj msg.txn).msg msg.slot).iobuf
          = none) ∧
      (t.counting c msg status = false →
        (((s.blockserver_fifo_complete c msg status).1.obj msg.txn).msg msg.slot).txn
          = some msg.txn ∧
        (((s.blockserver_fifo_complete c msg status).1.obj msg.txn).msg msg.slot).iobuf
          = (t.msg msg.slot).iobuf)) := by
  have hiff := counting_iff c t msg status
  have hcount : t.counting c msg status = true →
      ((t.Complete c msg status).txn.msg msg.slot).txn = none ∧
      ((t.Complete c msg status).txn.msg msg.slot).iobuf = none :=
    fun h => Complete_counting_refs c t msg status hk (hiff.1 h)
  have hre : t.counting c msg status = false →
      (submissionsOf (t.Complete c msg status).out).length = 1 ∧
      responsesOf (t.Complete c msg status).out = [] ∧
      ((t.Complete c msg status).txn.msg msg.slot).txn = (t.msg msg.slot).txn ∧
      ((t.Complete c msg status).txn.msg msg.slot).iobuf = (t.msg msg.slot).iobuf := by
    intro h
    have h2 : status = c.ZX_OK ∧ (t.msg msg.slot).len_remaining ≠ 0 := by
      by_contra hn
      rw [hiff.2 hn] at h
      exact Bool.noConfusion h
    exact Complete_resubmit_refs c t msg status h2
  refine ⟨?_, hcount, hre, ?_⟩
  · rw [hiff]
    constructor
    · intro h h2
      rcases h with h | h
      · exact h h2.1
      · exact h2.2 h
    · intro h
      by_cases h1 : status = c.ZX_OK
      · right
        by_contra h2
        exact h ⟨h1, h2⟩
      · exact Or.inl h1
  · intro s href hobj hset
    rw [← hobj] at hset
    have hcb := (blockserver_fifo_complete_obj c s msg status href hset).1
    rw [hcb, hobj]
    refine ⟨hcount, ?_⟩
    intro h
    obtain ⟨_, _, h3, h4⟩ := hre h
    rw [hobj] at hset
    rw [h3, h4]
    exact ⟨hset, rfl⟩

theorem Complete_releases_references_witness :
    ((0 : Nat) < (splitServer.obj 0).msgs.length ∧
      ((splitServer.obj 0).msg 0).txn = some 0 ∧
      ((splitServer.obj 0).msg 0).iobuf = some { io_vmo := scenarioVmo, vmoid := 1 } ∧
      ((splitServer.obj 0).msg 0).len_remaining = 1500 ∧
      (splitServer.obj 0).counting zircon { txn := 0, slot := 0 } (-5) = true) ∧
    ((((splitServer.obj 0).Complete zircon { txn := 0, slot := 0 } (-5)).txn.msg 0).txn = none ∧
      (((splitServer.obj 0).Complete zircon { txn := 0, slot := 0 } (-5)).txn.msg 0).iobuf
        = none) :=
  ⟨⟨by decide, by decide, by decide, by decide, by decide⟩,
   (Complete_releases_references zircon (splitServer.obj 0) { txn := 0, slot := 0 } (-5)
      (by decide)).2.1 (by decide)⟩

theorem firstNull_of_empty (l : List (Option Nat)) (k : Nat) (hk : k < l.length)
    (hnone : l.getD k none = none) :
    ∃ i, firstNull l 0 = some i ∧ i ≤ k ∧ l.getD i none = none ∧
      ∀ j, j < i → l.getD j none ≠ none := by
  cases hf : firstNull l 0 with
  | none =>
    exfalso
    exact ((all_occupied_iff l).1 ((firstNull_none_iff l 0).1 hf)) k hk hnone
  | some i =>
    obtain ⟨_, _, h3, h4⟩ := firstNull_some l 0 i hf
    rw [Nat.sub_zero] at h3 h4
    refine ⟨i, rfl, ?_, h3, h4⟩
    by_contra hlt
    exact h4 k (by omega) hnone

/-- C25: on a server reached from a fresh one, `FreeTxn(t)` with
`t < MAX_TXN_COUNT` empties slot `t` and leaves every other slot of the table,
the buffer registry, the cursor and the transaction objects unchanged; a
following `AllocateTxn` succeeds with an index that is at most `t`, and returns
`t` itself when every slot below `t` is occupied.  `FreeTxn(t)` with
`t >= MAX_TXN_COUNT` changes nothing. -/
theorem FreeTxn_empties_slot (c : Consts) (max_transfer_size : Nat) (ops : List ServerOp)
    (s : BlockServer) (hreach : s = (BlockServer.new c max_transfer_size).run c ops)
    (txnid : Nat) :
    (txnid < c.MAX_TXN_COUNT →
      (s.FreeTxn txnid).txns.getD txnid none = none ∧
      (∀ j, j ≠ txnid → (s.FreeTxn txnid).txns.getD j none = s.txns.getD j none) ∧
      (s.FreeTxn txnid).tree = s.tree ∧ (s.FreeTxn txnid).last_id = s.last_id ∧
      (s.FreeTxn txnid).heap = s.heap ∧
      (∃ i, ((s.FreeTxn txnid).AllocateTxn c true).out = some i ∧ i ≤ txnid ∧
        ((s.FreeTxn txnid).AllocateTxn c true).status = c.ZX_OK) ∧
      ((∀ j, j < txnid → s.txns.getD j none ≠ none) →
        ((s.FreeTxn txnid).AllocateTxn c true).out = some txnid)) ∧
    (txnid ≥ c.MAX_TXN_COUNT → s.FreeTxn txnid = s) := by
  have hlen : s.txns.length = c.MAX_TXN_COUNT := by
    rw [hreach]; exact run_txns_length c max_transfer_size ops
  have hfr := FreeTxn_frame s txnid
  refine ⟨?_, ?_⟩
  · intro hlt
    have hother : ∀ j, j ≠ txnid →
        (s.FreeTxn txnid).txns.getD j none = s.txns.getD j none := by
      intro j hj
      unfold BlockServer.FreeTxn
      rw [if_neg (by omega)]
      exact getD_set_ne _ _ _ _ _ (Ne.symm hj)
    have hlen2 : (s.FreeTxn txnid).txns.length = c.MAX_TXN_COUNT := by
      unfold BlockServer.FreeTxn
      rw [if_neg (by omega)]
      dsimp only
      rw [List.length_set, hlen]
    obtain ⟨i, hi, hle, _, hbelow⟩ := firstNull_of_empty (s.FreeTxn txnid).txns txnid
      (by rw [hlen2]; exact hlt) (FreeTxn_slot s txnid)
    have halloc := AllocateTxn_ok c (s.FreeTxn txnid) i hi
    refine ⟨FreeTxn_slot s txnid, hother, hfr.1, hfr.2.1, hfr.2.2.2, ⟨i, ?_, hle, ?_⟩, ?_⟩
    · rw [halloc]
    · rw [halloc]
    · intro hocc
      rw [halloc]
      dsimp only
      congr 1
      by_contra hne
      have hlt2 : i < txnid := by omega
      have h1 := hother i (by omega)
      have h2 : (s.FreeTxn txnid).txns.getD i none = none := by
        obtain ⟨_, _, h3, _⟩ := firstNull_some _ 0 i hi
        rw [Nat.sub_zero] at h3
        exact h3
      rw [h1] at h2
      exact hocc i hlt2 h2
  · intro hge
    unfold BlockServer.FreeTxn
    rw [if_pos (by omega)]

theorem FreeTxn_empties_slot_witness :
    ((0 : Nat) < zircon.MAX_TXN_COUNT ∧ scenarioServer.txns.getD 0 none = some 0 ∧
      (∀ j, j < 0 → scenarioServer.txns.getD j none ≠ none)) ∧
    (scenarioServer.FreeTxn 0).txns.getD 0 none = none ∧
    ((scenarioServer.FreeTxn 0).AllocateTxn zircon true).out = some 0 :=
  ⟨⟨by decide, by decide, fun j hj => absurd hj (Nat.not_lt_zero j)⟩,
   ((FreeTxn_empties_slot zircon 0 setupOps scenarioServer rfl 0).1 (by decide)).1,
   ((FreeTxn_empties_slot zircon 0 setupOps scenarioServer rfl 0).1 (by decide)).2.2.2.2.2.2
     (fun j hj => absurd hj (Nat.not_lt_zero j))⟩

theorem AttachVmo_tree (c : Consts) (s : BlockServer) (vmo : zx_vmo) (alloc_ok : Bool) :
    (s.AttachVmo c vmo alloc_ok).server.tree =
      match (s.AttachVmo c vmo alloc_ok).out with
      | some id => { io_vmo := vmo, vmoid := id } :: s.tree
      | none => s.tree := by
  have hf := (FindVmoIDLocked_frame c s).1
  unfold BlockServer.AttachVmo
  dsimp only
  by_cases h1 : (s.FindVmoIDLocked c).status ≠ c.ZX_OK
  · rw [if_pos h1]
    exact hf
  · rw [if_neg h1]
    cases hout : (s.FindVmoIDLocked c).out with
    | none => exact hf
    | some id =>
      dsimp only
      cases alloc_ok with
      | false => exact hf
      | true =>
        show { io_vmo := vmo, vmoid := id } :: (s.FindVmoIDLocked c).server.tree = _
        rw [hf]
        rfl

theorem step_registered_sub (c : Consts) (s : BlockServer) (op : ServerOp) (id : Nat)
    (h : id ∈ (s.step c op).registered) : id ∈ s.registered ∨ op.issues c s = some id := by
  cases op with
  | AttachVmo vmo alloc_ok =>
    have ht := AttachVmo_tree c s vmo alloc_ok
    have h2 : id ∈ (s.AttachVmo c vmo alloc_ok).server.tree.map IoBuffer.vmoid := h
    rw [ht] at h2
    show _ ∨ (s.AttachVmo c vmo alloc_ok).out = some id
    cases hout : (s.AttachVmo c vmo alloc_ok).out with
    | none =>
      rw [hout] at h2
      exact Or.inl h2
    | some j =>
      rw [hout] at h2
      dsimp only at h2
      rw [List.map_cons, List.mem_cons] at h2
      rcases h2 with h2 | h2
      · right
        rw [h2]
      · exact Or.inl h2
  | AllocateTxn alloc_ok =>
    left
    have f1 := (AllocateTxn_frame c s alloc_ok).1
    have h2 : id ∈ (s.AllocateTxn c alloc_ok).server.tree.map IoBuffer.vmoid := h
    rw [f1] at h2
    exact h2
  | FreeTxn txnid =>
    left
    have f1 := (FreeTxn_frame s txnid).1
    have h2 : id ∈ (s.FreeTxn txnid).tree.map IoBuffer.vmoid := h
    rw [f1] at h2
    exact h2
  | Complete cookie status =>
    left
    have f1 := (blockserver_fifo_complete_frame c s cookie status).1
    have h2 : id ∈ (s.blockserver_fifo_complete c cookie status).1.tree.map IoBuffer.vmoid := h
    rw [f1] at h2
    exact h2
  | Request r =>
    left
    have h2 : id ∈ (s.ServeRequest c r).1.tree.map IoBuffer.vmoid := h
    rcases (ServeRequest_frame c s r).2.2.2 with f4 | ⟨_, f4⟩
    · rw [f4] at h2
      exact h2
    · rw [f4] at h2
      exact (List.Sublist.map _ (List.eraseP_sublist _)).subset h2

theorem run_not_issued (c : Consts) (v : Nat) :
    ∀ (later : List ServerOp) (s : BlockServer), s.find v = none →
      v ∉ BlockServer.issued c s later → (s.run c later).find v = none := by
  intro later
  induction later with
  | nil => intro s h _; exact h
  | cons op rest ih =>
    intro s h hnot
    unfold BlockServer.issued at hnot
    rw [List.mem_append, not_or] at hnot
    have hstep : (s.step c op).find v = none := by
      rw [find_eq_none_iff] at h ⊢
      intro hmem
      rcases step_registered_sub c s op v hmem with h1 | h1
      · exact h h1
      · apply hnot.1
        rw [h1]
        exact List.mem_singleton.2 rfl
    exact ih (s.step c op) hstep hnot.2

theorem registered_eraseP (l : List IoBuffer) (v : Nat) (hnd : (l.map IoBuffer.vmoid).Nodup) :
    ∀ id, id ∈ (l.eraseP (fun b => b.vmoid == v)).map IoBuffer.vmoid ↔
      (id ∈ l.map IoBuffer.vmoid ∧ id ≠ v) := by
  induction l with
  | nil => intro id; simp
  | cons b l ih =>
    intro id
    rw [List.map_cons, List.nodup_cons] at hnd
    by_cases hb : b.vmoid = v
    · rw [List.eraseP_cons_of_pos (by simpa using hb), List.map_cons, List.mem_cons]
      constructor
      · intro h
        refine ⟨Or.inr h, ?_⟩
        intro heq
        rw [heq, ← hb] at h
        exact hnd.1 h
      · intro h
        rcases h.1 with h1 | h1
        · exact absurd (h1.trans hb) h.2
        · exact h1
    · rw [List.eraseP_cons_of_neg (by simpa using hb), List.map_cons, List.mem_cons,
        List.map_cons, List.mem_cons, ih hnd.2 id]
      constructor
      · intro h
        rcases h with h | h
        · exact ⟨Or.inl h, by rw [h]; exact hb⟩
        · exact ⟨Or.inr h.1, h.2⟩
      · intro h
        rcases h.1 with h1 | h1
        · exact Or.inl h1
        · exact Or.inr ⟨h1, h.2⟩

theorem find_eraseP_ne (l : List IoBuffer) (v id : Nat) (hne : id ≠ v) :
    (l.eraseP (fun b => b.vmoid == v)).find? (fun b => b.vmoid == id) =
      l.find? (fun b => b.vmoid == id) := by
  induction l with
  | nil => rfl
  | cons b l ih =>
    by_cases hb : b.vmoid = v
    · rw [List.eraseP_cons_of_pos (by simpa using hb)]
      rw [List.find?_cons_of_neg]
      simp only [beq_iff_eq]
      intro h
      exact hne (h.symm.trans hb)
    · rw [List.eraseP_cons_of_neg (by simpa using hb)]
      by_cases hid : b.vmoid = id
      · rw [List.find?_cons_of_pos _ (by simpa using hid),
          List.find?_cons_of_pos _ (by simpa using hid)]
      · rw [List.find?_cons_of_neg _ (by simpa using hid),
          List.find?_cons_of_neg _ (by simpa using hid), ih]

theorem ServeRequest_close (c : Consts) (hs : c.Shape) (s : BlockServer)
    (r : block_fifo_request_t) (iobuf : IoBuffer) (ref : Nat)
    (hfind : s.find r.vmoid = some iobuf) (htx : r.txnid < c.MAX_TXN_COUNT)
    (hslot : s.txns.getD r.txnid none = some ref)
    (hop : r.opcode &&& c.BLOCKIO_OP_MASK = c.BLOCKIO_CLOSE_VMO) :
    s.ServeRequest c r =
      ({ s with tree := s.tree.eraseP (fun b => b.vmoid == r.vmoid) },
       if r.opcode &&& c.BLOCKIO_TXN_END ≠ 0 then OutOfBandErrorRespond c.ZX_OK r.txnid
       else []) := by
  unfold BlockServer.ServeRequest
  dsimp only
  rw [hfind]
  dsimp only
  rw [if_neg (by omega), hslot]
  dsimp only
  rw [hop, if_neg (by
    intro h
    rcases h with h | h
    · exact hs.close_ne_read h
    · exact hs.close_ne_write h), if_neg hs.close_ne_sync, if_pos rfl]
  congr 1
  by_cases hw : r.opcode &&& c.BLOCKIO_TXN_END ≠ 0
  · simp [hw]
  · simp [hw]

/-- C21: on a server reached from a fresh one, a `BLOCKIO_CLOSE_VMO` request
with a registered vmoid `v` and an allocated txnid removes exactly `v` from the
registry (every other id stays registered, to the same buffer), leaves the
transaction table, every transaction object and the cursor unchanged, submits
nothing to the device, and writes the response `{ZX_OK, txnid, 0}` if
`BLOCKIO_TXN_END` is set and nothing otherwise; after any later operations
among which no `AttachVmo` hands out `v` again, `v` is still not registered and
a request naming it is handled as one for an unknown buffer. -/
theorem close_vmo_detaches (c : Consts) (hc : c.WF) (hs : c.Shape) (max_transfer_size : Nat)
    (ops : List ServerOp) (s : BlockServer)
    (hreach : s = (BlockServer.new c max_transfer_size).run c ops)
    (r : block_fifo_request_t) (iobuf : IoBuffer) (ref : Nat)
    (hfind : s.find r.vmoid = some iobuf) (htx : r.txnid < c.MAX_TXN_COUNT)
    (hslot : s.txns.getD r.txnid none = some ref)
    (hop : r.opcode &&& c.BLOCKIO_OP_MASK = c.BLOCKIO_CLOSE_VMO) :
    (∀ id, id ∈ (s.ServeRequest c r).1.registered ↔ (id ∈ s.registered ∧ id ≠ r.vmoid)) ∧
    (∀ id, id ≠ r.vmoid → (s.ServeRequest c r).1.find id = s.find id) ∧
    (s.ServeRequest c r).1.find r.vmoid = none ∧
    (s.ServeRequest c r).1.heap = s.heap ∧
    (∀ k, ((s.ServeRequest c r).1.obj k).accumulator = (s.obj k).accumulator) ∧
    (s.ServeRequest c r).1.txns = s.txns ∧
    (s.ServeRequest c r).1.last_id = s.last_id ∧
    submissionsOf (s.ServeRequest c r).2 = [] ∧
    (r.opcode &&& c.BLOCKIO_TXN_END ≠ 0 →
      (s.ServeRequest c r).2 =
        [Effect.fifo_write { status := c.ZX_OK, txnid := r.txnid, count := 0 }]) ∧
    (r.opcode &&& c.BLOCKIO_TXN_END = 0 → (s.ServeRequest c r).2 = []) ∧
    (∀ later : List ServerOp, r.vmoid ∉ BlockServer.issued c (s.ServeRequest c r).1 later →
      (((s.ServeRequest c r).1.run c later).find r.vmoid = none ∧
       ∀ r2 : block_fifo_request_t, r2.vmoid = r.vmoid →
        ((s.ServeRequest c r).1.run c later).ServeRequest c r2 =
          ((s.ServeRequest c r).1.run c later,
           if r2.opcode &&& c.BLOCKIO_TXN_END ≠ 0
           then OutOfBandErrorRespond c.ZX_ERR_IO r2.txnid else []))) := by
  have hsound : RegistrySound c s := by
    rw [hreach]; exact RegistrySound_run c hc ops _ (RegistrySound_new c max_transfer_size)
  have hclose := ServeRequest_close c hs s r iobuf ref hfind htx hslot hop
  have hreg := registered_eraseP s.tree r.vmoid hsound.nodup
  have hgone : (s.ServeRequest c r).1.find r.vmoid = none := by
    rw [find_eq_none_iff, hclose]
    intro hmem
    exact ((hreg r.vmoid).1 hmem).2 rfl
  refine ⟨?_, ?_, hgone, ?_, ?_, ?_, ?_, ?_, ?_, ?_, ?_⟩
  · intro id
    rw [hclose]
    exact hreg id
  · intro id hne
    rw [hclose]
    exact find_eraseP_ne s.tree r.vmoid id hne
  · rw [hclose]
  · intro k
    rw [hclose]
    rfl
  · rw [hclose]
  · rw [hclose]
  · rw [hclose]
    dsimp only
    split_ifs <;> rfl
  · intro hw
    rw [hclose]
    dsimp only
    rw [if_pos hw]
    rfl
  · intro hw
    rw [hclose]
    dsimp only
    rw [if_neg (by rw [hw]; exact fun h => h rfl)]
  · intro later hnot
    have hlater := run_not_issued c r.vmoid later (s.ServeRequest c r).1 hgone hnot
    refine ⟨hlater, ?_⟩
    intro r2 hv
    exact ServeRequest_no_buffer c _ r2 (by rw [hv]; exact hlater)

theorem close_vmo_detaches_witness :
    (zircon.WF ∧ zircon.Shape ∧
      limitedServer.find closeRequest.vmoid = some { io_vmo := scenarioVmo, vmoid := 1 } ∧
      limitedServer.txns.getD closeRequest.txnid none = some 0 ∧
      closeRequest.opcode &&& zircon.BLOCKIO_OP_MASK = zircon.BLOCKIO_CLOSE_VMO ∧
      closeRequest.opcode &&& zircon.BLOCKIO_TXN_END ≠ 0) ∧
    (limitedServer.ServeRequest zircon closeRequest).1.find 1 = none ∧
    (limitedServer.ServeRequest zircon closeRequest).2 =
      [Effect.fifo_write { status := 0, txnid := 0, count := 0 }] :=
  ⟨⟨zircon_WF, zircon_Shape, by decide, by decide, by decide, by decide⟩,
   (close_vmo_detaches zircon zircon_WF zircon_Shape 1000 setupOps limitedServer rfl
      closeRequest { io_vmo := scenarioVmo, vmoid := 1 } 0 (by decide) (by decide)
      (by decide) (by decide)).2.2.1,
   (close_vmo_detaches zircon zircon_WF zircon_Shape 1000 setupOps limitedServer rfl
      closeRequest { io_vmo := scenarioVmo, vmoid := 1 } 0 (by decide) (by decide)
      (by decide) (by decide)).2.2.2.2.2.2.2.2.1 (by decide)⟩

theorem heldDuring_effects (held : Bool) (rest : List LockEvent) :
    ∀ l : List Effect,
      heldDuring held (l.map LockEvent.effect ++ rest) =
        l.map (fun e => (held, e)) ++ heldDuring held rest := by
  intro l
  induction l with
  | nil => rfl
  | cons e l ih =>
    show (held, e) :: heldDuring held (l.map LockEvent.effect ++ rest) = _
    rw [ih]
    rfl

theorem heldAfter_effects (held : Bool) (rest : List LockEvent) :
    ∀ l : List Effect,
      heldAfter held (l.map LockEvent.effect ++ rest) = heldAfter held rest := by
  intro l
  induction l with
  | nil => rfl
  | cons e l ih => exact ih

theorem effectsOf_effects (rest : List LockEvent) :
    ∀ l : List Effect, effectsOf (l.map LockEvent.effect ++ rest) = l ++ effectsOf rest := by
  intro l
  induction l with
  | nil => rfl
  | cons e l ih =>
    show e :: effectsOf (l.map LockEvent.effect ++ rest) = _
    rw [ih]
    rfl

/-- Every path of the read / write case after `Enqueue` ends with the release
of `server_lock_`, after the effects of `BlockServer.ServeMessage`. -/
theorem ServeMessageEvents_paths (c : Consts) (s : BlockServer) (r : block_fifo_request_t)
    (iobuf : IoBuffer) (ref : Nat) (t : BlockTransaction) (k : Nat) :
    s.ServeMessageEvents c r iobuf ref t k =
      ((s.ServeMessage c r iobuf ref t k).1,
       (s.ServeMessage c r iobuf ref t k).2.map LockEvent.effect ++ [LockEvent.release]) := by
  unfold BlockServer.ServeMessageEvents BlockServer.ServeMessage
  dsimp only
  split_ifs <;> rfl

/-- Every path of the read / write case ends with the release of
`server_lock_`, after the effects of `BlockServer.ServeReadWrite`. -/
theorem ServeReadWriteEvents_paths (c : Consts) (s : BlockServer) (r : block_fifo_request_t)
    (iobuf : IoBuffer) (ref : Nat) :
    s.ServeReadWriteEvents c r iobuf ref =
      ((s.ServeReadWrite c r iobuf ref).1,
       (s.ServeReadWrite c r iobuf ref).2.map LockEvent.effect ++ [LockEvent.release]) := by
  unfold BlockServer.ServeReadWriteEvents BlockServer.ServeReadWrite
  dsimp only
  by_cases hlen : r.length > 2 ^ 32 - 1
  · rw [if_pos hlen, if_pos hlen]
  · rw [if_neg hlen, if_neg hlen]
    by_cases hst : ((s.obj ref).Enqueue c (decide (r.opcode &&& c.BLOCKIO_TXN_END ≠ 0))).status
        ≠ c.ZX_OK
    · rw [if_pos hst, if_pos hst]
    · rw [if_neg hst, if_neg hst]
      cases hout : ((s.obj ref).Enqueue c (decide (r.opcode &&& c.BLOCKIO_TXN_END ≠ 0))).msg_out
        with
      | none => rfl
      | some k =>
        dsimp only
        rw [ServeMessageEvents_paths, List.map_append, List.append_assoc]

/-- Every path of the loop body acquires `server_lock_` first and releases it
last, around the effects of `BlockServer.ServeRequest`, and ends in the same
server state. -/
theorem ServeRequestEvents_paths (c : Consts) (s : BlockServer) (r : block_fifo_request_t) :
    s.ServeRequestEvents c r =
      ((s.ServeRequest c r).1,
       LockEvent.acquire ::
        ((s.ServeRequest c r).2.map LockEvent.effect ++ [LockEvent.release])) := by
  unfold BlockServer.ServeRequestEvents BlockServer.ServeRequest
  dsimp only
  cases hfind : s.find r.vmoid with
  | none => rfl
  | some iobuf =>
    dsimp only
    cases htxn : (if r.txnid ≥ c.MAX_TXN_COUNT then none else s.txns.getD r.txnid none) with
    | none => rfl
    | some ref =>
      dsimp only
      split_ifs <;> first | rfl | rw [ServeReadWriteEvents_paths]

/-- C22 (amended): the events of one iteration of the dispatch loop, taken
path by path from the loop body, are those of `BlockServer.ServeRequest` with
`server_lock_` acquired before the lookup and released where the path leaves
the loop body: every device submission and every FIFO write of the iteration
occurs while the lock is held, the lock is acquired once and released once,
and it is not held after the iteration. -/
theorem server_lock_held_across_effects (c : Consts) (s : BlockServer)
    (r : block_fifo_request_t) :
    (s.ServeRequestEvents c r).1 = (s.ServeRequest c r).1 ∧
    effectsOf (s.ServeRequestEvents c r).2 = (s.ServeRequest c r).2 ∧
    heldDuring false (s.ServeRequestEvents c r).2 =
      (s.ServeRequest c r).2.map (fun e => (true, e)) ∧
    (∀ p ∈ heldDuring false (s.ServeRequestEvents c r).2, p.1 = true) ∧
    heldAfter false (s.ServeRequestEvents c r).2 = false ∧
    (s.ServeRequestEvents c r).2.count LockEvent.acquire = 1 ∧
    (s.ServeRequestEvents c r).2.count LockEvent.release = 1 := by
  have hp := ServeRequestEvents_paths c s r
  have h1 : heldDuring false (s.ServeRequestEvents c r).2 =
      (s.ServeRequest c r).2.map (fun e => (true, e)) := by
    rw [hp]
    show heldDuring true _ = _
    rw [heldDuring_effects]
    show _ ++ [] = _
    rw [List.append_nil]
  have hcount : ∀ (x : LockEvent) (l : List Effect), (∀ e, x ≠ LockEvent.effect e) →
      (l.map LockEvent.effect).count x = 0 := by
    intro x l hx
    rw [List.count_eq_zero]
    intro hmem
    obtain ⟨e, _, he⟩ := List.mem_map.1 hmem
    exact hx e he.symm
  refine ⟨?_, ?_, h1, ?_, ?_, ?_, ?_⟩
  · rw [hp]
  · rw [hp]
    show effectsOf (_ ++ [LockEvent.release]) = _
    rw [effectsOf_effects]
    show _ ++ [] = _
    rw [List.append_nil]
  · intro p hmem
    rw [h1] at hmem
    obtain ⟨e, _, he⟩ := List.mem_map.1 hmem
    rw [← he]
  · rw [hp]
    show heldAfter true _ = _
    rw [heldAfter_effects]
    rfl
  · rw [hp]
    dsimp only
    rw [List.count_cons_self, List.count_append,
      hcount LockEvent.acquire _ (fun e h => LockEvent.noConfusion h)]
    rfl
  · rw [hp]
    dsimp only
    rw [List.count_cons_of_ne (by decide), List.count_append,
      hcount LockEvent.release _ (fun e h => LockEvent.noConfusion h)]
    rfl

/-- C22 as stated fails: the iteration that handles the 4096-byte write of the
scenario submits it to the device while `server_lock_` is held, between the
acquisition and the release, and the iteration that handles the same request
naming the unregistered vmoid 9 writes its error response to the FIFO while
`server_lock_` is held. -/
theorem submission_made_under_server_lock :
    (scenarioServer.ServeRequestEvents zircon scenarioWrite).2.map
        (fun ev => (decide (ev = LockEvent.acquire), decide (ev = LockEvent.release),
          (submissionsOf (effectsOf [ev])).map block_op.extent)) =
      [(true, false, []), (false, false, [(4096, 0, 0)]), (false, true, [])] ∧
    (heldDuring false (scenarioServer.ServeRequestEvents zircon scenarioWrite).2).map
        (fun p => (p.1, (submissionsOf [p.2]).map block_op.extent)) =
      [(true, [(4096, 0, 0)])] ∧
    (scenarioServer.ServeRequestEvents zircon { scenarioWrite with vmoid := 9 }).2 =
      [LockEvent.acquire,
       LockEvent.effect
        (Effect.fifo_write { status := zircon.ZX_ERR_IO, txnid := 0, count := 0 }),
       LockEvent.release] ∧
    heldDuring false
        (scenarioServer.ServeRequestEvents zircon { scenarioWrite with vmoid := 9 }).2 =
      [(true, Effect.fifo_write { status := zircon.ZX_ERR_IO, txnid := 0, count := 0 })] := by
  refine ⟨?_, ?_, ?_, ?_⟩ <;> decide

theorem server_lock_held_across_effects_witness :
    heldDuring false (scenarioServer.ServeRequestEvents zircon scenarioWrite).2 =
      (scenarioServer.ServeRequest zircon scenarioWrite).2.map (fun e => (true, e)) ∧
    heldAfter false (scenarioServer.ServeRequestEvents zircon scenarioWrite).2 = false :=
  ⟨(server_lock_held_across_effects zircon scenarioServer scenarioWrite).2.2.1,
   (server_lock_held_across_effects zircon scenarioServer scenarioWrite).2.2.2.2.1⟩

/-- The flags the dispatch loop passes with the first chunk of a split
request: those stored on the message, or-ed with the complement of
`IOTXN_SYNC_AFTER`. -/
theorem ServeMessage_first_chunk_flags (c : Consts) (s : BlockServer)
    (r : block_fifo_request_t) (iobuf : IoBuffer) (ref : Nat) (t : BlockTransaction) (k : Nat)
    (hval : iobuf.ValidateVmoHack c r.length r.vmo_offset = c.ZX_OK)
    (hM : s.max_transfer_size ≠ 0) (hlt : s.max_transfer_size < r.length) :
    (submissionsOf (s.ServeMessage c r iobuf ref t k).2).map (fun op => op.flags) =
      [(t.msg k).flags ||| not32 c.IOTXN_SYNC_AFTER] := by
  have hsplit : (decide (s.max_transfer_size ≠ 0 ∧ s.max_transfer_size < r.length)) = true := by
    simpa using ⟨hM, hlt⟩
  unfold BlockServer.ServeMessage
  dsimp only
  rw [if_neg (by simp [hval]), if_pos hsplit, if_pos hsplit]
  split_ifs <;> rfl

/-- C26 fails on the code: on a server with maximum transfer size 1000 whose
transaction has one message of an open group in flight, a group-ending write
of 2500 bytes is split; `Enqueue` stores `IOTXN_SYNC_AFTER` on its message,
1500 bytes remain after the first chunk, and the dispatch loop passes the
first chunk of 1000 bytes to the device with flags `0xFFFFFFFF`, which contain
`IOTXN_SYNC_AFTER`. -/
theorem first_chunk_carries_sync_after :
    openServer.find splitWrite.vmoid = some { io_vmo := scenarioVmo, vmoid := 1 } ∧
    openServer.txns.getD splitWrite.txnid none = some 0 ∧
    (openServer.obj 0).goal = 1 ∧
    splitWrite.opcode &&& zircon.BLOCKIO_TXN_END ≠ 0 ∧
    (((openServer.ServeRequest zircon splitWrite).1.obj 0).msg 1).flags =
      zircon.IOTXN_SYNC_AFTER ∧
    (((openServer.ServeRequest zircon splitWrite).1.obj 0).msg 1).len_remaining = 1500 ∧
    (submissionsOf (openServer.ServeRequest zircon splitWrite).2).map
        (fun op => (op.length, op.flags, op.cookie)) =
      [(1000, 4294967295, { txn := 0, slot := 1 })] ∧
    (4294967295 : Nat) &&& zircon.IOTXN_SYNC_AFTER ≠ 0 := by
  decide

/-- C27 fails on the code: on a server with maximum transfer size 1000, a
write of 2500 bytes that opens its group is split; `Enqueue` stores
`IOTXN_SYNC_BEFORE` on its message, and the dispatch loop passes the first
chunk to the device with flags `0xFFFFFFFD`: not the stored flags with
`IOTXN_SYNC_AFTER` cleared, and with bits outside
`IOTXN_SYNC_BEFORE | IOTXN_SYNC_AFTER`. -/
theorem first_chunk_flags_outside_sync_bits :
    limitedServer.find splitWrite.vmoid = some { io_vmo := scenarioVmo, vmoid := 1 } ∧
    limitedServer.txns.getD splitWrite.txnid none = some 0 ∧
    0 < limitedServer.max_transfer_size ∧
    limitedServer.max_transfer_size < splitWrite.length ∧
    (((limitedServer.ServeRequest zircon splitWrite).1.obj 0).msg 0).flags =
      zircon.IOTXN_SYNC_BEFORE ∧
    (submissionsOf (limitedServer.ServeRequest zircon splitWrite).2).map
        (fun op => (op.length, op.flags)) = [(1000, 4294967293)] ∧
    (4294967293 : Nat) ≠ zircon.IOTXN_SYNC_BEFORE &&& not32 zircon.IOTXN_SYNC_AFTER ∧
    (4294967293 : Nat) &&& not32 (zircon.IOTXN_SYNC_BEFORE ||| zircon.IOTXN_SYNC_AFTER) ≠ 0 := by
  decide

theorem getD_replicate {α : Type} (n k : Nat) (d : α) : (List.replicate n d).getD k d = d := by
  by_cases h : k < n
  · rw [List.getD_eq_getElem _ _ (by simpa using h), List.getElem_replicate]
  · rw [List.getD_eq_default _ _ (by simpa using h)]

theorem InFlight_new (c : Consts) (txnid max_xfer : Nat) :
    InFlight c (BlockTransaction.new c txnid max_xfer) Groups.empty where
  slots := List.length_replicate _ _
  lt_goal := fun k hk => absurd hk (List.not_mem_nil k)
  nodup := List.nodup_nil
  released := by
    intro k _
    have h : (BlockTransaction.new c txnid max_xfer).msg k = default :=
      getD_replicate _ _ _
    rw [h]
    exact ⟨rfl, rfl⟩

theorem Complete_other (c : Consts) (t : BlockTransaction) (msg : MsgPtr) (status : Int)
    (k : Nat) (hne : k ≠ msg.slot) :
    (t.Complete c msg status).txn.msg k = t.msg k ∧
    (t.Complete c msg status).txn.msgs.length = t.msgs.length := by
  by_cases h : status = c.ZX_OK ∧ (t.msg msg.slot).len_remaining ≠ 0
  · rw [Complete_resubmit c t msg status h]
    unfold BlockTransaction.msg
    dsimp only
    rw [getD_set_ne _ _ _ _ _ (Ne.symm hne), List.length_set]
    exact ⟨rfl, rfl⟩
  · by_cases hr : t.flags &&& c.kTxnFlagRespond ≠ 0 ∧ (t.response.count + 1) % 2 ^ 32 = t.goal
    · rw [Complete_respond c t msg status h hr]
      unfold BlockTransaction.msg
      dsimp only
      rw [getD_set_ne _ _ _ _ _ (Ne.symm hne), List.length_set]
      exact ⟨rfl, rfl⟩
    · rw [Complete_quiet c t msg status h hr]
      unfold BlockTransaction.msg
      dsimp only
      rw [getD_set_ne _ _ _ _ _ (Ne.symm hne), List.length_set]
      exact ⟨rfl, rfl⟩

theorem Complete_msgs_length (c : Consts) (t : BlockTransaction) (msg : MsgPtr) (status : Int) :
    (t.Complete c msg status).txn.msgs.length = t.msgs.length :=
  (Complete_other c t msg status (msg.slot + 1) (Nat.succ_ne_self _)).2

theorem InFlight_Enqueue (c : Consts) (hc : c.WF) (x : Nat) (t : BlockTransaction) (g : Groups)
    (d : Bool) (fill : block_msg_t) (h : Tracks c x t g) (hin : InFlight c t g)
    (hok : (t.Enqueue c d).status = c.ZX_OK) :
    t.goal ∉ g.outstanding ∧
    InFlight c
      { (t.Enqueue c d).txn with
        msgs := (t.Enqueue c d).txn.msgs.set t.goal
          { fill with flags := ((t.Enqueue c d).txn.msg t.goal).flags } }
      (g.enqueue t.goal (d || t.goal + 1 == c.MAX_TXN_MESSAGES)) := by
  have hf := Enqueue_ok_free c hc t d hok
  have hopen : g.ended = false := by
    by_contra he
    have := h.flag_iff.2 (by simpa using he)
    exact this hf
  have hlt := h.open_lt hopen
  have h32 := hc.msgs_lt
  have hgoal : (t.goal + 1) % 2 ^ 32 = t.goal + 1 := Nat.mod_eq_of_lt (by omega)
  have hnew : t.goal ∉ g.outstanding := fun hm => Nat.lt_irrefl _ (hin.lt_goal _ hm)
  refine ⟨hnew, ?_⟩
  rw [Enqueue_free c t d hf]
  constructor
  · show ((t.msgs.set t.goal _).set t.goal _).length = _
    rw [List.length_set, List.length_set]
    exact hin.slots
  · intro k hk
    show k < (t.goal + 1) % 2 ^ 32
    rw [hgoal]
    have hk2 : k ∈ t.goal :: g.outstanding := hk
    rw [List.mem_cons] at hk2
    rcases hk2 with hk2 | hk2
    · omega
    · have := hin.lt_goal k hk2
      omega
  · show (t.goal :: g.outstanding).Nodup
    exact List.nodup_cons.2 ⟨hnew, hin.nodup⟩
  · intro k hk
    have hk2 : k ∉ t.goal :: g.outstanding := hk
    rw [List.mem_cons, not_or] at hk2
    have hmsg : BlockTransaction.msg
        { t with
          msgs := (t.msgs.set t.goal
            { t.msg t.goal with
              flags := if t.goal = 0 then c.IOTXN_SYNC_BEFORE
                else if (if t.goal = c.MAX_TXN_MESSAGES - 1 then true else d) = true
                  then c.IOTXN_SYNC_AFTER else 0 }).set t.goal
            { fill with
              flags := (BlockTransaction.msg
                { t with
                  msgs := t.msgs.set t.goal
                    { t.msg t.goal with
                      flags := if t.goal = 0 then c.IOTXN_SYNC_BEFORE
                        else if (if t.goal = c.MAX_TXN_MESSAGES - 1 then true else d) = true
                          then c.IOTXN_SYNC_AFTER else 0 }
                  goal := (t.goal + 1) % 2 ^ 32
                  flags := t.flags |||
                    (if (if t.goal = c.MAX_TXN_MESSAGES - 1 then true else d) = true
                      then c.kTxnFlagRespond else 0) } t.goal).flags }
          goal := (t.goal + 1) % 2 ^ 32
          flags := t.flags |||
            (if (if t.goal = c.MAX_TXN_MESSAGES - 1 then true else d) = true
              then c.kTxnFlagRespond else 0) } k = t.msg k := by
      unfold BlockTransaction.msg
      dsimp only
      rw [getD_set_ne _ _ _ _ _ (Ne.symm hk2.1), getD_set_ne _ _ _ _ _ (Ne.symm hk2.1)]
    show (BlockTransaction.msg _ k).txn = none ∧ (BlockTransaction.msg _ k).iobuf = none
    rw [hmsg]
    exact hin.released k hk2.2

theorem InFlight_Complete (c : Consts) (hc : c.WF) (x : Nat) (t : BlockTransaction) (g : Groups)
    (msg : MsgPtr) (status : Int) (h : Tracks c x t g) (hin : InFlight c t g)
    (hmem : msg.slot ∈ g.outstanding) :
    InFlight c (t.Complete c msg status).txn
      (if t.counting c msg status then g.complete msg.slot else g) := by
  have htr := (Tracks_Complete c hc x t g msg status h hmem).1
  have hlen : (t.Complete c msg status).txn.msgs.length = c.MAX_TXN_MESSAGES := by
    rw [Complete_msgs_length]; exact hin.slots
  have hslot : msg.slot < t.msgs.length := by
    have h1 := hin.lt_goal _ hmem
    have h2 := h.goal_le
    rw [hin.slots]
    omega
  by_cases hcnt : t.counting c msg status = true
  · have hrefs := Complete_counting_refs c t msg status hslot ((counting_iff c t msg status).1 hcnt)
    rw [if_pos hcnt] at htr ⊢
    unfold Groups.complete at htr ⊢
    by_cases hreset : (g.ended && (g.outstanding.erase msg.slot).isEmpty) = true
    · rw [if_pos hreset]
      have hempty : g.outstanding.erase msg.slot = [] := by
        simp only [Bool.and_eq_true, List.isEmpty_iff] at hreset
        exact hreset.2
      constructor
      · exact hlen
      · intro k hk
        exact absurd hk (List.not_mem_nil k)
      · exact List.nodup_nil
      · intro k _
        by_cases hk : k = msg.slot
        · rw [hk]; exact hrefs
        · rw [(Complete_other c t msg status k hk).1]
          apply hin.released
          intro hko
          have : k ∈ g.outstanding.erase msg.slot := (List.mem_erase_of_ne hk).2 hko
          rw [hempty] at this
          exact absurd this (List.not_mem_nil k)
    · rw [if_neg hreset] at htr ⊢
      have hgoal : (t.Complete c msg status).txn.goal = t.goal := by
        rw [htr.goal_eq, h.goal_eq]
      constructor
      · exact hlen
      · intro k hk
        have hk2 : k ∈ g.outstanding.erase msg.slot := hk
        rw [hgoal]
        exact hin.lt_goal k (List.mem_of_mem_erase hk2)
      · exact List.Nodup.erase _ hin.nodup
      · intro k hk
        have hk2 : k ∉ g.outstanding.erase msg.slot := hk
        by_cases hks : k = msg.slot
        · rw [hks]; exact hrefs
        · rw [(Complete_other c t msg status k hks).1]
          apply hin.released
          intro hko
          exact hk2 ((List.mem_erase_of_ne hks).2 hko)
  · rw [if_neg hcnt] at htr ⊢
    have hgoal : (t.Complete c msg status).txn.goal = t.goal := by
      rw [htr.goal_eq, h.goal_eq]
    constructor
    · exact hlen
    · intro k hk
      rw [hgoal]
      exact hin.lt_goal k hk
    · exact hin.nodup
    · intro k hk
      have hks : k ≠ msg.slot := fun heq => hk (heq ▸ hmem)
      rw [(Complete_other c t msg status k hks).1]
      exact hin.released k hk

theorem runCalls_InFlight (c : Consts) (hc : c.WF) (x : Nat) (calls : List TxnCall) :
    ∀ (t : BlockTransaction) (g : Groups) (r : BlockTransaction × Groups × List Effect),
      Tracks c x t g → InFlight c t g → runCalls c t g calls = some r →
      Tracks c x r.1 r.2.1 ∧ InFlight c r.1 r.2.1 := by
  induction calls with
  | nil =>
    intro t g r h hin hrun
    simp only [runCalls, Option.some.injEq] at hrun
    subst hrun
    exact ⟨h, hin⟩
  | cons call calls ih =>
    intro t g r h hin hrun
    cases call with
    | Enqueue d fill =>
      simp only [runCalls] at hrun
      split_ifs at hrun with hok
      have hok2 : (t.Enqueue c d).status = c.ZX_OK := by simpa using hok
      obtain ⟨hk, _, htr⟩ := Tracks_Enqueue c hc x t g d fill h hok2
      have hin2 := (InFlight_Enqueue c hc x t g d fill h hin hok2).2
      rw [hk] at hrun
      simp only at hrun
      split at hrun
      · exact absurd hrun (by simp)
      · rename_i t2 g2 out heq
        simp only [Option.some.injEq] at hrun
        subst hrun
        exact ih _ _ (t2, g2, out) htr hin2 heq
    | Complete msg status =>
      simp only [runCalls] at hrun
      by_cases hmem : msg.slot ∈ g.outstanding
      · rw [if_pos hmem] at hrun
        have htr := (Tracks_Complete c hc x t g msg status h hmem).1
        have hin2 := InFlight_Complete c hc x t g msg status h hin hmem
        generalize (if t.counting c msg status = true then g.complete msg.slot else g) = g1
          at hrun htr hin2
        split at hrun
        · exact absurd hrun (by simp)
        · rename_i t2 g2 out heq
          simp only [Option.some.injEq] at hrun
          subst hrun
          exact ih _ _ (t2, g2, out) htr hin2 heq
      · rw [if_neg hmem] at hrun
        exact absurd hrun (by simp)

/-- C28: the predicate "completed count <= goal <= MAX_TXN_MESSAGES, and
goal == MAX_TXN_MESSAGES implies the respond flag is set" holds of a fresh
transaction and after every admitted trace of calls (every `Enqueue` succeeds,
every `Complete` is for a message in flight), and a failing `Enqueue` leaves
the transaction as it is.  Hence the array has `MAX_TXN_MESSAGES` slots and:
an `Enqueue` that passes the respond check finds `goal < MAX_TXN_MESSAGES` and
hands out a slot inside the array; a `Complete` for a message in flight
addresses a slot inside the array and, when it counts, finds `goal != 0` and
the incremented count at most the goal, without wrapping. -/
theorem transaction_counters_bounded (c : Consts) (hc : c.WF) (txnid max_xfer : Nat)
    (calls : List TxnCall) (r : BlockTransaction × Groups × List Effect)
    (h : runCalls c (BlockTransaction.new c txnid max_xfer) Groups.empty calls = some r) :
    ((BlockTransaction.new c txnid max_xfer).response.count ≤
        (BlockTransaction.new c txnid max_xfer).goal ∧
      (BlockTransaction.new c txnid max_xfer).goal ≤ c.MAX_TXN_MESSAGES ∧
      (BlockTransaction.new c txnid max_xfer).goal ≠ c.MAX_TXN_MESSAGES) ∧
    (r.1.response.count ≤ r.1.goal ∧ r.1.goal ≤ c.MAX_TXN_MESSAGES ∧
      (r.1.goal = c.MAX_TXN_MESSAGES → r.1.flags &&& c.kTxnFlagRespond ≠ 0)) ∧
    r.1.msgs.length = c.MAX_TXN_MESSAGES ∧
    (∀ d : Bool, (r.1.Enqueue c d).status ≠ c.ZX_OK → (r.1.Enqueue c d).txn = r.1) ∧
    (∀ d : Bool, (r.1.Enqueue c d).status = c.ZX_OK →
      r.1.goal < c.MAX_TXN_MESSAGES ∧ (r.1.Enqueue c d).msg_out = some r.1.goal ∧
      r.1.goal < r.1.msgs.length) ∧
    (∀ (msg : MsgPtr) (status : Int), msg.slot ∈ r.2.1.outstanding →
      msg.slot < r.1.msgs.length ∧
      (r.1.counting c msg status = true →
        r.1.goal ≠ 0 ∧ (r.1.response.count + 1) % 2 ^ 32 ≤ r.1.goal ∧
        (r.1.response.count + 1) % 2 ^ 32 = r.1.response.count + 1)) := by
  obtain ⟨htr, hin⟩ := runCalls_InFlight c hc txnid calls _ _ r
    (Tracks_new c hc txnid max_xfer) (InFlight_new c txnid max_xfer) h
  have hpos := hc.msgs_pos
  have h32 := hc.msgs_lt
  have hcount := htr.count_eq
  have hle := htr.goal_le
  have hopen : r.1.flags &&& c.kTxnFlagRespond = 0 → r.1.goal < c.MAX_TXN_MESSAGES := by
    intro hf
    apply htr.open_lt
    by_contra he
    exact (htr.flag_iff.2 (by simpa using he)) hf
  refine ⟨⟨Nat.le_refl _, Nat.zero_le _, ?_⟩, ⟨by omega, hle, ?_⟩, hin.slots, ?_, ?_, ?_⟩
  · show 0 ≠ c.MAX_TXN_MESSAGES
    omega
  · intro hg hf
    have := hopen hf
    omega
  · intro d hne
    by_cases hf : r.1.flags &&& c.kTxnFlagRespond = 0
    · rw [Enqueue_free c r.1 d hf] at hne
      exact absurd rfl hne
    · rw [Enqueue_pending c r.1 d hf]
  · intro d hok
    have hf := Enqueue_ok_free c hc r.1 d hok
    have hlt := hopen hf
    refine ⟨hlt, ?_, ?_⟩
    · rw [Enqueue_free c r.1 d hf]
    · rw [hin.slots]; exact hlt
  · intro msg status hmem
    have hlt := hin.lt_goal _ hmem
    have hlen := List.length_pos_of_mem hmem
    refine ⟨by rw [hin.slots]; omega, ?_⟩
    intro _
    have hmod : (r.1.response.count + 1) % 2 ^ 32 = r.1.response.count + 1 :=
      Nat.mod_eq_of_lt (by omega)
    rw [hmod]
    exact ⟨by omega, by omega, rfl⟩

theorem transaction_counters_bounded_witness :
    (zircon.WF ∧
      runCalls zircon (BlockTransaction.new zircon 7 0) Groups.empty reuseCalls
        = some reuseOutcome) ∧
    (reuseOutcome.1.response.count ≤ reuseOutcome.1.goal ∧
      reuseOutcome.1.goal ≤ zircon.MAX_TXN_MESSAGES ∧
      (reuseOutcome.1.goal = zircon.MAX_TXN_MESSAGES →
        reuseOutcome.1.flags &&& zircon.kTxnFlagRespond ≠ 0)) ∧
    reuseOutcome.1.goal = 1 ∧ reuseOutcome.1.response.count = 0 :=
  ⟨⟨zircon_WF, by decide⟩,
   (transaction_counters_bounded zircon zircon_WF 7 0 reuseCalls reuseOutcome
      (by decide)).2.1,
   by decide, by decide⟩

/-- C29: after every admitted trace of calls on a fresh transaction (every
`Enqueue` succeeds, every `Complete` is for a message in flight, so each
message is completed once), an `Enqueue` that hands out slot `k` succeeds with
`k` the goal, inside the array, and no message is in flight in slot `k`: the
slot is not among those enqueued and not yet counted as completed, and its
transaction reference and buffer reference are null before and after the
call, as the dispatch loop asserts. -/
theorem slot_free_when_handed_out (c : Consts) (hc : c.WF) (txnid max_xfer : Nat)
    (calls : List TxnCall) (r : BlockTransaction × Groups × List Effect)
    (h : runCalls c (BlockTransaction.new c txnid max_xfer) Groups.empty calls = some r)
    (d : Bool) (k : Nat) (hout : (r.1.Enqueue c d).msg_out = some k) :
    (r.1.Enqueue c d).status = c.ZX_OK ∧ k = r.1.goal ∧ k < c.MAX_TXN_MESSAGES ∧
    k ∉ r.2.1.outstanding ∧
    ((r.1.msg k).txn = none ∧ (r.1.msg k).iobuf = none) ∧
    (((r.1.Enqueue c d).txn.msg k).txn = none ∧ ((r.1.Enqueue c d).txn.msg k).iobuf = none) := by
  obtain ⟨htr, hin⟩ := runCalls_InFlight c hc txnid calls _ _ r
    (Tracks_new c hc txnid max_xfer) (InFlight_new c txnid max_xfer) h
  have hf : r.1.flags &&& c.kTxnFlagRespond = 0 := by
    by_contra hf
    rw [Enqueue_pending c r.1 d hf] at hout
    exact Option.noConfusion hout
  have hlt : r.1.goal < c.MAX_TXN_MESSAGES := by
    apply htr.open_lt
    by_contra he
    exact (htr.flag_iff.2 (by simpa using he)) hf
  have hk : k = r.1.goal := by
    rw [Enqueue_free c r.1 d hf] at hout
    exact (Option.some.inj hout).symm
  have hnot : k ∉ r.2.1.outstanding := by
    intro hm
    have := hin.lt_goal k hm
    omega
  have hrel := hin.released k hnot
  refine ⟨?_, hk, by omega, hnot, hrel, ?_⟩
  · rw [Enqueue_free c r.1 d hf]
  · rw [Enqueue_free c r.1 d hf]
    unfold BlockTransaction.msg at hrel ⊢
    dsimp only
    rw [hk, getD_set_self _ _ _ _ (by rw [hin.slots]; exact hlt)]
    dsimp only
    rw [← hk]
    exact hrel

theorem slot_free_when_handed_out_witness :
    (zircon.WF ∧
      runCalls zircon (BlockTransaction.new zircon 7 0) Groups.empty reuseCalls
        = some reuseOutcome ∧
      (reuseOutcome.1.Enqueue zircon true).msg_out = some 1) ∧
    reuseOutcome.2.1.outstanding = [0] ∧
    (1 ∉ reuseOutcome.2.1.outstanding ∧
      ((reuseOutcome.1.msg 1).txn = none ∧ (reuseOutcome.1.msg 1).iobuf = none)) :=
  ⟨⟨zircon_WF, by decide, by decide⟩, by decide,
   (slot_free_when_handed_out zircon zircon_WF 7 0 reuseCalls reuseOutcome (by decide)
      true 1 (by decide)).2.2.2.1,
   (slot_free_when_handed_out zircon zircon_WF 7 0 reuseCalls reuseOutcome (by decide)
      true 1 (by decide)).2.2.2.2.1⟩

theorem AttachVmo_cursor_no_memory (c : Consts) (s : BlockServer) (vmo : zx_vmo)
    (hlt : s.last_id < c.vmoid_max) (hfree : s.last_id ∉ s.registered) :
    s.AttachVmo c vmo false =
      { status := c.ZX_ERR_NO_MEMORY, out := none,
        server := { s with last_id := s.last_id + 1 } } := by
  have hscan : s.scan (c.vmoid_max - s.last_id) s.last_id = some s.last_id := by
    have hn : c.vmoid_max - s.last_id = (c.vmoid_max - s.last_id - 1) + 1 := by omega
    rw [hn]
    simp only [BlockServer.scan]
    rw [if_neg]
    intro h
    exact hfree ((find_isSome_iff s s.last_id).1 h)
  have hfind := FindVmoIDLocked_first c s s.last_id hscan
  rw [AttachVmo_of_found c s vmo false s.last_id (by rw [hfind]) (by rw [hfind]), hfind]
  simp only [Bool.false_eq_true, if_false]
  rw [Nat.mod_eq_of_lt (by omega)]

theorem step_last_id (c : Consts) (s : BlockServer) (op : ServerOp)
    (hop : ∀ vmo alloc_ok, op ≠ ServerOp.AttachVmo vmo alloc_ok) :
    (s.step c op).last_id = s.last_id ∧ op.issues c s = none ∧
    ∀ id ∈ (s.step c op).registered, id ∈ s.registered := by
  have hreg : ∀ id ∈ (s.step c op).registered, op.issues c s = none → id ∈ s.registered := by
    intro id hid hnone
    rcases step_registered_sub c s op id hid with h | h
    · exact h
    · rw [hnone] at h
      exact Option.noConfusion h
  cases op with
  | AttachVmo vmo alloc_ok => exact absurd rfl (hop vmo alloc_ok)
  | AllocateTxn alloc_ok =>
    exact ⟨(AllocateTxn_frame c s alloc_ok).2.1, rfl, fun id hid => hreg id hid rfl⟩
  | FreeTxn txnid =>
    exact ⟨(FreeTxn_frame s txnid).2.1, rfl, fun id hid => hreg id hid rfl⟩
  | Complete cookie status =>
    exact ⟨(blockserver_fifo_complete_frame c s cookie status).2.1, rfl,
      fun id hid => hreg id hid rfl⟩
  | Request r =>
    exact ⟨(ServeRequest_frame c s r).1, rfl, fun id hid => hreg id hid rfl⟩

theorem attachCalls_other (op : ServerOp) (rest : List ServerOp)
    (hop : ∀ vmo alloc_ok, op ≠ ServerOp.AttachVmo vmo alloc_ok) :
    attachCalls (op :: rest) = attachCalls rest ∧
    allAllocated (op :: rest) = allAllocated rest := by
  cases op with
  | AttachVmo vmo alloc_ok => exact absurd rfl (hop vmo alloc_ok)
  | AllocateTxn alloc_ok => exact ⟨rfl, rfl⟩
  | FreeTxn txnid => exact ⟨rfl, rfl⟩
  | Complete cookie status => exact ⟨rfl, rfl⟩
  | Request r => exact ⟨rfl, rfl⟩

/-- While the cursor has room below `max(vmoid_t)`: every `AttachVmo` call
advances the cursor by one, whether or not its allocation succeeds, no other
operation moves it, every registered id stays below it, and the ids handed
out are the values the cursor had at the successful calls. -/
theorem run_cursor (c : Consts) :
    ∀ (ops : List ServerOp) (s : BlockServer),
      (∀ id ∈ s.registered, id < s.last_id) → s.last_id + attachCalls ops ≤ c.vmoid_max →
      (s.run c ops).last_id = s.last_id + attachCalls ops ∧
      (∀ id ∈ (s.run c ops).registered, id < (s.run c ops).last_id) ∧
      (∀ id ∈ BlockServer.issued c s ops, s.last_id ≤ id ∧ id < s.last_id + attachCalls ops) ∧
      (BlockServer.issued c s ops).Pairwise (fun a b => a < b) ∧
      (allAllocated ops = true →
        BlockServer.issued c s ops = List.range' s.last_id (attachCalls ops)) := by
  intro ops
  induction ops with
  | nil =>
    intro s hreg _
    exact ⟨rfl, hreg, fun id h => absurd h (List.not_mem_nil _), List.Pairwise.nil,
      fun _ => rfl⟩
  | cons op rest ih =>
    intro s hreg hroom
    by_cases hatt : ∃ vmo alloc_ok, op = ServerOp.AttachVmo vmo alloc_ok
    · obtain ⟨vmo, alloc_ok, hop⟩ := hatt
      subst hop
      have hroom2 : s.last_id + (attachCalls rest + 1) ≤ c.vmoid_max := hroom
      have hlt : s.last_id < c.vmoid_max := by omega
      have hfree : s.last_id ∉ s.registered := fun h => Nat.lt_irrefl _ (hreg _ h)
      cases alloc_ok with
      | true =>
        have ha := AttachVmo_at_cursor c s vmo hlt hfree
        have hl : (s.step c (ServerOp.AttachVmo vmo true)).last_id = s.last_id + 1 := by
          show (s.AttachVmo c vmo true).server.last_id = _
          rw [ha]
        have hiss : (ServerOp.AttachVmo vmo true).issues c s = some s.last_id := by
          show (s.AttachVmo c vmo true).out = _
          rw [ha]
        have hr : ∀ id ∈ (s.step c (ServerOp.AttachVmo vmo true)).registered,
            id < (s.step c (ServerOp.AttachVmo vmo true)).last_id := by
          intro id hid
          rw [hl]
          rcases step_registered_sub c s _ id hid with h | h
          · have := hreg id h
            omega
          · rw [hiss] at h
            have := Option.some.inj h
            omega
        obtain ⟨i1, i2, i3, i4, i5⟩ := ih (s.step c (ServerOp.AttachVmo vmo true)) hr
          (by rw [hl]; omega)
        have hissued : BlockServer.issued c s (ServerOp.AttachVmo vmo true :: rest) =
            [s.last_id] ++ BlockServer.issued c (s.step c (ServerOp.AttachVmo vmo true)) rest := by
          rw [BlockServer.issued, hiss]
        rw [hl] at i1 i3 i5
        refine ⟨?_, i2, ?_, ?_, ?_⟩
        · show ((s.step c (ServerOp.AttachVmo vmo true)).run c rest).last_id =
            s.last_id + (attachCalls rest + 1)
          rw [i1]
          omega
        · intro id hid
          show s.last_id ≤ id ∧ id < s.last_id + (attachCalls rest + 1)
          rw [hissued, List.mem_append, List.mem_singleton] at hid
          rcases hid with hid | hid
          · omega
          · have := i3 id hid
            omega
        · rw [hissued, List.pairwise_append]
          refine ⟨List.pairwise_singleton _ _, i4, ?_⟩
          intro a ha2 b hb
          rw [List.mem_singleton] at ha2
          have := (i3 b hb).1
          omega
        · intro hall
          have hall2 : allAllocated rest = true := by
            have h2 : (true && allAllocated rest) = true := hall
            simpa using h2
          rw [hissued, i5 hall2]
          show _ = List.range' s.last_id (attachCalls rest + 1)
          rw [List.range'_succ]
          rfl
      | false =>
        have ha := AttachVmo_cursor_no_memory c s vmo hlt hfree
        have hl : (s.step c (ServerOp.AttachVmo vmo false)).last_id = s.last_id + 1 := by
          show (s.AttachVmo c vmo false).server.last_id = _
          rw [ha]
        have hiss : (ServerOp.AttachVmo vmo false).issues c s = none := by
          show (s.AttachVmo c vmo false).out = _
          rw [ha]
        have hr : ∀ id ∈ (s.step c (ServerOp.AttachVmo vmo false)).registered,
            id < (s.step c (ServerOp.AttachVmo vmo false)).last_id := by
          intro id hid
          rw [hl]
          rcases step_registered_sub c s _ id hid with h | h
          · have := hreg id h
            omega
          · rw [hiss] at h
            exact Option.noConfusion h
        obtain ⟨i1, i2, i3, i4, _⟩ := ih (s.step c (ServerOp.AttachVmo vmo false)) hr
          (by rw [hl]; omega)
        have hissued : BlockServer.issued c s (ServerOp.AttachVmo vmo false :: rest) =
            BlockServer.issued c (s.step c (ServerOp.AttachVmo vmo false)) rest := by
          rw [BlockServer.issued, hiss]
          rfl
        rw [hl] at i1 i3
        refine ⟨?_, i2, ?_, ?_, ?_⟩
        · show ((s.step c (ServerOp.AttachVmo vmo false)).run c rest).last_id =
            s.last_id + (attachCalls rest + 1)
          rw [i1]
          omega
        · intro id hid
          show s.last_id ≤ id ∧ id < s.last_id + (attachCalls rest + 1)
          rw [hissued] at hid
          have := i3 id hid
          omega
        · rw [hissued]
          exact i4
        · intro hall
          have h2 : (false && allAllocated rest) = true := hall
          exact absurd h2 (by simp)
    · have hop : ∀ vmo alloc_ok, op ≠ ServerOp.AttachVmo vmo alloc_ok :=
        fun vmo alloc_ok h => hatt ⟨vmo, alloc_ok, h⟩
      obtain ⟨hl, hiss, hsub⟩ := step_last_id c s op hop
      obtain ⟨hcalls, hallo⟩ := attachCalls_other op rest hop
      rw [hcalls] at hroom ⊢
      rw [hallo]
      have hr : ∀ id ∈ (s.step c op).registered, id < (s.step c op).last_id := by
        intro id hid
        rw [hl]
        exact hreg id (hsub id hid)
      obtain ⟨i1, i2, i3, i4, i5⟩ := ih (s.step c op) hr (by rw [hl]; exact hroom)
      have hissued : BlockServer.issued c s (op :: rest) =
          BlockServer.issued c (s.step c op) rest := by
        rw [BlockServer.issued, hiss]
        rfl
      rw [hl] at i1 i3 i5
      rw [hissued]
      exact ⟨i1, i2, i3, i4, i5⟩

/-- C30 (amended): on a fresh server, after any sequence of operations with
so few `AttachVmo` calls that the cursor has not passed `max(vmoid_t)`: the
cursor is `VMOID_INVALID + 1` plus the number of `AttachVmo` calls made,
whether their allocation succeeded or failed; the ids returned by the
successful calls are strictly increasing, so no id is handed out twice, also
not one freed by `BLOCKIO_CLOSE_VMO`; when no allocation failed the `k`-th
successful `AttachVmo` returns `VMOID_INVALID + k`; and the next `AttachVmo`
gets the id at the cursor, which it consumes even when its allocation
fails. -/
theorem vmoids_issued_in_order (c : Consts) (hs : c.Shape) (max_transfer_size : Nat)
    (ops : List ServerOp) (hroom : c.VMOID_INVALID + 1 + attachCalls ops ≤ c.vmoid_max) :
    ((BlockServer.new c max_transfer_size).run c ops).last_id =
      c.VMOID_INVALID + 1 + attachCalls ops ∧
    (BlockServer.issued c (BlockServer.new c max_transfer_size) ops).Pairwise
      (fun a b => a < b) ∧
    (BlockServer.issued c (BlockServer.new c max_transfer_size) ops).Nodup ∧
    (∀ id ∈ BlockServer.issued c (BlockServer.new c max_transfer_size) ops,
      c.VMOID_INVALID < id ∧ id < c.VMOID_INVALID + 1 + attachCalls ops) ∧
    (allAllocated ops = true →
      BlockServer.issued c (BlockServer.new c max_transfer_size) ops =
        List.range' (c.VMOID_INVALID + 1) (attachCalls ops) ∧
      ∀ k, 1 ≤ k → k ≤ attachCalls ops →
        (BlockServer.issued c (BlockServer.new c max_transfer_size) ops).getD (k - 1) 0 =
          c.VMOID_INVALID + k) ∧
    (c.VMOID_INVALID + 1 + attachCalls ops < c.vmoid_max → ∀ vmo : zx_vmo,
      (((BlockServer.new c max_transfer_size).run c ops).AttachVmo c vmo true).status
        = c.ZX_OK ∧
      (((BlockServer.new c max_transfer_size).run c ops).AttachVmo c vmo true).out =
        some (c.VMOID_INVALID + 1 + attachCalls ops) ∧
      (((BlockServer.new c max_transfer_size).run c ops).AttachVmo c vmo false).status
        = c.ZX_ERR_NO_MEMORY ∧
      (((BlockServer.new c max_transfer_size).run c ops).AttachVmo c vmo
          false).server.last_id = c.VMOID_INVALID + 1 + attachCalls ops + 1) := by
  have hlt := hs.invalid_lt_max
  have hnew : (BlockServer.new c max_transfer_size).last_id = c.VMOID_INVALID + 1 :=
    Nat.mod_eq_of_lt (by omega)
  obtain ⟨i1, i2, i3, i4, i5⟩ := run_cursor c ops (BlockServer.new c max_transfer_size)
    (fun id hid => absurd hid (List.not_mem_nil id)) (by rw [hnew]; exact hroom)
  rw [hnew] at i1 i3 i5
  refine ⟨i1, i4, List.Pairwise.imp (fun h => Nat.ne_of_lt h) i4, ?_, ?_, ?_⟩
  · intro id hid
    have := i3 id hid
    omega
  · intro hall
    refine ⟨i5 hall, ?_⟩
    intro k hk1 hk2
    rw [i5 hall, List.getD_eq_getElem _ _ (by rw [List.length_range']; omega),
      List.getElem_range']
    omega
  · intro hnext vmo
    have hfree : ((BlockServer.new c max_transfer_size).run c ops).last_id ∉
        ((BlockServer.new c max_transfer_size).run c ops).registered :=
      fun h => Nat.lt_irrefl _ (i2 _ h)
    have hcur : ((BlockServer.new c max_transfer_size).run c ops).last_id < c.vmoid_max := by
      rw [i1]; exact hnext
    rw [AttachVmo_at_cursor c _ vmo hcur hfree, AttachVmo_cursor_no_memory c _ vmo hcur hfree]
    dsimp only
    rw [i1]
    exact ⟨rfl, rfl, rfl, rfl⟩

theorem vmoids_issued_in_order_witness :
    (zircon.Shape ∧ zircon.VMOID_INVALID + 1 + attachCalls reattachOps ≤ zircon.vmoid_max ∧
      allAllocated reattachOps = true) ∧
    ((BlockServer.new zircon 1000).run zircon closeOps).registered = [] ∧
    BlockServer.issued zircon (BlockServer.new zircon 1000) reattachOps = [1, 2] :=
  ⟨⟨zircon_Shape, by decide, by decide⟩, by decide,
   (((vmoids_issued_in_order zircon zircon_Shape 1000 reattachOps (by decide)).2.2.2.2.1
      (by decide)).1).trans (by decide)⟩

/-- C30 as stated fails: on a fresh server, an `AttachVmo` whose allocation
fails returns `ZX_ERR_NO_MEMORY` after the cursor has moved past id 1, so the
first successful `AttachVmo` returns the id 2 and not `VMOID_INVALID + 1`. -/
theorem first_successful_attach_skips_id :
    ((BlockServer.new zircon 0).AttachVmo zircon scenarioVmo false).status
      = zircon.ZX_ERR_NO_MEMORY ∧
    ((BlockServer.new zircon 0).AttachVmo zircon scenarioVmo false).out = none ∧
    (((BlockServer.new zircon 0).AttachVmo zircon scenarioVmo false).server.AttachVmo zircon
      scenarioVmo true).status = zircon.ZX_OK ∧
    (((BlockServer.new zircon 0).AttachVmo zircon scenarioVmo false).server.AttachVmo zircon
      scenarioVmo true).out = some 2 ∧
    BlockServer.issued zircon (BlockServer.new zircon 0) failedAttachOps = [2] ∧
    (2 : Nat) ≠ zircon.VMOID_INVALID + 1 := by
  decide

end Zircon
